import Mathlib

/-!
Package dataset: format registry, format configuration and Structure encoding

A shallow embedding of the Go package `dataset` (files `dataFormat.go`,
`format_config.go`, `structure.go`) and of the header heuristic of
`detect/determineFields.go`.

Conventions of the embedding:

* Go `string` is `String`; Go `int` is `Int`.
* JSON text handled by `encoding/json` is represented by its value tree `JSON`;
  object members keep their textual order (a list of key/value pairs).
* A Go value of type `interface{}` obtained from decoding JSON is such a tree;
  the nil interface is `JSON.null`.
* Go `(value, error)` results are `Except Err value`, except where the source
  returns a meaningful value next to the error (`ParseDataFormatString`).
-/

namespace Dataset

/-- JSON value trees. Numbers keep their literal text. -/
inductive JSON where
  | null
  | bool (b : Bool)
  | num (lit : String)
  | str (s : String)
  | arr (xs : List JSON)
  | obj (kvs : List (String × JSON))
  deriving Repr, Inhabited

/-- Errors raised by the embedded code, one constructor per error site. -/
inductive Err where
  /-- Raised by `fmt.Errorf("invalid DataFormat %q", s)` in `ParseDataFormatString`. -/
  | invalidDataFormat (s : String)
  /-- Raised by `fmt.Errorf("Filed type should be a string, got %s", data)` in `DataFormat.UnmarshalJSON`. -/
  | fieldTypeNotString (data : JSON)
  /-- Raised by `fmt.Errorf("invalid header_row value: %s", ...)` in `NewCsvOptions`. -/
  | invalidHeaderRow (v : JSON)
  /-- Raised by `fmt.Errorf("invalid object_entries value: %s", ...)` in `NewJsonOptions`. -/
  | invalidObjectEntries (v : JSON)
  /-- Package `encoding/json`: a `MarshalJSON` method returned bytes that are not a JSON text. -/
  | marshalerError
  /-- Package `encoding/json`: a JSON value cannot be stored in the Go destination. -/
  | unmarshalTypeError (field : String)
  /-- An error of a codec that is passed in as a parameter. -/
  | codec (msg : String)
  deriving Repr, Inhabited

/-! ## dataFormat.go -/

/-- Embeds `type DataFormat int`. -/
structure DataFormat where
  tag : Int
  deriving DecidableEq, Repr, Inhabited

def UnknownDataFormat : DataFormat := ⟨0⟩
def CsvDataFormat : DataFormat := ⟨1⟩
def JsonDataFormat : DataFormat := ⟨2⟩
def XmlDataFormat : DataFormat := ⟨3⟩
def XlsDataFormat : DataFormat := ⟨4⟩

/-- Embeds `func (f DataFormat) String() string`: lookup in the literal map, `""` when absent. -/
def DataFormat.String (f : DataFormat) : String :=
  if f = UnknownDataFormat then ""
  else if f = CsvDataFormat then "csv"
  else if f = JsonDataFormat then "json"
  else if f = XmlDataFormat then "xml"
  else if f = XlsDataFormat then "xls"
  else ""

/-- Embeds `func ParseDataFormatString(s string) (df DataFormat, err error)`: lookup in the
literal map; when the key is absent the result is `UnknownDataFormat` with an error. -/
def ParseDataFormatString (s : String) : DataFormat × Option Err :=
  if s = "" then (UnknownDataFormat, none)
  else if s = "csv" then (CsvDataFormat, none)
  else if s = "json" then (JsonDataFormat, none)
  else if s = "xml" then (XmlDataFormat, none)
  else if s = "xls" then (XlsDataFormat, none)
  else (UnknownDataFormat, some (Err.invalidDataFormat s))

/-- The keys of the literal map in `ParseDataFormatString`. -/
def knownNames : List String := ["", "csv", "json", "xml", "xls"]

/-- The formats enumerated by the `const` block. -/
def knownDataFormats : List DataFormat :=
  [UnknownDataFormat, CsvDataFormat, JsonDataFormat, XmlDataFormat, XlsDataFormat]

/-- The bytes returned by a `MarshalJSON` method: `none` is the nil (empty) byte slice,
`some j` is the text of the JSON value `j`. -/
abbrev RawMessage := Option JSON

/-- Embeds `func (f DataFormat) MarshalJSON() ([]byte, error)`: `nil, nil` for the unknown format,
otherwise the name between double quotes. Every name returned by `String` is free of
characters that JSON escapes, so the quoted text is the JSON string of that name. -/
def DataFormat.MarshalJSON (f : DataFormat) : Except Err RawMessage :=
  if f = UnknownDataFormat then .ok none
  else .ok (some (JSON.str f.String))

/-- Call `json.Unmarshal(data, &s)` for `var s string`: a JSON string is stored, `null` leaves
`s` untouched, any other value is an error. -/
def unmarshalString (s : String) (data : JSON) : Except Err String :=
  match data with
  | .str t => .ok t
  | .null => .ok s
  | _ => .error (Err.unmarshalTypeError "string")

/-- Embeds `func (f *DataFormat) UnmarshalJSON(data []byte) error`: the result is the new value of
`*f`; on an error `*f` is left as it was. -/
def DataFormat.UnmarshalJSON (_f : DataFormat) (data : JSON) : Except Err DataFormat :=
  match unmarshalString "" data with
  | .error _ => .error (Err.fieldTypeNotString data)
  | .ok s =>
    match ParseDataFormatString s with
    | (_, some err) => .error err
    | (df, none) => .ok df

/-! ## format_config.go -/

/-- Go `map[string]interface{}`: `none` is the nil map, `some kvs` a map holding the entries
`kvs` (keys distinct). -/
abbrev OptionMap := Option (List (String × JSON))

/-- The index expression `opts[key]`: the nil interface when the key is missing or the map is nil. -/
def OptionMap.index (opts : OptionMap) (key : String) : JSON :=
  match opts with
  | none => JSON.null
  | some kvs => (kvs.lookup key).getD JSON.null

/-- Embeds `type CsvOptions struct { HeaderRow bool }`. -/
structure CsvOptions where
  HeaderRow : Bool
  deriving DecidableEq, Repr, Inhabited

/-- Embeds `type JsonOptions struct { ObjectEntries bool }`. -/
structure JsonOptions where
  ObjectEntries : Bool
  deriving DecidableEq, Repr, Inhabited

/-- A non-nil value of the interface `FormatConfig`. Its dynamic type is `*CsvOptions` or
`*JsonOptions`; the pointer it holds may itself be nil (`none`). -/
inductive FormatConfig where
  | csvOptions (o : Option CsvOptions)
  | jsonOptions (o : Option JsonOptions)
  deriving DecidableEq, Repr, Inhabited

/-- Embeds `func (*CsvOptions) Format()` and `func (*JsonOptions) Format()`. -/
def FormatConfig.Format : FormatConfig → DataFormat
  | .csvOptions _ => CsvDataFormat
  | .jsonOptions _ => JsonDataFormat

/-- Embeds `func (o *CsvOptions) Map()` and `func (o *JsonOptions) Map()`. -/
def FormatConfig.Map : FormatConfig → OptionMap
  | .csvOptions none => none
  | .csvOptions (some o) => some [("header_row", JSON.bool o.HeaderRow)]
  | .jsonOptions none => none
  | .jsonOptions (some o) => some [("object_entries", JSON.bool o.ObjectEntries)]

/-- Embeds `func NewCsvOptions(opts map[string]interface{}) (FormatConfig, error)`. -/
def NewCsvOptions (opts : OptionMap) : Except Err FormatConfig :=
  match opts with
  | none => .ok (.csvOptions (some { HeaderRow := false }))
  | some _ =>
    match opts.index "header_row" with
    | .null => .ok (.csvOptions (some { HeaderRow := false }))
    | .bool headerRow => .ok (.csvOptions (some { HeaderRow := headerRow }))
    | v => .error (Err.invalidHeaderRow v)

/-- Embeds `func NewJsonOptions(opts map[string]interface{}) (FormatConfig, error)`. -/
def NewJsonOptions (opts : OptionMap) : Except Err FormatConfig :=
  match opts with
  | none => .ok (.jsonOptions (some { ObjectEntries := false }))
  | some _ =>
    match opts.index "object_entries" with
    | .null => .ok (.jsonOptions (some { ObjectEntries := false }))
    | .bool objEntries => .ok (.jsonOptions (some { ObjectEntries := objEntries }))
    | v => .error (Err.invalidObjectEntries v)

/-- Embeds `func ParseFormatConfigMap(f DataFormat, opts map[string]interface{}) (FormatConfig, error)`;
`.ok none` is the result `nil, nil`. -/
def ParseFormatConfigMap (f : DataFormat) (opts : OptionMap) : Except Err (Option FormatConfig) :=
  if f = CsvDataFormat then (NewCsvOptions opts).map some
  else if f = JsonDataFormat then (NewJsonOptions opts).map some
  else .ok none

/-! ## structure.go -/

/-- What `encoding/json` does with a value of a type declared outside the embedded files
(`compression.Type`, `Schema`): the type's zero value, the `omitempty` test, how a value is
encoded, and how a JSON value is decoded into a destination holding `cur`. -/
structure JSONCodec (α : Type) where
  zero : α
  isEmpty : α → Bool
  marshal : α → Except Err JSON
  unmarshal : (cur : α) → JSON → Except Err α

/-- Embeds `type Structure struct`, over the types of its `Compression` and `Schema` fields.
`FormatConfig` is `none` for the nil interface, `Schema` is `none` for the nil pointer.
`Encoding` is a `String` of Unicode characters, that is a Go string holding valid UTF-8: a Go
string with other bytes, which `json.Marshal` rewrites to U+FFFD, has no counterpart here. -/
structure Structure (Cmp Sch : Type) where
  Format : DataFormat
  FormatConfig : Option FormatConfig
  Encoding : String
  Compression : Cmp
  Schema : Option Sch
  deriving DecidableEq, Repr

/-- Embeds `type _structure struct`, the type marshalled into and out of; fields in declaration order. -/
structure _structure (Cmp Sch : Type) where
  Compression : Cmp
  Encoding : String
  Format : DataFormat
  FormatConfig : OptionMap
  Schema : Option Sch

/-- Package `encoding/json` copies the bytes of a `MarshalJSON` method into the output after checking
that they are a JSON text; the empty slice is not one (`unexpected end of JSON input`). -/
def compactRaw (b : RawMessage) : Except Err JSON :=
  match b with
  | none => .error Err.marshalerError
  | some j => .ok j

/-- Insertion of a member into a list of members ordered by key. -/
def insertMember (p : String × JSON) : List (String × JSON) → List (String × JSON)
  | [] => [p]
  | q :: qs => if q.1 < p.1 then q :: insertMember p qs else p :: q :: qs

/-- Package `encoding/json` writes the entries of a map ordered by key. -/
def sortMembers (kvs : List (String × JSON)) : List (String × JSON) :=
  kvs.foldr insertMember []

/-- A struct member of map type tagged `omitempty`: left out when the map has no entries,
otherwise written as an object. -/
def omitemptyMap (name : String) (m : OptionMap) : List (String × JSON) :=
  match m with
  | none => []
  | some [] => []
  | some kvs => [(name, JSON.obj (sortMembers kvs))]

/-- Call `json.Marshal(&_structure{...})`: the members of the struct in declaration order under the
names of their tags; `omitempty` members are left out when empty (for a map: no entries, for
a pointer: nil, for a string: `""`), `format` is always written, by `DataFormat.MarshalJSON`. -/
def marshal_structure {Cmp Sch : Type} (cc : JSONCodec Cmp) (sc : JSONCodec Sch)
    (v : _structure Cmp Sch) : Except Err JSON := do
  let compression ←
    if cc.isEmpty v.Compression then pure []
    else do
      let j ← cc.marshal v.Compression
      pure [("compression", j)]
  let encoding := if v.Encoding = "" then [] else [("encoding", JSON.str v.Encoding)]
  let raw ← DataFormat.MarshalJSON v.Format
  let format ← compactRaw raw
  let formatConfig := omitemptyMap "formatConfig" v.FormatConfig
  let schema ←
    match v.Schema with
    | none => pure []
    | some sch => do
      let j ← sc.marshal sch
      pure [("schema", j)]
  pure (JSON.obj (compression ++ encoding ++ [("format", format)] ++ formatConfig ++ schema))

/-- The tag names of `_structure` in declaration order. -/
def canonicalKeys : List String :=
  ["compression", "encoding", "format", "formatConfig", "schema"]

/-- Embeds `func (r Structure) MarshalJSON() (data []byte, err error)`. -/
def Structure.MarshalJSON {Cmp Sch : Type} (cc : JSONCodec Cmp) (sc : JSONCodec Sch)
    (r : Structure Cmp Sch) : Except Err JSON :=
  let opt : OptionMap :=
    match r.FormatConfig with
    | some c => c.Map
    | none => none
  marshal_structure cc sc
    { Compression := r.Compression
      Encoding := r.Encoding
      Format := r.Format
      FormatConfig := opt
      Schema := r.Schema }

/-- The case folding `encoding/json` applies when it compares an object key with a field
name: ASCII letters regardless of case, the Kelvin sign with `k`, the long s with `s`. -/
def foldRune (c : Char) : Char :=
  if c = Char.ofNat 0x212A then Char.ofNat 107
  else if c = Char.ofNat 0x17F then Char.ofNat 115
  else c.toLower

def foldName (key : String) : String :=
  String.mk (key.data.map foldRune)

/-- The fields of `_structure`. -/
inductive StructField where
  | compression | encoding | format | formatConfig | schema
  deriving DecidableEq, Repr

/-- The field an object key is stored in: the one whose tag name equals the key, exactly or
under case folding (the five names stay distinct under folding); `none` for any other key. -/
def fieldForKey (key : String) : Option StructField :=
  let k := foldName key
  if k = "compression" then some .compression
  else if k = "encoding" then some .encoding
  else if k = "format" then some .format
  else if k = "formatconfig" then some .formatConfig
  else if k = "schema" then some .schema
  else none

/-- Storing an entry in a map: a previous entry of the same key is replaced. -/
def mapSet (kvs : List (String × JSON)) (key : String) (v : JSON) : List (String × JSON) :=
  kvs.filter (fun p => p.1 != key) ++ [(key, v)]

/-- Decoding a JSON object into a map destination: each member is stored in turn. -/
def decodeMap (cur : List (String × JSON)) (members : List (String × JSON)) :
    List (String × JSON) :=
  members.foldl (fun m p => mapSet m p.1 p.2) cur

/-- Decoding a JSON value into a destination of type `map[string]interface{}` holding
`cur`: an object is stored entry by entry (a nil map is allocated first), `null` makes the
map nil, any other value is an error. -/
def unmarshalMap (cur : OptionMap) (v : JSON) : Except Err OptionMap :=
  match v with
  | .obj members => .ok (some (decodeMap (cur.getD []) members))
  | .null => .ok none
  | _ => .error (Err.unmarshalTypeError "formatConfig")

/-- Decoding a JSON value into a pointer destination holding `cur`: `null` makes the pointer
nil, any other value is decoded into the value pointed to (allocated when the pointer is nil). -/
def unmarshalPointer {α : Type} (c : JSONCodec α) (cur : Option α) (v : JSON) :
    Except Err (Option α) :=
  match v with
  | .null => .ok none
  | _ => (c.unmarshal (cur.getD c.zero) v).map some

/-- Decoding one object member into the `_structure` destination `r`. -/
def decodeMember {Cmp Sch : Type} (cc : JSONCodec Cmp) (sc : JSONCodec Sch)
    (r : _structure Cmp Sch) (key : String) (v : JSON) : Except Err (_structure Cmp Sch) :=
  match fieldForKey key with
  | none => .ok r
  | some .compression =>
    (cc.unmarshal r.Compression v).map (fun c => { r with Compression := c })
  | some .encoding =>
    ((unmarshalString r.Encoding v).mapError
      (fun _ => Err.unmarshalTypeError "encoding")).map (fun e => { r with Encoding := e })
  | some .format =>
    (DataFormat.UnmarshalJSON r.Format v).map (fun f => { r with Format := f })
  | some .formatConfig =>
    (unmarshalMap r.FormatConfig v).map (fun m => { r with FormatConfig := m })
  | some .schema =>
    (unmarshalPointer sc r.Schema v).map (fun sch => { r with Schema := sch })

/-- Decoding the members of an object in their textual order; the first error ends it. -/
def decodeMembers {Cmp Sch : Type} (cc : JSONCodec Cmp) (sc : JSONCodec Sch) :
    List (String × JSON) → _structure Cmp Sch → Except Err (_structure Cmp Sch)
  | [], r => .ok r
  | (key, v) :: rest, r =>
    match decodeMember cc sc r key v with
    | .error err => .error err
    | .ok r1 => decodeMembers cc sc rest r1

/-- Call `json.Unmarshal(data, _r)` for `_r := &_structure{}`: an object is decoded member by
member, `null` leaves the zero value, any other value is an error. Only the fact of an
error is modelled, not which of several errors is reported. -/
def unmarshal_structure {Cmp Sch : Type} (cc : JSONCodec Cmp) (sc : JSONCodec Sch)
    (data : JSON) : Except Err (_structure Cmp Sch) :=
  let zero : _structure Cmp Sch :=
    { Compression := cc.zero, Encoding := "", Format := UnknownDataFormat,
      FormatConfig := none, Schema := none }
  match data with
  | .obj members => decodeMembers cc sc members zero
  | .null => .ok zero
  | _ => .error (Err.unmarshalTypeError "_structure")

/-- Embeds `func (r *Structure) UnmarshalJSON(data []byte) error`: the result is the new value of `*r`. -/
def Structure.UnmarshalJSON {Cmp Sch : Type} (cc : JSONCodec Cmp) (sc : JSONCodec Sch)
    (data : JSON) : Except Err (Structure Cmp Sch) :=
  match unmarshal_structure cc sc data with
  | .error err => .error err
  | .ok _r =>
    match ParseFormatConfigMap _r.Format _r.FormatConfig with
    | .error err => .error err
    | .ok fmtCfg =>
      .ok { Compression := _r.Compression
            Encoding := _r.Encoding
            Format := _r.Format
            FormatConfig := fmtCfg
            Schema := _r.Schema }

/-- A sample codec for closed examples, that of a Go `string`-kinded type without methods:
empty when `""`, encoded as a JSON string, decoded from a JSON string (`null` leaves the
destination as it is). It stands for no type of the program: `compression.Type` and `Schema`
are declared outside the embedded files. -/
def stringCodec : JSONCodec String where
  zero := ""
  isEmpty := fun s => s = ""
  marshal := fun s => .ok (JSON.str s)
  unmarshal := unmarshalString

/-! ## detect/determineFields.go -/

/-- Go `unicode.IsSpace`: the white space characters of Unicode. -/
def isSpace (c : Char) : Bool :=
  let n := c.toNat
  (0x09 ≤ n && n ≤ 0x0D) || n = 0x20 || n = 0x85 || n = 0xA0 || n = 0x1680 ||
    (0x2000 ≤ n && n ≤ 0x200A) || n = 0x2028 || n = 0x2029 || n = 0x202F ||
    n = 0x205F || n = 0x3000

/-- Go `strings.TrimSpace`: the string without its leading and trailing white space. -/
def TrimSpace (s : String) : String :=
  String.mk ((s.data.dropWhile isSpace).reverse.dropWhile isSpace).reverse

/-- Embeds `func possibleCsvHeaderRow(header []string) bool`, over the two parsers of package
`datatypes` it calls; only whether a parser returns an error is looked at. -/
def possibleCsvHeaderRow {I F : Type} (ParseInteger : String → Except Err I)
    (ParseFloat : String → Except Err F) : List String → Bool
  | [] => true
  | rawCol :: rest =>
    let col := TrimSpace rawCol
    match ParseInteger col with
    | .ok _ => false
    | .error _ =>
      match ParseFloat col with
      | .ok _ => false
      | .error _ =>
        if col = "" then false
        else if col = "true" ∨ col = "false" then false
        else possibleCsvHeaderRow ParseInteger ParseFloat rest

/-- The value of a run of decimal digits, `none` when the run is empty or holds another
character. -/
def digitsValue (cs : List Char) : Option Nat :=
  if cs.isEmpty || !cs.all Char.isDigit then none
  else some (cs.foldl (fun acc c => 10 * acc + (c.toNat - 48)) 0)

/-- An optional sign in front of a run of characters: the sign (`true` for minus) and the rest. -/
def splitSign : List Char → Bool × List Char
  | c :: cs =>
    if c = Char.ofNat 45 then (true, cs)
    else if c = Char.ofNat 43 then (false, cs)
    else (false, c :: cs)
  | [] => (false, [])

/-- Modelled from the spec: `datatypes.ParseInteger`, which is not among the embedded files;
the spec speaks of a cell that "parses as an integer literal": an optional sign followed by
decimal digits. -/
def ParseInteger (value : String) : Except Err Int :=
  let (neg, ds) := splitSign value.data
  match digitsValue ds with
  | some n => .ok (if neg then -(n : Int) else n)
  | none => .error (Err.codec "invalid integer")

/-- Modelled from the spec: `datatypes.ParseFloat`, which is not among the embedded files;
the spec speaks of a cell that "parses as a floating-point literal": an optional sign,
decimal digits, and an optional fraction after a point. The value is the pair of the
signed digits and the number of fraction digits. -/
def ParseFloat (value : String) : Except Err (Int × Nat) :=
  let (neg, cs) := splitSign value.data
  let whole := cs.takeWhile (fun c => c != Char.ofNat 46)
  let frac := (cs.dropWhile (fun c => c != Char.ofNat 46)).drop 1
  let hasPoint := cs.any (fun c => c = Char.ofNat 46)
  match digitsValue (whole ++ frac) with
  | some n =>
    if hasPoint && (whole.isEmpty || frac.isEmpty) then .error (Err.codec "invalid float")
    else .ok (if neg then -(n : Int) else n, frac.length)
  | none => .error (Err.codec "invalid float")

/-- Modelled from the spec: `type Field struct`, whose declaration is not among the embedded
files: "name (identifier string), type (tag from an extensible datatype domain), optional
title, description, missing-value sentinel, sub-format string, constraints". The types of
the tag, of the sentinel and of the constraints are parameters; a slice `[]*Field` is a list
of fields (no nil pointers). -/
structure Field (T M C : Type) where
  Name : String
  Type_ : T
  MissingValue : M
  Format : String
  Constraints : C
  Title : String
  Description : String
  deriving DecidableEq, Repr

/-- The declarations used by `detect/determineFields.go` that are not among the embedded
files: the tag `datatypes.Any`, the classifier `datatypes.ParseDatatype`, the two parsers
behind the header heuristic, and `Camelize`. -/
structure DetectEnv (T I F : Type) where
  Any : T
  ParseDatatype : String → T
  ParseInteger : String → Except Err I
  ParseFloat : String → Except Err F
  Camelize : String → String

/-- Go `map[datatypes.Type]int`: the entries of the map in the order they were created. -/
abbrev Tally (T : Type) := List (T × Nat)

/-- The index expression `tally[typ]`: `0` when the key is missing. -/
def tallyGet {T : Type} [DecidableEq T] : Tally T → T → Nat
  | [], _ => 0
  | (k, c) :: rest, typ => if k = typ then c else tallyGet rest typ

/-- The statement `tally[typ]++`: the entry is created when the key is missing. -/
def tallyIncr {T : Type} [DecidableEq T] : Tally T → T → Tally T
  | [], typ => [(typ, 1)]
  | (k, c) :: rest, typ =>
    if k = typ then (k, c + 1) :: rest else (k, c) :: tallyIncr rest typ

/-- The loop `for i, cell := range rec { types[i][datatypes.ParseDatatype(cell)]++ }` from
the cell of index `i` on; `none` is the run-time panic of `types[i]` with `i` out of range. -/
def tallyCells {T : Type} [DecidableEq T] (ParseDatatype : String → T) :
    Nat → List String → List (Tally T) → Option (List (Tally T))
  | _, [], types => some types
  | i, cell :: cells, types =>
    if i < types.length then
      tallyCells ParseDatatype (i + 1) cells
        (types.set i (tallyIncr (types.getD i []) (ParseDatatype cell)))
    else none

/-- What a call `r.Read()` of the `csv.Reader` returns: a record, or an error with its
message (`io.EOF` has the message `EOF`). -/
inductive ReadResult where
  | record (cells : List String)
  | error (msg : String)
  deriving DecidableEq, Repr

/-- How the scanning loop of `CSVFields` ends. -/
inductive ScanOutcome (T : Type) where
  /-- The loop was left by `break`; the tallies, `count` and the reads not yet made. -/
  | done (types : List (Tally T)) (count : Nat) (rest : List ReadResult)
  /-- The loop was left by `return fields, err`. -/
  | failed (msg : String) (types : List (Tally T)) (count : Nat) (rest : List ReadResult)
  /-- The tally update indexed `types` out of range. -/
  | panic
  deriving Repr

/-- The loop `count := 0; for { rec, err := r.Read(); ... }` of `CSVFields`, over the results
of the reads still to come (after the last of them every read returns `io.EOF`). -/
def scanRecords {T : Type} [DecidableEq T] (ParseDatatype : String → T) :
    List ReadResult → List (Tally T) → Nat → ScanOutcome T
  | [], types, count => .done types count []
  | .error msg :: rest, types, count =>
    if count > 2000 then .done types count rest
    else if msg = "EOF" then .done types count rest
    else .failed msg types count rest
  | .record rec :: rest, types, count =>
    if count > 2000 then .done types count rest
    else
      match tallyCells ParseDatatype 0 rec types with
      | none => .panic
      | some types1 => scanRecords ParseDatatype rest types1 (count + 1)

/-- The inner loop `for typ, count := range tally { if count > tally[fields[i].Type] {...} }`
with the keys of the map visited in the order `order`; the result is `fields[i].Type`. -/
def resolveType {T : Type} [DecidableEq T] (tally : Tally T) (order : List T) (cur : T) : T :=
  order.foldl (fun cur typ => if tallyGet tally typ > tallyGet tally cur then typ else cur) cur

/-- The loop `for i, tally := range types` from the column of index `i` on; `iter i tally`
is the order in which the run time visits the keys of the map of column `i`. -/
def resolveTypes {T M C : Type} [DecidableEq T] (iter : Nat → Tally T → List T) :
    Nat → List (Field T M C) → List (Tally T) → List (Field T M C)
  | i, f :: fields, tally :: types =>
    { f with Type_ := resolveType tally (iter i tally) f.Type_ } ::
      resolveTypes iter (i + 1) fields types
  | _, fields, _ => fields

/-- The state in which a call of `CSVFields` returns: the two results, the Structure behind
`resource`, and the locals `types` and `count` with the reads not yet made. -/
structure CSVFieldsRun (Cmp Sch T M C : Type) where
  fields : Option (List (Field T M C))
  err : Option String
  resource : Structure Cmp Sch
  types : List (Tally T)
  count : Nat
  rest : List ReadResult

/-- The fields `CSVFields` allocates first: `field_1`, `field_2`, ... of type `Any`. -/
def initialFields {T M C : Type} [Inhabited M] [Inhabited C] (any : T) (n : Nat) :
    List (Field T M C) :=
  (List.range n).map fun i =>
    { Name := "field_" ++ toString (i + 1), Type_ := any, MissingValue := default,
      Format := "", Constraints := default, Title := "", Description := "" }

/-- The loop `for i, f := range fields { f.Name = Camelize(header[i]); f.Type = datatypes.Any }`. -/
def headerFields {T M C : Type} (any : T) (Camelize : String → String)
    (fields : List (Field T M C)) (header : List String) : List (Field T M C) :=
  List.zipWith (fun f cell => { f with Name := Camelize cell, Type_ := any }) fields header

/-- Embeds `func CSVFields(resource *dataset.Structure, data io.Reader)`, over the results
`data` of the reads of the `csv.Reader` and the order `iter` in which the maps are ranged
over; `none` is a run-time panic. -/
def CSVFields {Cmp Sch T I F M C : Type} [DecidableEq T] [Inhabited M] [Inhabited C]
    (env : DetectEnv T I F) (iter : Nat → Tally T → List T)
    (resource : Structure Cmp Sch) (data : List ReadResult) :
    Option (CSVFieldsRun Cmp Sch T M C) :=
  match data with
  | [] => some ⟨none, some "EOF", resource, [], 0, []⟩
  | .error msg :: rest => some ⟨none, some msg, resource, [], 0, rest⟩
  | .record header :: rest =>
    let fields : List (Field T M C) := initialFields env.Any header.length
    let types : List (Tally T) := List.replicate header.length []
    let isHeader := possibleCsvHeaderRow env.ParseInteger env.ParseFloat header
    let fields1 := if isHeader then headerFields env.Any env.Camelize fields header else fields
    let resource1 :=
      if isHeader then
        { resource with FormatConfig := some (FormatConfig.csvOptions (some { HeaderRow := true })) }
      else resource
    let types1 := if isHeader then some types else tallyCells env.ParseDatatype 0 header types
    match types1 with
    | none => none
    | some types1 =>
      match scanRecords env.ParseDatatype rest types1 0 with
      | .panic => none
      | .failed msg types2 count rest2 =>
        some ⟨some fields1, some msg, resource1, types2, count, rest2⟩
      | .done types2 count rest2 =>
        some ⟨some (resolveTypes iter 0 fields1 types2), none, resource1, types2, count, rest2⟩

/-- Modelled from the spec: the datatype domain of package `datatypes`, which is not among
the embedded files: "any, string, integer, float, boolean, date". -/
inductive Datatype where
  | any | string | integer | float | boolean | date
  deriving DecidableEq, Repr

/-- Modelled from the spec: `datatypes.ParseDatatype`, "a most-specific-match parser cascade
over an ordered type domain (e.g. integer before float before boolean before string)". -/
def ParseDatatype (value : String) : Datatype :=
  match ParseInteger value with
  | .ok _ => Datatype.integer
  | .error _ =>
    match ParseFloat value with
    | .ok _ => Datatype.float
    | .error _ =>
      if value = "true" ∨ value = "false" then Datatype.boolean else Datatype.string

/-- Modelled from the spec: `Camelize`, which is not among the embedded files, "a
case-normalized (camel-cased) version of each header cell": the words between spaces,
underscores and hyphens are joined, the first one in lower case, the others capitalised. -/
def Camelize (s : String) : String :=
  let words := (s.data.splitOn (Char.ofNat 32)).flatMap fun w =>
    (w.splitOn (Char.ofNat 95)).flatMap fun v => (v.splitOn (Char.ofNat 45))
  let words := words.filter fun w => !w.isEmpty
  match words with
  | [] => ""
  | w :: ws =>
    String.mk (w.map Char.toLower ++
      ws.flatMap fun v =>
        match v with
        | [] => []
        | c :: cs => c.toUpper :: cs.map Char.toLower)

/-- The spec-modelled declarations of package `datatypes` and `Camelize`, put together. -/
def specEnv : DetectEnv Datatype Int (Int × Nat) where
  Any := Datatype.any
  ParseDatatype := ParseDatatype
  ParseInteger := ParseInteger
  ParseFloat := ParseFloat
  Camelize := Camelize


/-- Whether the cell of index `j` of a record exists and is classified as `typ`. -/
def classifiedAs {T : Type} [DecidableEq T] (ParseDatatype : String → T) (rec : List String)
    (j : Nat) (typ : T) : Bool :=
  match rec.get? j with
  | some cell => decide (ParseDatatype cell = typ)
  | none => false

/-- The number of records whose cell of index `j` is classified as `typ`. -/
def cellCount {T : Type} [DecidableEq T] (ParseDatatype : String → T)
    (recs : List (List String)) (j : Nat) (typ : T) : Nat :=
  recs.countP fun rec => classifiedAs ParseDatatype rec j typ


/-- An iteration order for closed examples: the keys in the order of their creation. -/
def creationOrder {T : Type} (_i : Nat) (tally : Tally T) : List T :=
  tally.map Prod.fst

/-- An iteration order for closed examples: the keys in the reverse order of their creation. -/
def reverseOrder {T : Type} (_i : Nat) (tally : Tally T) : List T :=
  (tally.map Prod.fst).reverse

/-- A csv Structure without FormatConfig, for closed examples. -/
def csvResource : Structure String String :=
  { Format := CsvDataFormat, FormatConfig := none, Encoding := "", Compression := "",
    Schema := none }


/-! ## structure.go: Abstract -/

/-- Modelled from the spec: `type Schema struct`, whose declaration is not among the embedded
files: "ordered sequence of Field, optional primary-key reference"; `Abstract` reads its
fields `PrimaryKey` and `Fields`. The type of the primary key is a parameter. -/
structure Schema (K T M C : Type) where
  PrimaryKey : K
  Fields : List (Field T M C)
  deriving DecidableEq, Repr

/-- The loop `for i, f := range s.Schema.Fields` of `Abstract` from the field of index `i`
on: each field is replaced by a new one named `col_i` that keeps `Type`, `MissingValue`,
`Format` and `Constraints`. -/
def abstractFields {T M C : Type} : Nat → List (Field T M C) → List (Field T M C)
  | _, [] => []
  | i, f :: fields =>
    { Name := "col_" ++ toString i, Type_ := f.Type_, MissingValue := f.MissingValue,
      Format := f.Format, Constraints := f.Constraints, Title := "", Description := "" } ::
      abstractFields (i + 1) fields

/-- Embeds `func (s *Structure) Abstract() *Structure`; `default` is the zero value of the
type of `Compression`, which the struct literal of `Abstract` leaves unset. -/
def Structure.Abstract {Cmp K T M C : Type} [Inhabited Cmp]
    (s : Structure Cmp (Dataset.Schema K T M C)) :
    Structure Cmp (Dataset.Schema K T M C) :=
  { Format := s.Format
    FormatConfig := s.FormatConfig
    Encoding := s.Encoding
    Compression := default
    Schema :=
      match s.Schema with
      | none => none
      | some sch => some { PrimaryKey := sch.PrimaryKey, Fields := abstractFields 0 sch.Fields } }

/-- Embeds `func (r *Structure) Hash() (string, error)`, over `JSONHash`, which is not among
the embedded files. -/
def Structure.Hash {Cmp Sch H : Type} (JSONHash : Structure Cmp Sch → H)
    (r : Structure Cmp Sch) : H :=
  JSONHash r

/-! ## metadata.go: License -/

/-- Embeds `type License struct`; the Go field `Type` is written `Type_`. -/
structure License where
  Type_ : String
  Url : String
  deriving DecidableEq, Repr

/-- The bytes a `MarshalJSON` method can return: `quoted body` is the result of
`fmt.Sprintf` with the format `"%s"` between double quotes, that is a double quote, the
characters of `body` as they are, and a double quote; `value j` is the text `json.Marshal`
writes for the value `j`. -/
inductive Encoded where
  | quoted (body : String)
  | value (j : JSON)
  deriving Repr

/-- Embeds `func (l License) MarshalJSON() ([]byte, error)`; `json.Marshal(_license(l))`
writes the member `type` and, unless it is empty, the member `url`. -/
def License.MarshalJSON (l : License) : Except Err Encoded :=
  if l.Type_ ≠ "" ∧ l.Url = "" then .ok (Encoded.quoted l.Type_)
  else
    .ok (Encoded.value (JSON.obj ([("type", JSON.str l.Type_)] ++
      (if l.Url = "" then [] else [("url", JSON.str l.Url)]))))

/-- The value of a hexadecimal digit. -/
def hexDigit (c : Char) : Option Nat :=
  let n := c.toNat
  if 48 ≤ n ∧ n ≤ 57 then some (n - 48)
  else if 97 ≤ n ∧ n ≤ 102 then some (n - 87)
  else if 65 ≤ n ∧ n ≤ 70 then some (n - 55)
  else none

/-- The character a one-letter JSON escape stands for. -/
def simpleEscape (e : Char) : Option Char :=
  let n := e.toNat
  if n = 34 then some (Char.ofNat 34)
  else if n = 92 then some (Char.ofNat 92)
  else if n = 47 then some (Char.ofNat 47)
  else if n = 98 then some (Char.ofNat 8)
  else if n = 102 then some (Char.ofNat 12)
  else if n = 110 then some (Char.ofNat 10)
  else if n = 114 then some (Char.ofNat 13)
  else if n = 116 then some (Char.ofNat 9)
  else none

/-- Where the reading of a JSON string literal stands, after its opening quote. -/
inductive Scan where
  /-- Inside the literal. -/
  | body
  /-- After a backslash; `high` is a high surrogate escape read just before it. -/
  | escape (high : Option Nat)
  /-- After `k` of the four hexadecimal digits of a `u` escape, worth `acc`. -/
  | hex (high : Option Nat) (k : Nat) (acc : Nat)
  /-- After the escape of the high surrogate `n`, whose pair may follow. -/
  | afterHigh (n : Nat)
  /-- After the closing quote. -/
  | closed
  deriving DecidableEq, Repr

/-- The characters the number `n` of a `u` escape stands for and the state after it, when no
high surrogate waits for it: a high surrogate waits for its pair, a low surrogate alone
stands for U+FFFD. -/
def escapeAlone (n : Nat) : Scan × List Char :=
  if 0xD800 ≤ n ∧ n < 0xDC00 then (Scan.afterHigh n, [])
  else if 0xDC00 ≤ n ∧ n < 0xE000 then (Scan.body, [Char.ofNat 0xFFFD])
  else (Scan.body, [Char.ofNat n])

/-- One character of a character outside an escape: the closing quote, the backslash of an
escape, or a character of the string; control characters are not allowed. -/
def bodyStep (c : Char) : Option (Scan × List Char) :=
  if c = Char.ofNat 34 then some (Scan.closed, [])
  else if c = Char.ofNat 92 then some (Scan.escape none, [])
  else if c.toNat < 32 then none
  else some (Scan.body, [c])

/-- The reading of one character of a JSON string literal by `encoding/json`: the new state
and the characters of the string it gives; `none` when the text is not a JSON string. -/
def unquoteStep (st : Scan) (c : Char) : Option (Scan × List Char) :=
  match st with
  | .closed => none
  | .body => bodyStep c
  | .afterHigh n =>
    if c = Char.ofNat 92 then some (Scan.escape (some n), [])
    else (bodyStep c).map (fun r => (r.1, Char.ofNat 0xFFFD :: r.2))
  | .escape high =>
    if c = Char.ofNat 117 then some (Scan.hex high 0 0, [])
    else
      match simpleEscape c with
      | none => none
      | some ch =>
        some (Scan.body, (if high.isSome then [Char.ofNat 0xFFFD, ch] else [ch]))
  | .hex high k acc =>
    match hexDigit c with
    | none => none
    | some d =>
      let n := acc * 16 + d
      if k < 3 then some (Scan.hex high (k + 1) n, [])
      else
        match high with
        | none => some (escapeAlone n)
        | some h =>
          if 0xDC00 ≤ n ∧ n < 0xE000 then
            some (Scan.body, [Char.ofNat (0x10000 + (h - 0xD800) * 0x400 + (n - 0xDC00))])
          else some ((escapeAlone n).1, Char.ofNat 0xFFFD :: (escapeAlone n).2)

/-- The reading of the characters that follow in state `st`, up to the end of the text, which
has to come right after the closing quote. -/
def unquoteRun : Scan → List Char → Option (List Char)
  | st, [] => if st = Scan.closed then some [] else none
  | st, c :: rest =>
    match unquoteStep st c with
    | none => none
    | some (st1, out) => (unquoteRun st1 rest).map (fun more => out ++ more)

/-- The string a JSON string literal stands for, given the characters between its opening
quote and the end of the text, as `encoding/json` reads it; `none` when the text is not a
JSON string literal. -/
def unquoteRest (cs : List Char) : Option (List Char) :=
  unquoteRun Scan.body cs

/-- The JSON value the bytes of a `MarshalJSON` method are the text of; `none` when they are
not a JSON text. -/
def Encoded.toJSON : Encoded → Option JSON
  | .quoted body => (unquoteRest (body.data ++ [Char.ofNat 34])).map (fun cs => JSON.str (String.mk cs))
  | .value j => some j


/-! ## load/load.go -/

/-- Modelled from the spec: `type Resource struct` of package `dataset`, whose declaration is
not among the embedded files; it is the descriptor the spec calls Structure, with the fields
`load.go` reads: `Format`, `FormatConfig` and `Path`. -/
structure Resource where
  Format : DataFormat
  FormatConfig : Option FormatConfig
  Path : String
  deriving DecidableEq, Repr

/-- Embeds `func HeaderRow(r *dataset.Resource) bool`; `none` is the run-time panic of
`csvOpt.HeaderRow` on a nil `*CsvOptions`. -/
def HeaderRow (r : Resource) : Option Bool :=
  if r.Format = CsvDataFormat then
    match r.FormatConfig with
    | some (FormatConfig.csvOptions (some csvOpt)) => some csvOpt.HeaderRow
    | some (FormatConfig.csvOptions none) => none
    | _ => some false
  else some false

/-- A `DataIteratorFunc` together with the variables it closes over: from their state, the
row number, the row and the error passed in, the new state and the error returned. -/
abbrev DataIteratorFunc (σ : Type) := σ → Int → List String → Option String → σ × Option String

/-- The loop `num := 1; for { csvRec, err := rdr.Read(); ... }` of `EachRow`, over the results
of the reads still to come; the result is the state of the callback and the error returned. -/
def eachRowLoop {σ : Type} (fn : DataIteratorFunc σ) :
    List ReadResult → Int → σ → σ × Option String
  | [], _, st => (st, none)
  | .error msg :: _, _, st => if msg = "EOF" then (st, none) else (st, some msg)
  | .record csvRec :: rest, num, st =>
    match fn st num csvRec none with
    | (st1, some msg) => if msg = "EOF" then (st1, none) else (st1, some msg)
    | (st1, none) => eachRowLoop fn rest (num + 1) st1

/-- Embeds `func EachRow(r *dataset.Resource, rawdata []byte, fn DataIteratorFunc) error`,
over the results `reads` of the reads of the `csv.Reader` on `rawdata`; `none` is a run-time
panic. -/
def EachRow {σ : Type} (r : Resource) (reads : List ReadResult) (fn : DataIteratorFunc σ)
    (st : σ) : Option (σ × Option String) :=
  if r.Format = CsvDataFormat then
    match HeaderRow r with
    | none => none
    | some true =>
      match reads with
      | [] => some (st, none)
      | .error msg :: _ => if msg = "EOF" then some (st, none) else some (st, some msg)
      | .record _ :: rest => some (eachRowLoop fn rest 1 st)
    | some false => some (eachRowLoop fn reads 1 st)
  else some (st, some ("cannot parse data format '" ++ r.Format.String ++ "'"))

/-- The function literal passed to `EachRow` by `RawDataRows`; its state is the variable
`added` and the rows written to the `csv.Writer` so far. -/
def rawDataRowsFn (offset : Int) : DataIteratorFunc (Int × List (List String)) :=
  fun st i data err =>
    match err with
    | some msg => (st, some msg)
    | none =>
      if i < offset then (st, none)
      else if i - offset = st.1 then (st, some "EOF")
      else ((st.1 + 1, st.2 ++ [data]), none)

/-- Embeds `func RawDataRows(store, r, limit, offset int) ([]byte, error)`, over the result
`rawdata` of `RawData(store, r.Path)` as the `csv.Reader` reads it; the bytes returned are
the rows written to the `csv.Writer`, in order; `none` is a run-time panic. -/
def RawDataRows (r : Resource) (rawdata : Except String (List ReadResult))
    (limit offset : Int) : Option (Except String (List (List String))) :=
  let _ := limit
  match rawdata with
  | .error err => some (.error err)
  | .ok reads =>
    if r.Format ≠ CsvDataFormat then
      some (.error "raw data rows only works with csv data format for now")
    else
      match EachRow r reads (rawDataRowsFn offset) (0, []) with
      | none => none
      | some (_, some err) => some (.error err)
      | some (st, none) => some (.ok st.2)


/-- A License whose type is the three characters `a`, double quote, `b`, and whose url is
empty. -/
def quoteLicense : License :=
  { Type_ := String.mk [Char.ofNat 97, Char.ofNat 34, Char.ofNat 98], Url := "" }

/-- A License whose type is the four characters `a`, backslash, `n`, `b`, and whose url is
empty. -/
def backslashLicense : License :=
  { Type_ := String.mk [Char.ofNat 97, Char.ofNat 92, Char.ofNat 110, Char.ofNat 98], Url := "" }

/-- A character that a JSON string literal holds as it is: not a double quote, not a
backslash, not a control character. -/
def plainChar (c : Char) : Bool :=
  c != Char.ofNat 34 && c != Char.ofNat 92 && decide (32 ≤ c.toNat)


/-- The calls `fn(num, row, nil)` for the rows in order, numbered from `num` on, by a callback
that returns no error: the state of the callback after them. -/
def applyCalls {σ : Type} (fn : DataIteratorFunc σ) : List (List String) → Int → σ → σ
  | [], _, st => st
  | row :: rows, num, st => applyCalls fn rows (num + 1) (fn st num row none).1

/-- A callback that returns no error and appends the row number and the row of each call to
its state. -/
def recordCalls : DataIteratorFunc (List (Int × List String)) :=
  fun log i row _ => (log ++ [(i, row)], none)

/-- The rows in order, each with its number, numbered from `num` on. -/
def numberedFrom : Int → List (List String) → List (Int × List String)
  | _, [] => []
  | num, row :: rows => (num, row) :: numberedFrom (num + 1) rows


/-! ## metadata.go: VariableName and License.UnmarshalJSON -/

/-- Embeds `func (name *VariableName) UnmarshalJSON(data []byte) error`, over
`alphaNumericRegex.MatchString`, the regular expression being declared outside the embedded
files; `VariableName` is a string type; the result is the new value of `*name`, and on an
error `*name` is left as it was. -/
def VariableName.UnmarshalJSON (matchString : String → Bool) (_name : String) (data : JSON) :
    Except String String :=
  match unmarshalString "" data with
  | .error _ => .error "type should be a string"
  | .ok s =>
    if matchString s then
      .error ("variable name must contain only letters, numbers, '_' or '-', " ++
        "and start with a letter")
    else .ok s

/-- Modelled from the spec: `alphaNumericRegex`, which is not among the embedded files. The
spec calls a name an "identifier string"; the doc comment of `VariableName` and the error
message of its `UnmarshalJSON` give the pattern: the string starts with a letter and holds
only letters, numbers, `_` or `-`. -/
def alphaNumericRegex (s : String) : Bool :=
  match s.data with
  | [] => false
  | c :: cs =>
    c.isAlpha && cs.all (fun d => d.isAlphanum || d = Char.ofNat 95 || d = Char.ofNat 45)

/-- Decoding one object member into a destination of type `_license` holding `l`: the keys
`type` and `url` are compared regardless of case, other keys are skipped. -/
def decodeLicenseMember (l : License) (key : String) (v : JSON) : Except String License :=
  if foldName key = "type" then
    match unmarshalString l.Type_ v with
    | .ok t => .ok { l with Type_ := t }
    | .error _ => .error "json: cannot unmarshal into Go struct field _license.type"
  else if foldName key = "url" then
    match unmarshalString l.Url v with
    | .ok u => .ok { l with Url := u }
    | .error _ => .error "json: cannot unmarshal into Go struct field _license.url"
  else .ok l

/-- Decoding the members of an object into a `_license` in their textual order. Only the
fact of an error is modelled, not which of several errors is reported. -/
def decodeLicenseMembers : List (String × JSON) → License → Except String License
  | [], l => .ok l
  | (key, v) :: rest, l =>
    match decodeLicenseMember l key v with
    | .error err => .error err
    | .ok l1 => decodeLicenseMembers rest l1

/-- The call `json.Unmarshal(data, _l)` for `_l := &_license{}` on the JSON value of `data`:
an object is decoded member by member, `null` leaves the zero value, any other value is an
error. -/
def unmarshal_license (j : JSON) : Except String License :=
  match j with
  | .obj members => decodeLicenseMembers members { Type_ := "", Url := "" }
  | .null => .ok { Type_ := "", Url := "" }
  | _ => .error "json: cannot unmarshal into Go value of type dataset._license"

/-- Embeds `func (l *License) UnmarshalJSON(data []byte) error`; the result is the new value
of `*l`. When `data` is not a JSON text both calls of `json.Unmarshal` fail. -/
def License.UnmarshalJSON (_l : License) (data : Encoded) : Except String License :=
  match data.toJSON with
  | none => .error "invalid character in JSON text"
  | some j =>
    match unmarshalString "" j with
    | .ok s => .ok { Type_ := s, Url := "" }
    | .error _ => unmarshal_license j


end Dataset

namespace Dataset

/-! ## Format registry -/

theorem ParseDataFormatString_ok_iff (s : String) :
    (ParseDataFormatString s).2 = none ↔ s ∈ knownNames := by
  unfold ParseDataFormatString knownNames
  by_cases h0 : s = ""
  · simp [h0]
  by_cases h1 : s = "csv"
  · simp [h1]
  by_cases h2 : s = "json"
  · simp [h2]
  by_cases h3 : s = "xml"
  · simp [h3]
  by_cases h4 : s = "xls"
  · simp [h4]
  simp [h0, h1, h2, h3, h4]

/-- C2: the mapping between format tags and names is a bijection over the known set:
parsing the name of a known format gives that format back without an error, and the name of
the format parsed from an accepted string is that string. -/
theorem DataFormat_string_parse_bijection :
    (∀ f ∈ knownDataFormats, ParseDataFormatString f.String = (f, none)) ∧
      (∀ s df, ParseDataFormatString s = (df, none) → df.String = s) := by
  constructor
  · intro f hf
    simp only [knownDataFormats, List.mem_cons, List.mem_singleton, List.not_mem_nil,
      or_false] at hf
    rcases hf with h | h | h | h | h <;> subst h <;> rfl
  · intro s df hs
    have hk : s ∈ knownNames := (ParseDataFormatString_ok_iff s).1 (by rw [hs])
    simp only [knownNames, List.mem_cons, List.mem_singleton, List.not_mem_nil,
      or_false] at hk
    have hd : df = (ParseDataFormatString s).1 := by rw [hs]
    rcases hk with h | h | h | h | h <;> subst h <;> rw [hd] <;> rfl

theorem DataFormat_string_parse_bijection_witness :
    ParseDataFormatString XmlDataFormat.String = (XmlDataFormat, none) ∧
      JsonDataFormat.String = "json" :=
  ⟨DataFormat_string_parse_bijection.1 XmlDataFormat (by decide),
   DataFormat_string_parse_bijection.2 "json" JsonDataFormat (by rfl)⟩

/-- C3: `ParseDataFormatString` returns an error exactly for the strings other than `""`,
`"csv"`, `"json"`, `"xml"`, `"xls"`; the empty string gives the unknown format without an
error, and next to an error the format returned is the unknown one. -/
theorem ParseDataFormatString_error_iff (s : String) :
    ((∃ err, (ParseDataFormatString s).2 = some err) ↔
        ¬ (s = "" ∨ s = "csv" ∨ s = "json" ∨ s = "xml" ∨ s = "xls")) ∧
      ParseDataFormatString "" = (UnknownDataFormat, none) ∧
      ((∃ err, (ParseDataFormatString s).2 = some err) →
        (ParseDataFormatString s).1 = UnknownDataFormat) := by
  have hk := ParseDataFormatString_ok_iff s
  simp only [knownNames, List.mem_cons, List.mem_singleton, List.not_mem_nil, or_false] at hk
  refine ⟨?_, rfl, ?_⟩
  · rw [← hk]
    cases h : (ParseDataFormatString s).2 <;> simp
  · intro h
    unfold ParseDataFormatString at h ⊢
    split_ifs at h ⊢ <;> simp_all

theorem ParseDataFormatString_error_iff_witness :
    (∃ err, (ParseDataFormatString "CSV").2 = some err) ∧
      (ParseDataFormatString "CSV").1 = UnknownDataFormat :=
  have h : ∃ err, (ParseDataFormatString "CSV").2 = some err :=
    (ParseDataFormatString_error_iff "CSV").1.2 (by decide)
  ⟨h, (ParseDataFormatString_error_iff "CSV").2.2 h⟩

/-! ## Format configuration -/

/-- C7: with a nil option map, `ParseFormatConfigMap` returns, without an error, the csv
options with `HeaderRow = false` for csv and the json options with `ObjectEntries = false`
for json. -/
theorem ParseFormatConfigMap_nil_defaults :
    ParseFormatConfigMap CsvDataFormat none
        = .ok (some (FormatConfig.csvOptions (some { HeaderRow := false }))) ∧
      ParseFormatConfigMap JsonDataFormat none
        = .ok (some (FormatConfig.jsonOptions (some { ObjectEntries := false }))) :=
  ⟨rfl, rfl⟩

/-- C9: for a format without a registered variant (any tag other than csv and json) and any
option map, `ParseFormatConfigMap` returns no config and no error. -/
theorem ParseFormatConfigMap_unregistered (f : DataFormat) (opts : OptionMap)
    (hf : f ≠ CsvDataFormat ∧ f ≠ JsonDataFormat) :
    ParseFormatConfigMap f opts = .ok none := by
  simp [ParseFormatConfigMap, hf.1, hf.2]

theorem ParseFormatConfigMap_unregistered_witness :
    ParseFormatConfigMap XlsDataFormat (some [("header_row", JSON.str "yes")]) = .ok none ∧
      ParseFormatConfigMap ⟨7⟩ none = .ok none ∧
      ParseFormatConfigMap UnknownDataFormat (some [("object_entries", JSON.num "1")])
        = .ok none :=
  ⟨ParseFormatConfigMap_unregistered XlsDataFormat _ (by decide),
   ParseFormatConfigMap_unregistered ⟨7⟩ _ (by decide),
   ParseFormatConfigMap_unregistered UnknownDataFormat _ (by decide)⟩

theorem NewCsvOptions_eq (opts : OptionMap) :
    NewCsvOptions opts =
      match opts.index "header_row" with
      | .null => .ok (.csvOptions (some { HeaderRow := false }))
      | .bool headerRow => .ok (.csvOptions (some { HeaderRow := headerRow }))
      | v => .error (Err.invalidHeaderRow v) := by
  cases opts with
  | none => rfl
  | some kvs => rfl

theorem NewJsonOptions_eq (opts : OptionMap) :
    NewJsonOptions opts =
      match opts.index "object_entries" with
      | .null => .ok (.jsonOptions (some { ObjectEntries := false }))
      | .bool objEntries => .ok (.jsonOptions (some { ObjectEntries := objEntries }))
      | v => .error (Err.invalidObjectEntries v) := by
  cases opts with
  | none => rfl
  | some kvs => rfl

theorem NewCsvOptions_known_key_alone_aux (opts : OptionMap) :
    ((∃ err, NewCsvOptions opts = .error err) ↔
        (opts.index "header_row" ≠ JSON.null ∧ ∀ b, opts.index "header_row" ≠ JSON.bool b)) ∧
    ((∃ err, NewJsonOptions opts = .error err) ↔
        (opts.index "object_entries" ≠ JSON.null ∧
          ∀ b, opts.index "object_entries" ≠ JSON.bool b)) := by
  constructor
  · rw [NewCsvOptions_eq]
    cases opts.index "header_row" <;> simp
  · rw [NewJsonOptions_eq]
    cases opts.index "object_entries" <;> simp

theorem lookup_eq_none_of_no_entry (kvs : List (String × JSON)) (key : String)
    (h : ∀ v, (key, v) ∉ kvs) : kvs.lookup key = none := by
  induction kvs with
  | nil => rfl
  | cons p rest ih =>
    obtain ⟨k, v⟩ := p
    have hk : key ≠ k := by
      intro e
      exact h v (by simp [e])
    have hrest : ∀ v, (key, v) ∉ rest := fun w hw => h w (List.mem_cons_of_mem _ hw)
    have hb : (key == k) = false := by simpa using hk
    simp only [List.lookup, hb]
    exact ih hrest

theorem OptionMap_index_of_no_entry (kvs : List (String × JSON)) (key : String)
    (h : ∀ v, (key, v) ∉ kvs) : OptionMap.index (some kvs) key = JSON.null := by
  simp [OptionMap.index, lookup_eq_none_of_no_entry kvs key h]

/-- C8 (counterexample): a map with an entry for `header_row` whose value is the nil
interface, which is not a boolean, is accepted by `NewCsvOptions`. -/
theorem NewCsvOptions_nil_entry_accepted :
    (∃ v, ("header_row", v) ∈ [("header_row", JSON.null)] ∧ ∀ b, v ≠ JSON.bool b) ∧
      NewCsvOptions (some [("header_row", JSON.null)])
        = .ok (FormatConfig.csvOptions (some { HeaderRow := false })) :=
  ⟨⟨JSON.null, (by simp), (by intro b h; cases h)⟩, rfl⟩

/-- C8 (amended): `NewCsvOptions` is determined by the value found under `header_row`
alone. It fails exactly when that value is neither nil nor a boolean; it returns
`HeaderRow` equal to the boolean found, and `false` when the value is nil, the key is
missing or the map is nil; two maps with the same value under `header_row` give the same
result. `NewJsonOptions` does the same with `object_entries`. -/
theorem NewCsvOptions_known_key_alone (opts other : OptionMap) :
    (((∃ err, NewCsvOptions opts = .error err) ↔
        (opts.index "header_row" ≠ JSON.null ∧ ∀ b, opts.index "header_row" ≠ JSON.bool b)) ∧
      (∀ b, opts.index "header_row" = JSON.bool b →
        NewCsvOptions opts = .ok (FormatConfig.csvOptions (some { HeaderRow := b }))) ∧
      (opts.index "header_row" = JSON.null →
        NewCsvOptions opts = .ok (FormatConfig.csvOptions (some { HeaderRow := false }))) ∧
      (∀ kvs, opts = some kvs → (∀ v, ("header_row", v) ∉ kvs) →
        NewCsvOptions opts = .ok (FormatConfig.csvOptions (some { HeaderRow := false }))) ∧
      (other.index "header_row" = opts.index "header_row" →
        NewCsvOptions other = NewCsvOptions opts)) ∧
    (((∃ err, NewJsonOptions opts = .error err) ↔
        (opts.index "object_entries" ≠ JSON.null ∧
          ∀ b, opts.index "object_entries" ≠ JSON.bool b)) ∧
      (∀ b, opts.index "object_entries" = JSON.bool b →
        NewJsonOptions opts = .ok (FormatConfig.jsonOptions (some { ObjectEntries := b }))) ∧
      (opts.index "object_entries" = JSON.null →
        NewJsonOptions opts = .ok (FormatConfig.jsonOptions (some { ObjectEntries := false }))) ∧
      (∀ kvs, opts = some kvs → (∀ v, ("object_entries", v) ∉ kvs) →
        NewJsonOptions opts = .ok (FormatConfig.jsonOptions (some { ObjectEntries := false }))) ∧
      (other.index "object_entries" = opts.index "object_entries" →
        NewJsonOptions other = NewJsonOptions opts)) := by
  refine ⟨⟨?_, ?_, ?_, ?_, ?_⟩, ⟨?_, ?_, ?_, ?_, ?_⟩⟩
  · exact (NewCsvOptions_known_key_alone_aux opts).1
  · intro b hb
    rw [NewCsvOptions_eq, hb]
  · intro hn
    rw [NewCsvOptions_eq, hn]
  · intro kvs hk hno
    rw [NewCsvOptions_eq, hk, OptionMap_index_of_no_entry kvs _ hno]
  · intro he
    rw [NewCsvOptions_eq, NewCsvOptions_eq, he]
  · exact (NewCsvOptions_known_key_alone_aux opts).2
  · intro b hb
    rw [NewJsonOptions_eq, hb]
  · intro hn
    rw [NewJsonOptions_eq, hn]
  · intro kvs hk hno
    rw [NewJsonOptions_eq, hk, OptionMap_index_of_no_entry kvs _ hno]
  · intro he
    rw [NewJsonOptions_eq, NewJsonOptions_eq, he]

theorem NewCsvOptions_known_key_alone_witness :
    (∃ err, NewCsvOptions (some [("delimiter", JSON.str ";"), ("header_row", JSON.str "yes")])
        = .error err) ∧
      NewCsvOptions (some [("delimiter", JSON.str ";"), ("header_row", JSON.bool true)])
        = .ok (FormatConfig.csvOptions (some { HeaderRow := true })) ∧
      NewCsvOptions (some [("delimiter", JSON.str ";")])
        = .ok (FormatConfig.csvOptions (some { HeaderRow := false })) :=
  ⟨(NewCsvOptions_known_key_alone
      (some [("delimiter", JSON.str ";"), ("header_row", JSON.str "yes")]) none).1.1.2
      ⟨(by intro h; cases h), (by intro b h; cases h)⟩,
   (NewCsvOptions_known_key_alone
      (some [("delimiter", JSON.str ";"), ("header_row", JSON.bool true)]) none).1.2.1 true rfl,
   (NewCsvOptions_known_key_alone (some [("delimiter", JSON.str ";")]) none).1.2.2.2.1
      _ rfl (by simp)⟩

/-! ## Decoding a Structure -/

theorem ParseFormatConfigMap_format (f : DataFormat) (opts : OptionMap) (c : FormatConfig)
    (h : ParseFormatConfigMap f opts = .ok (some c)) : c.Format = f := by
  unfold ParseFormatConfigMap at h
  split_ifs at h with h1 h2
  · rw [NewCsvOptions_eq] at h
    cases hv : opts.index "header_row" <;> rw [hv] at h <;>
      simp [Except.map] at h <;> subst h <;> simp [FormatConfig.Format, h1]
  · rw [NewJsonOptions_eq] at h
    cases hv : opts.index "object_entries" <;> rw [hv] at h <;>
      simp [Except.map] at h <;> subst h <;> simp [FormatConfig.Format, h2]
  · cases h

theorem UnmarshalJSON_ok {Cmp Sch : Type} (cc : JSONCodec Cmp) (sc : JSONCodec Sch)
    (data : JSON) (s : Structure Cmp Sch) (h : Structure.UnmarshalJSON cc sc data = .ok s) :
    ∃ r, unmarshal_structure cc sc data = .ok r ∧
      ParseFormatConfigMap r.Format r.FormatConfig = .ok s.FormatConfig ∧
      s.Format = r.Format ∧ s.Encoding = r.Encoding ∧ s.Compression = r.Compression ∧
      s.Schema = r.Schema := by
  unfold Structure.UnmarshalJSON at h
  cases hr : unmarshal_structure cc sc data with
  | error e => rw [hr] at h; cases h
  | ok r =>
    rw [hr] at h
    dsimp only at h
    cases hp : ParseFormatConfigMap r.Format r.FormatConfig with
    | error e => rw [hp] at h; cases h
    | ok fc =>
      rw [hp] at h
      simp only [Except.ok.injEq] at h
      subst h
      exact ⟨r, rfl, hp, rfl, rfl, rfl, rfl⟩

/-- C4: a Structure produced by a successful `Structure.UnmarshalJSON` has a FormatConfig
that is absent or reports the Structure's own Format; and a config returned by
`ParseFormatConfigMap f opts` reports the format `f`. -/
theorem UnmarshalJSON_format_invariant :
    (∀ (Cmp Sch : Type) (cc : JSONCodec Cmp) (sc : JSONCodec Sch) (data : JSON)
        (s : Structure Cmp Sch), Structure.UnmarshalJSON cc sc data = .ok s →
        (s.FormatConfig = none ∨ ∃ c1, s.FormatConfig = some c1 ∧ c1.Format = s.Format)) ∧
      (∀ (f : DataFormat) (opts : OptionMap) (c : FormatConfig),
        ParseFormatConfigMap f opts = .ok (some c) → c.Format = f) := by
  refine ⟨?_, ParseFormatConfigMap_format⟩
  intro Cmp Sch cc sc data s h
  obtain ⟨r, -, hp, hf, -⟩ := UnmarshalJSON_ok cc sc data s h
  cases hfc : s.FormatConfig with
  | none => exact Or.inl rfl
  | some c1 =>
    right
    rw [hfc] at hp
    exact ⟨c1, rfl, by rw [hf]; exact ParseFormatConfigMap_format _ _ c1 hp⟩

theorem UnmarshalJSON_format_invariant_witness :
    ((⟨JsonDataFormat, some (FormatConfig.jsonOptions (some { ObjectEntries := true })),
        "", "", none⟩ : Structure String String).FormatConfig = none ∨
      ∃ c1, (⟨JsonDataFormat, some (FormatConfig.jsonOptions (some { ObjectEntries := true })),
        "", "", none⟩ : Structure String String).FormatConfig = some c1 ∧
        c1.Format = JsonDataFormat) ∧
      (FormatConfig.csvOptions (some { HeaderRow := true })).Format = CsvDataFormat :=
  ⟨UnmarshalJSON_format_invariant.1 String String stringCodec stringCodec
    (JSON.obj [("format", JSON.str "json"),
      ("formatConfig", JSON.obj [("object_entries", JSON.bool true)])])
    ⟨JsonDataFormat, some (FormatConfig.jsonOptions (some { ObjectEntries := true })),
      "", "", none⟩ rfl,
   UnmarshalJSON_format_invariant.2 CsvDataFormat (some [("header_row", JSON.bool true)])
    (FormatConfig.csvOptions (some { HeaderRow := true })) rfl⟩

theorem ParseDataFormatString_unknown_name (name : String) (h : name ∉ knownNames) :
    ParseDataFormatString name = (UnknownDataFormat, some (Err.invalidDataFormat name)) := by
  simp only [knownNames, List.mem_cons, List.mem_singleton, List.not_mem_nil, or_false,
    not_or] at h
  obtain ⟨h0, h1, h2, h3, h4⟩ := h
  simp [ParseDataFormatString, h0, h1, h2, h3, h4]

theorem decodeMember_format_error {Cmp Sch : Type} (cc : JSONCodec Cmp) (sc : JSONCodec Sch)
    (r : _structure Cmp Sch) (name : String) (h : name ∉ knownNames) :
    decodeMember cc sc r "format" (JSON.str name) = .error (Err.invalidDataFormat name) := by
  have hk : fieldForKey "format" = some StructField.format := by decide
  simp only [decodeMember, hk, DataFormat.UnmarshalJSON, unmarshalString,
    ParseDataFormatString_unknown_name name h]
  rfl

theorem decodeMembers_format_error {Cmp Sch : Type} (cc : JSONCodec Cmp) (sc : JSONCodec Sch)
    (name : String) (h : name ∉ knownNames) (members : List (String × JSON))
    (hm : ("format", JSON.str name) ∈ members) (r : _structure Cmp Sch) :
    ∃ err, decodeMembers cc sc members r = .error err := by
  induction members generalizing r with
  | nil => cases hm
  | cons p rest ih =>
    obtain ⟨key, v⟩ := p
    unfold decodeMembers
    cases hd : decodeMember cc sc r key v with
    | error e => exact ⟨e, rfl⟩
    | ok r1 =>
      rcases List.mem_cons.1 hm with heq | hrest
      · have hkey : key = "format" := (congrArg Prod.fst heq).symm
        have hval : v = JSON.str name := (congrArg Prod.snd heq).symm
        rw [hkey, hval, decodeMember_format_error cc sc r name h] at hd
        cases hd
      · exact ih hrest r1

/-- C5 (counterexample): an encoded csv Structure whose formatConfig holds `header_row` with
the value `null`, which is not a boolean, is decoded without an error. -/
theorem UnmarshalJSON_null_option_accepted :
    Structure.UnmarshalJSON stringCodec stringCodec
        (JSON.obj [("format", JSON.str "csv"),
          ("formatConfig", JSON.obj [("header_row", JSON.null)])])
      = .ok ({ Format := CsvDataFormat
               FormatConfig := some (FormatConfig.csvOptions (some { HeaderRow := false }))
               Encoding := "", Compression := "", Schema := none } : Structure String String) :=
  rfl

/-- C5 (amended): `Structure.UnmarshalJSON` fails for every encoded Structure (a JSON object)
that has a `format` member holding a string outside the known names and a `formatConfig`
member holding a map; and it fails whenever the decoded `_structure` has the csv format with
a `header_row` option, or the json format with an `object_entries` option, whose value is
neither null nor a boolean. -/
theorem UnmarshalJSON_fails {Cmp Sch : Type} (cc : JSONCodec Cmp) (sc : JSONCodec Sch) :
    (∀ (members : List (String × JSON)) (name : String) (cfg : List (String × JSON)),
        ("format", JSON.str name) ∈ members → name ∉ knownNames →
        ("formatConfig", JSON.obj cfg) ∈ members →
        ∃ err, Structure.UnmarshalJSON cc sc (JSON.obj members)
          = (.error err : Except Err (Structure Cmp Sch))) ∧
      (∀ (data : JSON) (r : _structure Cmp Sch), unmarshal_structure cc sc data = .ok r →
        ((r.Format = CsvDataFormat ∧ r.FormatConfig.index "header_row" ≠ JSON.null ∧
            ∀ b, r.FormatConfig.index "header_row" ≠ JSON.bool b) ∨
          (r.Format = JsonDataFormat ∧ r.FormatConfig.index "object_entries" ≠ JSON.null ∧
            ∀ b, r.FormatConfig.index "object_entries" ≠ JSON.bool b)) →
        ∃ err, Structure.UnmarshalJSON cc sc data
          = (.error err : Except Err (Structure Cmp Sch))) := by
  constructor
  · intro members name cfg hformat hname _
    obtain ⟨e, he⟩ := decodeMembers_format_error cc sc name hname members hformat
      { Compression := cc.zero, Encoding := "", Format := UnknownDataFormat,
        FormatConfig := none, Schema := none }
    refine ⟨e, ?_⟩
    simp only [Structure.UnmarshalJSON, unmarshal_structure, he]
  · intro data r hr hopt
    simp only [Structure.UnmarshalJSON, hr]
    rcases hopt with ⟨hf, hn, hb⟩ | ⟨hf, hn, hb⟩
    · have hfail := ((NewCsvOptions_known_key_alone_aux r.FormatConfig).1).2 ⟨hn, hb⟩
      obtain ⟨e, he⟩ := hfail
      exact ⟨e, by simp [ParseFormatConfigMap, hf, he, Except.map]⟩
    · have hfail := ((NewCsvOptions_known_key_alone_aux r.FormatConfig).2).2 ⟨hn, hb⟩
      obtain ⟨e, he⟩ := hfail
      have hne : JsonDataFormat ≠ CsvDataFormat := by decide
      exact ⟨e, by simp [ParseFormatConfigMap, hf, hne, he, Except.map]⟩

theorem UnmarshalJSON_fails_witness :
    (∃ err, Structure.UnmarshalJSON stringCodec stringCodec
        (JSON.obj [("format", JSON.str "yaml"), ("formatConfig", JSON.obj [])])
        = (.error err : Except Err (Structure String String))) ∧
      (∃ err, Structure.UnmarshalJSON stringCodec stringCodec
        (JSON.obj [("format", JSON.str "csv"),
          ("formatConfig", JSON.obj [("header_row", JSON.str "yes")])])
        = (.error err : Except Err (Structure String String))) :=
  ⟨(UnmarshalJSON_fails stringCodec stringCodec).1
    [("format", JSON.str "yaml"), ("formatConfig", JSON.obj [])] "yaml" []
    (by simp) (by decide) (by simp),
   (UnmarshalJSON_fails stringCodec stringCodec).2
    (JSON.obj [("format", JSON.str "csv"),
      ("formatConfig", JSON.obj [("header_row", JSON.str "yes")])])
    { Compression := "", Encoding := "", Format := CsvDataFormat,
      FormatConfig := some [("header_row", JSON.str "yes")], Schema := none }
    rfl
    (Or.inl ⟨rfl, (by intro h; cases h), (by intro b h; cases h)⟩)⟩

/-! ## Encoding a Structure -/

theorem marshal_structure_ok {Cmp Sch : Type} (cc : JSONCodec Cmp) (sc : JSONCodec Sch)
    (v : _structure Cmp Sch) (out : JSON) (h : marshal_structure cc sc v = .ok out) :
    v.Format ≠ UnknownDataFormat ∧
    ∃ compression schema,
      ((cc.isEmpty v.Compression = true ∧ compression = []) ∨
        (cc.isEmpty v.Compression = false ∧
          ∃ j, cc.marshal v.Compression = .ok j ∧ compression = [("compression", j)])) ∧
      ((v.Schema = none ∧ schema = []) ∨
        (∃ sch j, v.Schema = some sch ∧ sc.marshal sch = .ok j ∧ schema = [("schema", j)])) ∧
      out = JSON.obj (compression ++
        (if v.Encoding = "" then [] else [("encoding", JSON.str v.Encoding)]) ++
        [("format", JSON.str v.Format.String)] ++
        omitemptyMap "formatConfig" v.FormatConfig ++ schema) := by
  unfold marshal_structure at h
  have hfmt : v.Format ≠ UnknownDataFormat := by
    intro hf
    cases hc : cc.isEmpty v.Compression <;>
      cases hm : cc.marshal v.Compression <;>
      simp [hc, hm, hf, DataFormat.MarshalJSON, compactRaw, bind, Except.bind, pure,
        Except.pure] at h
  refine ⟨hfmt, ?_⟩
  simp only [DataFormat.MarshalJSON, hfmt, if_false, compactRaw, bind, Except.bind, pure,
    Except.pure] at h
  cases hc : cc.isEmpty v.Compression
  · cases hm : cc.marshal v.Compression with
    | error e => simp [hc, hm] at h
    | ok jc =>
      cases hs : v.Schema with
      | none =>
        simp only [hc, hm, hs] at h
        refine ⟨[("compression", jc)], [], Or.inr ⟨rfl, jc, rfl, rfl⟩, Or.inl ⟨rfl, rfl⟩, ?_⟩
        simpa using h.symm
      | some sch =>
        cases hj : sc.marshal sch with
        | error e => simp [hc, hm, hs, hj] at h
        | ok js =>
          simp only [hc, hm, hs, hj] at h
          refine ⟨[("compression", jc)], [("schema", js)], Or.inr ⟨rfl, jc, rfl, rfl⟩,
            Or.inr ⟨sch, js, rfl, hj, rfl⟩, ?_⟩
          simpa using h.symm
  · cases hs : v.Schema with
    | none =>
      simp only [hc, hs] at h
      refine ⟨[], [], Or.inl ⟨rfl, rfl⟩, Or.inl ⟨rfl, rfl⟩, ?_⟩
      simpa using h.symm
    | some sch =>
      cases hj : sc.marshal sch with
      | error e => simp [hc, hs, hj] at h
      | ok js =>
        simp only [hc, hs, hj] at h
        refine ⟨[], [("schema", js)], Or.inl ⟨rfl, rfl⟩, Or.inr ⟨sch, js, rfl, hj, rfl⟩, ?_⟩
        simpa using h.symm

theorem decodeMembers_append {Cmp Sch : Type} (cc : JSONCodec Cmp) (sc : JSONCodec Sch)
    (a b : List (String × JSON)) (r : _structure Cmp Sch) :
    decodeMembers cc sc (a ++ b) r =
      match decodeMembers cc sc a r with
      | .error err => .error err
      | .ok r1 => decodeMembers cc sc b r1 := by
  induction a generalizing r with
  | nil => rfl
  | cons p rest ih =>
    obtain ⟨key, v⟩ := p
    simp only [List.cons_append, decodeMembers]
    cases decodeMember cc sc r key v with
    | error e => rfl
    | ok r1 => exact ih r1

theorem decodeMembers_nil {Cmp Sch : Type} (cc : JSONCodec Cmp) (sc : JSONCodec Sch)
    (r : _structure Cmp Sch) : decodeMembers cc sc [] r = .ok r := rfl

theorem decodeMembers_single {Cmp Sch : Type} (cc : JSONCodec Cmp) (sc : JSONCodec Sch)
    (key : String) (v : JSON) (r : _structure Cmp Sch) :
    decodeMembers cc sc [(key, v)] r = decodeMember cc sc r key v := by
  simp only [decodeMembers]
  cases decodeMember cc sc r key v <;> rfl

theorem unmarshalPointer_of_ne_null {α : Type} (c : JSONCodec α) (cur : Option α) (v : JSON)
    (h : v ≠ JSON.null) : unmarshalPointer c cur v = (c.unmarshal (cur.getD c.zero) v).map some := by
  cases v <;> first | rfl | exact absurd rfl h

theorem decodeMember_compression {Cmp Sch : Type} (cc : JSONCodec Cmp) (sc : JSONCodec Sch)
    (r : _structure Cmp Sch) (v : JSON) :
    decodeMember cc sc r "compression" v =
      (cc.unmarshal r.Compression v).map (fun c => { r with Compression := c }) := by
  have hk : fieldForKey "compression" = some StructField.compression := by decide
  simp only [decodeMember, hk]

theorem decodeMember_encoding {Cmp Sch : Type} (cc : JSONCodec Cmp) (sc : JSONCodec Sch)
    (r : _structure Cmp Sch) (e : String) :
    decodeMember cc sc r "encoding" (JSON.str e) = .ok { r with Encoding := e } := by
  have hk : fieldForKey "encoding" = some StructField.encoding := by decide
  simp only [decodeMember, hk]
  rfl

theorem decodeMember_format {Cmp Sch : Type} (cc : JSONCodec Cmp) (sc : JSONCodec Sch)
    (r : _structure Cmp Sch) (f : DataFormat)
    (hf : f = CsvDataFormat ∨ f = JsonDataFormat ∨ f = XmlDataFormat ∨ f = XlsDataFormat) :
    decodeMember cc sc r "format" (JSON.str f.String) = .ok { r with Format := f } := by
  have hk : fieldForKey "format" = some StructField.format := by decide
  simp only [decodeMember, hk]
  rcases hf with h | h | h | h <;> subst h <;> rfl

theorem decodeMember_formatConfig {Cmp Sch : Type} (cc : JSONCodec Cmp) (sc : JSONCodec Sch)
    (r : _structure Cmp Sch) (v : JSON) :
    decodeMember cc sc r "formatConfig" v =
      (unmarshalMap r.FormatConfig v).map (fun m => { r with FormatConfig := m }) := by
  have hk : fieldForKey "formatConfig" = some StructField.formatConfig := by decide
  simp only [decodeMember, hk]

theorem decodeMember_schema {Cmp Sch : Type} (cc : JSONCodec Cmp) (sc : JSONCodec Sch)
    (r : _structure Cmp Sch) (v : JSON) :
    decodeMember cc sc r "schema" v =
      (unmarshalPointer sc r.Schema v).map (fun sch => { r with Schema := sch }) := by
  have hk : fieldForKey "schema" = some StructField.schema := by decide
  simp only [decodeMember, hk]

theorem marshal_structure_of {Cmp Sch : Type} (cc : JSONCodec Cmp) (sc : JSONCodec Sch)
    (v : _structure Cmp Sch) (hf : v.Format ≠ UnknownDataFormat)
    (compression schema : List (String × JSON))
    (hc : (cc.isEmpty v.Compression = true ∧ compression = []) ∨
        (cc.isEmpty v.Compression = false ∧
          ∃ j, cc.marshal v.Compression = .ok j ∧ compression = [("compression", j)]))
    (hs : (v.Schema = none ∧ schema = []) ∨
        (∃ sch j, v.Schema = some sch ∧ sc.marshal sch = .ok j ∧ schema = [("schema", j)])) :
    marshal_structure cc sc v = .ok (JSON.obj (compression ++
        (if v.Encoding = "" then [] else [("encoding", JSON.str v.Encoding)]) ++
        [("format", JSON.str v.Format.String)] ++
        omitemptyMap "formatConfig" v.FormatConfig ++ schema)) := by
  unfold marshal_structure
  simp only [DataFormat.MarshalJSON, hf, if_false, compactRaw, bind, Except.bind, pure,
    Except.pure]
  rcases hc with ⟨hc, rfl⟩ | ⟨hc, jc, hm, rfl⟩
  · rcases hs with ⟨hs, rfl⟩ | ⟨sch, js, hs, hj, rfl⟩
    · simp [hc, hs]
    · simp [hc, hs, hj]
  · rcases hs with ⟨hs, rfl⟩ | ⟨sch, js, hs, hj, rfl⟩
    · simp [hc, hm, hs]
    · simp [hc, hm, hs, hj]

theorem decode_compression_segment {Cmp Sch : Type} (cc : JSONCodec Cmp) (sc : JSONCodec Sch)
    (c : Cmp) (compression : List (String × JSON))
    (hc : (c = cc.zero ∧ compression = []) ∨
        (∃ j, cc.unmarshal cc.zero j = .ok c ∧ compression = [("compression", j)]))
    (e : String) (f : DataFormat) (m : OptionMap) (sch : Option Sch) :
    decodeMembers cc sc compression ⟨cc.zero, e, f, m, sch⟩ = .ok ⟨c, e, f, m, sch⟩ := by
  rcases hc with ⟨rfl, rfl⟩ | ⟨j, hj, rfl⟩
  · rfl
  · rw [decodeMembers_single, decodeMember_compression]
    simp only [hj]
    rfl

theorem decode_encoding_segment {Cmp Sch : Type} (cc : JSONCodec Cmp) (sc : JSONCodec Sch)
    (c : Cmp) (e : String) (f : DataFormat) (m : OptionMap) (sch : Option Sch) :
    decodeMembers cc sc (if e = "" then [] else [("encoding", JSON.str e)]) ⟨c, "", f, m, sch⟩
      = .ok ⟨c, e, f, m, sch⟩ := by
  by_cases he : e = ""
  · subst he
    rfl
  · rw [if_neg he, decodeMembers_single, decodeMember_encoding]

theorem decode_format_segment {Cmp Sch : Type} (cc : JSONCodec Cmp) (sc : JSONCodec Sch)
    (c : Cmp) (e : String) (f0 f : DataFormat) (m : OptionMap) (sch : Option Sch)
    (hf : f = CsvDataFormat ∨ f = JsonDataFormat ∨ f = XmlDataFormat ∨ f = XlsDataFormat) :
    decodeMembers cc sc [("format", JSON.str f.String)] ⟨c, e, f0, m, sch⟩
      = .ok ⟨c, e, f, m, sch⟩ := by
  rw [decodeMembers_single, decodeMember_format cc sc _ f hf]

theorem decode_schema_segment {Cmp Sch : Type} (cc : JSONCodec Cmp) (sc : JSONCodec Sch)
    (c : Cmp) (e : String) (f : DataFormat) (m : OptionMap) (sch : Option Sch)
    (schema : List (String × JSON))
    (hs : (sch = none ∧ schema = []) ∨
        (∃ v j, sch = some v ∧ j ≠ JSON.null ∧ sc.unmarshal sc.zero j = .ok v ∧
          schema = [("schema", j)])) :
    decodeMembers cc sc schema ⟨c, e, f, m, none⟩ = .ok ⟨c, e, f, m, sch⟩ := by
  rcases hs with ⟨rfl, rfl⟩ | ⟨v, j, rfl, hn, hj, rfl⟩
  · rfl
  · rw [decodeMembers_single, decodeMember_schema, unmarshalPointer_of_ne_null sc _ j hn]
    simp only [Option.getD_none, hj]
    rfl

theorem roundtrip_core {Cmp Sch : Type} (cc : JSONCodec Cmp) (sc : JSONCodec Sch)
    (s : Structure Cmp Sch) (m : OptionMap)
    (hf : s.Format = CsvDataFormat ∨ s.Format = JsonDataFormat ∨ s.Format = XmlDataFormat ∨
      s.Format = XlsDataFormat)
    (hseg : decodeMembers cc sc
        (omitemptyMap "formatConfig" m)
        ⟨s.Compression, s.Encoding, s.Format, none, none⟩
      = .ok ⟨s.Compression, s.Encoding, s.Format, m, none⟩)
    (hm : m = match s.FormatConfig with
      | some c => c.Map
      | none => none)
    (hparse : ParseFormatConfigMap s.Format m = .ok s.FormatConfig)
    (hcmp : (cc.isEmpty s.Compression = true ∧ s.Compression = cc.zero) ∨
      (cc.isEmpty s.Compression = false ∧ ∃ j, cc.marshal s.Compression = .ok j ∧
        cc.unmarshal cc.zero j = .ok s.Compression))
    (hsch : ∀ sch, s.Schema = some sch →
      ∃ j, sc.marshal sch = .ok j ∧ j ≠ JSON.null ∧ sc.unmarshal sc.zero j = .ok sch) :
    ∃ out, s.MarshalJSON cc sc = .ok out ∧ Structure.UnmarshalJSON cc sc out = .ok s := by
  obtain ⟨fmt, fc, enc, cmp, sch⟩ := s
  simp only at hm hf hseg hparse hcmp hsch
  have hne : fmt ≠ UnknownDataFormat := by
    rcases hf with h | h | h | h <;> subst h <;> decide
  obtain ⟨compression, hcm, hcd⟩ : ∃ compression : List (String × JSON),
      ((cc.isEmpty cmp = true ∧ compression = []) ∨
        (cc.isEmpty cmp = false ∧
          ∃ j, cc.marshal cmp = .ok j ∧ compression = [("compression", j)])) ∧
      ((cmp = cc.zero ∧ compression = []) ∨
        (∃ j, cc.unmarshal cc.zero j = .ok cmp ∧ compression = [("compression", j)])) := by
    rcases hcmp with ⟨h1, h2⟩ | ⟨h1, j, h2, h3⟩
    · exact ⟨[], Or.inl ⟨h1, rfl⟩, Or.inl ⟨h2, rfl⟩⟩
    · exact ⟨[("compression", j)], Or.inr ⟨h1, j, h2, rfl⟩, Or.inr ⟨j, h3, rfl⟩⟩
  obtain ⟨schema, hsm, hsd⟩ : ∃ schema : List (String × JSON),
      ((sch = none ∧ schema = []) ∨
        (∃ v j, sch = some v ∧ sc.marshal v = .ok j ∧ schema = [("schema", j)])) ∧
      ((sch = none ∧ schema = []) ∨
        (∃ v j, sch = some v ∧ j ≠ JSON.null ∧ sc.unmarshal sc.zero j = .ok v ∧
          schema = [("schema", j)])) := by
    cases sch with
    | none => exact ⟨[], Or.inl ⟨rfl, rfl⟩, Or.inl ⟨rfl, rfl⟩⟩
    | some v =>
      obtain ⟨j, h1, h2, h3⟩ := hsch v rfl
      exact ⟨[("schema", j)], Or.inr ⟨v, j, rfl, h1, rfl⟩, Or.inr ⟨v, j, rfl, h2, h3, rfl⟩⟩
  refine ⟨JSON.obj (compression ++
        (if enc = "" then [] else [("encoding", JSON.str enc)]) ++
        [("format", JSON.str fmt.String)] ++
        omitemptyMap "formatConfig" m ++ schema), ?_, ?_⟩
  · unfold Structure.MarshalJSON
    rw [← hm]
    exact marshal_structure_of cc sc ⟨cmp, enc, fmt, m, sch⟩ hne compression schema hcm hsm
  · simp only [Structure.UnmarshalJSON, unmarshal_structure, decodeMembers_append,
      decode_compression_segment cc sc cmp compression hcd,
      decode_encoding_segment, decode_format_segment cc sc cmp enc _ fmt none none hf, hseg,
      decode_schema_segment cc sc cmp enc fmt m sch schema hsd, hparse]

/-- C1 (counterexample): four Structures whose FormatConfig, when present, belongs to their
Format and that do not survive the round trip. With the unknown format `MarshalJSON` fails;
an out-of-range format tag comes back as the unknown format; a csv Structure without a
FormatConfig, or with a nil `*CsvOptions`, comes back with the default csv options. -/
theorem MarshalJSON_UnmarshalJSON_not_roundtrip :
    Structure.MarshalJSON stringCodec stringCodec
        (⟨UnknownDataFormat, none, "utf-8", "", none⟩ : Structure String String)
      = .error Err.marshalerError ∧
    (Structure.MarshalJSON stringCodec stringCodec
        (⟨⟨7⟩, none, "utf-8", "", none⟩ : Structure String String)
      >>= Structure.UnmarshalJSON stringCodec stringCodec)
      = .ok (⟨UnknownDataFormat, none, "utf-8", "", none⟩ : Structure String String) ∧
    (Structure.MarshalJSON stringCodec stringCodec
        (⟨CsvDataFormat, none, "utf-8", "", none⟩ : Structure String String)
      >>= Structure.UnmarshalJSON stringCodec stringCodec)
      = .ok (⟨CsvDataFormat, some (FormatConfig.csvOptions (some { HeaderRow := false })),
          "utf-8", "", none⟩ : Structure String String) ∧
    (Structure.MarshalJSON stringCodec stringCodec
        (⟨CsvDataFormat, some (FormatConfig.csvOptions none), "utf-8", "", none⟩ :
          Structure String String)
      >>= Structure.UnmarshalJSON stringCodec stringCodec)
      = .ok (⟨CsvDataFormat, some (FormatConfig.csvOptions (some { HeaderRow := false })),
          "utf-8", "", none⟩ : Structure String String) :=
  ⟨rfl, rfl, rfl, rfl⟩

/-- C1 (amended): for every Structure whose Encoding is valid UTF-8 (a `String` of Unicode
characters), whose Format is csv or json and whose FormatConfig is present and holds the
(non-nil) options of that format, or whose Format is xml or xls and whose FormatConfig is
absent, and whose Compression and Schema survive their own encoding (an empty Compression
is the zero value, otherwise its encoding decodes back to it; the encoding of the Schema is
not `null` and decodes back to it), `Structure.MarshalJSON` succeeds and
`Structure.UnmarshalJSON` applied to its output succeeds with that Structure. -/
theorem MarshalJSON_UnmarshalJSON_roundtrip {Cmp Sch : Type} (cc : JSONCodec Cmp)
    (sc : JSONCodec Sch) (s : Structure Cmp Sch)
    (hformat :
      (s.Format = CsvDataFormat ∧ ∃ o, s.FormatConfig = some (FormatConfig.csvOptions (some o))) ∨
      (s.Format = JsonDataFormat ∧
        ∃ o, s.FormatConfig = some (FormatConfig.jsonOptions (some o))) ∨
      ((s.Format = XmlDataFormat ∨ s.Format = XlsDataFormat) ∧ s.FormatConfig = none))
    (hcmp : (cc.isEmpty s.Compression = true ∧ s.Compression = cc.zero) ∨
      (cc.isEmpty s.Compression = false ∧ ∃ j, cc.marshal s.Compression = .ok j ∧
        cc.unmarshal cc.zero j = .ok s.Compression))
    (hsch : ∀ sch, s.Schema = some sch →
      ∃ j, sc.marshal sch = .ok j ∧ j ≠ JSON.null ∧ sc.unmarshal sc.zero j = .ok sch) :
    ∃ out, s.MarshalJSON cc sc = .ok out ∧ Structure.UnmarshalJSON cc sc out = .ok s := by
  rcases hformat with ⟨hf, o, hfc⟩ | ⟨hf, o, hfc⟩ | ⟨hf, hfc⟩
  · refine roundtrip_core cc sc s (some [("header_row", JSON.bool o.HeaderRow)])
      (Or.inl hf) ?_ (by rw [hfc]; rfl) (by rw [hf, hfc]; rfl) hcmp hsch
    rw [show omitemptyMap "formatConfig" (some [("header_row", JSON.bool o.HeaderRow)])
      = [("formatConfig", JSON.obj [("header_row", JSON.bool o.HeaderRow)])] from rfl,
      decodeMembers_single, decodeMember_formatConfig]
    rfl
  · refine roundtrip_core cc sc s (some [("object_entries", JSON.bool o.ObjectEntries)])
      (Or.inr (Or.inl hf)) ?_ (by rw [hfc]; rfl) (by rw [hf, hfc]; rfl) hcmp hsch
    rw [show omitemptyMap "formatConfig" (some [("object_entries", JSON.bool o.ObjectEntries)])
      = [("formatConfig", JSON.obj [("object_entries", JSON.bool o.ObjectEntries)])] from rfl,
      decodeMembers_single, decodeMember_formatConfig]
    rfl
  · refine roundtrip_core cc sc s none
      (by rcases hf with h | h
          · exact Or.inr (Or.inr (Or.inl h))
          · exact Or.inr (Or.inr (Or.inr h)))
      rfl (by rw [hfc]) ?_ hcmp hsch
    rcases hf with h | h <;> rw [h, hfc] <;> rfl

theorem MarshalJSON_UnmarshalJSON_roundtrip_witness :
    ∃ out,
      Structure.MarshalJSON stringCodec stringCodec
          (⟨CsvDataFormat, some (FormatConfig.csvOptions (some { HeaderRow := true })),
            "utf-8", "", none⟩ : Structure String String) = .ok out ∧
        Structure.UnmarshalJSON stringCodec stringCodec out
          = .ok (⟨CsvDataFormat, some (FormatConfig.csvOptions (some { HeaderRow := true })),
            "utf-8", "", none⟩ : Structure String String) :=
  MarshalJSON_UnmarshalJSON_roundtrip stringCodec stringCodec
    ⟨CsvDataFormat, some (FormatConfig.csvOptions (some { HeaderRow := true })),
      "utf-8", "", none⟩
    (Or.inl ⟨rfl, ⟨{ HeaderRow := true }, rfl⟩⟩)
    (Or.inl ⟨by decide, rfl⟩)
    (fun sch h => by cases h)

theorem keys_sublist_canonical (compression schema formatConfig : List (String × JSON))
    (enc : String) (fmt : JSON)
    (hc : compression = [] ∨ ∃ j, compression = [("compression", j)])
    (hfc : formatConfig = [] ∨ ∃ j, formatConfig = [("formatConfig", j)])
    (hs : schema = [] ∨ ∃ j, schema = [("schema", j)]) :
    ((compression ++ (if enc = "" then [] else [("encoding", JSON.str enc)]) ++
        [("format", fmt)] ++ formatConfig ++ schema).map Prod.fst).Sublist canonicalKeys := by
  rcases hc with rfl | ⟨jc, rfl⟩ <;> rcases hfc with rfl | ⟨jf, rfl⟩ <;>
    rcases hs with rfl | ⟨js, rfl⟩ <;> by_cases he : enc = "" <;>
    simp only [he, if_true, if_false, List.nil_append, List.append_nil, List.cons_append,
      List.map_cons, List.map_nil, canonicalKeys] <;> decide

theorem omitemptyMap_cases (name : String) (m : OptionMap) :
    omitemptyMap name m = [] ∨ ∃ j, omitemptyMap name m = [(name, j)] := by
  unfold omitemptyMap
  split
  · exact Or.inl rfl
  · exact Or.inl rfl
  · exact Or.inr ⟨_, rfl⟩

/-- C6: the keys of the object written by `Structure.MarshalJSON` appear in the order
compression, encoding, format, formatConfig, schema with omitted keys skipped; that order
is strictly increasing; and a FormatConfig with an option map is written as that map under
the key `formatConfig`. -/
theorem MarshalJSON_canonical_order {Cmp Sch : Type} (cc : JSONCodec Cmp)
    (sc : JSONCodec Sch) (s : Structure Cmp Sch) (out : JSON)
    (h : s.MarshalJSON cc sc = .ok out) :
    ∃ members, out = JSON.obj members ∧
      (members.map Prod.fst).Sublist canonicalKeys ∧
      canonicalKeys.Pairwise (fun a b => a < b) ∧
      (members.map Prod.fst).Pairwise (fun a b => a < b) ∧
      (∀ c kvs, s.FormatConfig = some c → c.Map = some kvs →
        members.lookup "formatConfig" = some (JSON.obj kvs)) := by
  unfold Structure.MarshalJSON at h
  obtain ⟨-, compression, schema, hc, hs, hout⟩ := marshal_structure_ok cc sc _ out h
  simp only at hc hs hout
  have hc1 : compression = [] ∨ ∃ j, compression = [("compression", j)] := by
    rcases hc with ⟨-, e⟩ | ⟨-, j, -, e⟩
    · exact Or.inl e
    · exact Or.inr ⟨j, e⟩
  have hs1 : schema = [] ∨ ∃ j, schema = [("schema", j)] := by
    rcases hs with ⟨-, e⟩ | ⟨-, j, -, -, e⟩
    · exact Or.inl e
    · exact Or.inr ⟨j, e⟩
  have hsub := keys_sublist_canonical compression schema
    (omitemptyMap "formatConfig" (match s.FormatConfig with
      | some c => c.Map
      | none => none)) s.Encoding (JSON.str s.Format.String) hc1
    (omitemptyMap_cases _ _) hs1
  have hsorted : canonicalKeys.Pairwise (fun a b => a < b) := by
    simp only [canonicalKeys, List.pairwise_cons, List.mem_cons, List.mem_singleton,
      List.not_mem_nil, forall_eq_or_imp, forall_eq, String.lt_iff_toList_lt,
      List.Pairwise.nil, and_true, false_imp_iff, implies_true, String.toList]
    decide
  refine ⟨_, hout, hsub, hsorted, hsorted.sublist hsub, ?_⟩
  intro c kvs hfc hmap
  rw [hfc]
  simp only [hmap]
  have hkvs : omitemptyMap "formatConfig" (some kvs) = [("formatConfig", JSON.obj kvs)] := by
    cases c with
    | csvOptions o =>
      cases o with
      | none => cases hmap
      | some o =>
        simp only [FormatConfig.Map, Option.some.injEq] at hmap
        subst hmap
        rfl
    | jsonOptions o =>
      cases o with
      | none => cases hmap
      | some o =>
        simp only [FormatConfig.Map, Option.some.injEq] at hmap
        subst hmap
        rfl
  rw [hkvs]
  rcases hc1 with rfl | ⟨jc, rfl⟩ <;> rcases hs1 with rfl | ⟨js, rfl⟩ <;>
    by_cases he : s.Encoding = "" <;>
    simp only [he, if_true, if_false, List.nil_append, List.append_nil, List.cons_append] <;>
    rfl

theorem MarshalJSON_canonical_order_witness :
    ∃ members,
      JSON.obj [("compression", JSON.str "gzip"), ("encoding", JSON.str "utf-8"),
          ("format", JSON.str "csv"),
          ("formatConfig", JSON.obj [("header_row", JSON.bool true)]),
          ("schema", JSON.str "schema")] = JSON.obj members ∧
      (members.map Prod.fst).Sublist canonicalKeys ∧
      canonicalKeys.Pairwise (fun a b => a < b) ∧
      (members.map Prod.fst).Pairwise (fun a b => a < b) ∧
      (∀ c kvs,
        (⟨CsvDataFormat, some (FormatConfig.csvOptions (some { HeaderRow := true })),
          "utf-8", "gzip", some "schema"⟩ : Structure String String).FormatConfig = some c →
        c.Map = some kvs → members.lookup "formatConfig" = some (JSON.obj kvs)) :=
  MarshalJSON_canonical_order stringCodec stringCodec
    ⟨CsvDataFormat, some (FormatConfig.csvOptions (some { HeaderRow := true })),
      "utf-8", "gzip", some "schema"⟩ _ rfl

/-! ## Header heuristic -/

theorem possibleCsvHeaderRow_false_iff {I F : Type} (pI : String → Except Err I)
    (pF : String → Except Err F) (header : List String) :
    possibleCsvHeaderRow pI pF header = false ↔
      ∃ cell ∈ header,
        (∃ v, pI (TrimSpace cell) = .ok v) ∨ (∃ v, pF (TrimSpace cell) = .ok v) ∨
          TrimSpace cell = "" ∨ TrimSpace cell = "true" ∨ TrimSpace cell = "false" := by
  induction header with
  | nil => simp [possibleCsvHeaderRow]
  | cons rawCol rest ih =>
    simp only [possibleCsvHeaderRow, List.mem_cons, exists_eq_or_imp]
    cases hI : pI (TrimSpace rawCol) with
    | ok v => simp
    | error e =>
      cases hF : pF (TrimSpace rawCol) with
      | ok v => simp
      | error e2 =>
        by_cases h0 : TrimSpace rawCol = ""
        · simp [h0]
        · by_cases h1 : TrimSpace rawCol = "true"
          · simp [h1]
          · by_cases h2 : TrimSpace rawCol = "false"
            · simp [h2]
            · simp [h0, h1, h2, ih]

/-- C10: `possibleCsvHeaderRow` returns false exactly when some cell, once its surrounding
white space is trimmed, is accepted by the integer parser, is accepted by the float parser,
is empty, or is `true` or `false`. With parsers that accept `1` and reject `Name` and `Age`
it is false on `["1","b","c"]`, `["true","b"]` and `["","b"]` and true on `["Name","Age"]`. -/
theorem possibleCsvHeaderRow_spec {I F : Type} (pI : String → Except Err I)
    (pF : String → Except Err F) :
    (∀ header : List String, possibleCsvHeaderRow pI pF header = false ↔
      ∃ cell ∈ header,
        (∃ v, pI (TrimSpace cell) = .ok v) ∨ (∃ v, pF (TrimSpace cell) = .ok v) ∨
          TrimSpace cell = "" ∨ TrimSpace cell = "true" ∨ TrimSpace cell = "false") ∧
      ((∃ v, pI "1" = .ok v) → possibleCsvHeaderRow pI pF ["1", "b", "c"] = false) ∧
      possibleCsvHeaderRow pI pF ["true", "b"] = false ∧
      possibleCsvHeaderRow pI pF ["", "b"] = false ∧
      ((∀ cell ∈ ["Name", "Age"], (∃ e, pI cell = .error e) ∧ (∃ e, pF cell = .error e)) →
        possibleCsvHeaderRow pI pF ["Name", "Age"] = true) := by
  have t1 : TrimSpace "1" = "1" := by decide
  have t2 : TrimSpace "true" = "true" := by decide
  have t3 : TrimSpace "" = "" := by decide
  have t4 : TrimSpace "Name" = "Name" := by decide
  have t5 : TrimSpace "Age" = "Age" := by decide
  refine ⟨possibleCsvHeaderRow_false_iff pI pF, ?_, ?_, ?_, ?_⟩
  · intro hone
    exact (possibleCsvHeaderRow_false_iff pI pF _).2
      ⟨"1", by simp, Or.inl (by rw [t1]; exact hone)⟩
  · exact (possibleCsvHeaderRow_false_iff pI pF _).2
      ⟨"true", by simp, Or.inr (Or.inr (Or.inr (Or.inl t2)))⟩
  · exact (possibleCsvHeaderRow_false_iff pI pF _).2
      ⟨"", by simp, Or.inr (Or.inr (Or.inl t3))⟩
  · intro hname
    obtain ⟨⟨e1, h1⟩, ⟨e2, h2⟩⟩ := hname "Name" (by simp)
    obtain ⟨⟨e3, h3⟩, ⟨e4, h4⟩⟩ := hname "Age" (by simp)
    have n0 : ("Name" : String) ≠ "" := by decide
    have n1 : ("Name" : String) ≠ "true" := by decide
    have n2 : ("Name" : String) ≠ "false" := by decide
    have a0 : ("Age" : String) ≠ "" := by decide
    have a1 : ("Age" : String) ≠ "true" := by decide
    have a2 : ("Age" : String) ≠ "false" := by decide
    simp [possibleCsvHeaderRow, t4, t5, h1, h2, h3, h4, n0, n1, n2, a0, a1, a2]

theorem possibleCsvHeaderRow_spec_witness :
    (possibleCsvHeaderRow ParseInteger ParseFloat ["Name", " 3.5 "] = false ↔
      ∃ cell ∈ ["Name", " 3.5 "],
        (∃ v, ParseInteger (TrimSpace cell) = .ok v) ∨
          (∃ v, ParseFloat (TrimSpace cell) = .ok v) ∨
          TrimSpace cell = "" ∨ TrimSpace cell = "true" ∨ TrimSpace cell = "false") ∧
      possibleCsvHeaderRow ParseInteger ParseFloat ["1", "b", "c"] = false ∧
      possibleCsvHeaderRow ParseInteger ParseFloat ["true", "b"] = false ∧
      possibleCsvHeaderRow ParseInteger ParseFloat ["", "b"] = false ∧
      possibleCsvHeaderRow ParseInteger ParseFloat ["Name", "Age"] = true :=
  have h := possibleCsvHeaderRow_spec ParseInteger ParseFloat
  ⟨h.1 ["Name", " 3.5 "], h.2.1 ⟨1, rfl⟩, h.2.2.1, h.2.2.2.1,
    h.2.2.2.2 (by
      intro cell hcell
      simp only [List.mem_cons, List.mem_singleton, List.not_mem_nil, or_false] at hcell
      rcases hcell with h1 | h1 <;> subst h1 <;> exact ⟨⟨_, rfl⟩, ⟨_, rfl⟩⟩)⟩

/-! ## Field detection -/

theorem tallyGet_tallyIncr {T : Type} [DecidableEq T] (m : Tally T) (typ u : T) :
    tallyGet (tallyIncr m typ) u = tallyGet m u + (if typ = u then 1 else 0) := by
  induction m with
  | nil =>
    by_cases h : typ = u <;> simp [tallyIncr, tallyGet, h]
  | cons p rest ih =>
    obtain ⟨k, c⟩ := p
    by_cases hk : k = typ
    · subst hk
      by_cases hu : k = u <;> simp [tallyIncr, tallyGet, hu]
    · by_cases hu : k = u
      · subst hu
        simp [tallyIncr, tallyGet, hk, Ne.symm hk]
      · simp [tallyIncr, tallyGet, hk, hu, ih]

theorem classifiedAs_nil {T : Type} [DecidableEq T] (pd : String → T) (j : Nat) (u : T) :
    classifiedAs pd [] j u = false := by
  simp [classifiedAs]

theorem classifiedAs_cons_zero {T : Type} [DecidableEq T] (pd : String → T) (cell : String)
    (cells : List String) (u : T) :
    classifiedAs pd (cell :: cells) 0 u = decide (pd cell = u) := by
  simp [classifiedAs]

theorem classifiedAs_cons_succ {T : Type} [DecidableEq T] (pd : String → T) (cell : String)
    (cells : List String) (j : Nat) (u : T) :
    classifiedAs pd (cell :: cells) (j + 1) u = classifiedAs pd cells j u := by
  simp [classifiedAs]

theorem tallyCells_spec {T : Type} [DecidableEq T] (pd : String → T) (cells : List String) :
    ∀ (i : Nat) (types types1 : List (Tally T)), tallyCells pd i cells types = some types1 →
      types1.length = types.length ∧
      ∀ j u, tallyGet (types1.getD j []) u =
        tallyGet (types.getD j []) u +
          (if i ≤ j ∧ classifiedAs pd cells (j - i) u = true then 1 else 0) := by
  induction cells with
  | nil =>
    intro i types types1 h
    simp only [tallyCells, Option.some.injEq] at h
    subst h
    simp [classifiedAs_nil]
  | cons cell cells ih =>
    intro i types types1 h
    simp only [tallyCells] at h
    split_ifs at h with hi
    obtain ⟨hlen, hget⟩ := ih (i + 1) _ types1 h
    refine ⟨by simpa using hlen, ?_⟩
    intro j u
    rw [hget j u]
    by_cases hji : j = i
    · subst hji
      simp [List.getD_eq_getElem?_getD, List.getElem?_set, hi, tallyGet_tallyIncr,
        classifiedAs_cons_zero]
    · rcases Nat.lt_or_gt_of_ne hji with hlt | hgt
      · have h1 : ¬ i + 1 ≤ j := by omega
        have h2 : ¬ i ≤ j := by omega
        simp [List.getD_eq_getElem?_getD, List.getElem?_set, Ne.symm hji, h1, h2]
      · have h1 : i + 1 ≤ j := by omega
        have h2 : i ≤ j := by omega
        have h3 : j - i = (j - (i + 1)) + 1 := by omega
        simp [List.getD_eq_getElem?_getD, List.getElem?_set, Ne.symm hji, h1, h2, h3,
          classifiedAs_cons_succ]

theorem tallyCells_in_bounds {T : Type} [DecidableEq T] (pd : String → T)
    (cells : List String) :
    ∀ (i : Nat) (types : List (Tally T)), i + cells.length ≤ types.length →
      ∃ types1, tallyCells pd i cells types = some types1 := by
  induction cells with
  | nil => intro i types _; exact ⟨types, rfl⟩
  | cons cell cells ih =>
    intro i types h
    simp only [List.length_cons] at h
    have hi : i < types.length := by omega
    simp only [tallyCells, hi, if_true]
    exact ih (i + 1) _ (by simp; omega)


theorem cellCount_nil {T : Type} [DecidableEq T] (pd : String → T) (j : Nat) (u : T) :
    cellCount pd [] j u = 0 := rfl

theorem cellCount_cons {T : Type} [DecidableEq T] (pd : String → T) (rec : List String)
    (recs : List (List String)) (j : Nat) (u : T) :
    cellCount pd (rec :: recs) j u =
      cellCount pd recs j u + (if classifiedAs pd rec j u = true then 1 else 0) := by
  simp [cellCount, List.countP_cons]

theorem scanRecords_done {T : Type} [DecidableEq T] (pd : String → T)
    (reads : List ReadResult) :
    ∀ (types : List (Tally T)) (count : Nat) (types1 : List (Tally T)) (count1 : Nat)
      (rest1 : List ReadResult),
      scanRecords pd reads types count = .done types1 count1 rest1 →
      ∃ recs : List (List String),
        count1 = count + recs.length ∧
        reads.take recs.length = recs.map ReadResult.record ∧
        rest1 = reads.drop (recs.length + 1) ∧
        types1.length = types.length ∧
        (count ≤ 2001 → count1 ≤ 2001) ∧
        ∀ j u, tallyGet (types1.getD j []) u =
          tallyGet (types.getD j []) u + cellCount pd recs j u := by
  induction reads with
  | nil =>
    intro types count types1 count1 rest1 h
    simp only [scanRecords, ScanOutcome.done.injEq] at h
    obtain ⟨rfl, rfl, rfl⟩ := h
    exact ⟨[], by simp, by simp, by simp, rfl, id, by simp [cellCount_nil]⟩
  | cons r rest ih =>
    intro types count types1 count1 rest1 h
    cases r with
    | error msg =>
      simp only [scanRecords] at h
      split_ifs at h
      all_goals
        simp only [ScanOutcome.done.injEq] at h
        obtain ⟨rfl, rfl, rfl⟩ := h
        exact ⟨[], by simp, by simp, by simp, rfl, id, by simp [cellCount_nil]⟩
    | record rec =>
      simp only [scanRecords] at h
      split_ifs at h with hc
      · simp only [ScanOutcome.done.injEq] at h
        obtain ⟨rfl, rfl, rfl⟩ := h
        exact ⟨[], by simp, by simp, by simp, rfl, id, by simp [cellCount_nil]⟩
      · cases ht : tallyCells pd 0 rec types with
        | none => rw [ht] at h; cases h
        | some types2 =>
          rw [ht] at h
          simp only at h
          obtain ⟨hlen2, hget2⟩ := tallyCells_spec pd rec 0 types types2 ht
          obtain ⟨recs, h1, h2, h3, h4, h5, h6⟩ := ih types2 (count + 1) types1 count1 rest1 h
          refine ⟨rec :: recs, by simp; omega, by simp [h2], by simp [h3], by rw [h4, hlen2],
            fun _ => h5 (by omega), ?_⟩
          intro j u
          rw [h6 j u, hget2 j u, cellCount_cons]
          simp
          omega

theorem scanRecords_failed {T : Type} [DecidableEq T] (pd : String → T)
    (reads : List ReadResult) :
    ∀ (types : List (Tally T)) (count : Nat) (msg : String) (types1 : List (Tally T))
      (count1 : Nat) (rest1 : List ReadResult),
      scanRecords pd reads types count = .failed msg types1 count1 rest1 →
      msg ≠ "EOF" ∧ count1 ≤ 2000 ∧
      ∃ recs : List (List String),
        count1 = count + recs.length ∧
        reads = recs.map ReadResult.record ++ ReadResult.error msg :: rest1 := by
  induction reads with
  | nil =>
    intro types count msg types1 count1 rest1 h
    simp [scanRecords] at h
  | cons r rest ih =>
    intro types count msg types1 count1 rest1 h
    cases r with
    | error msg0 =>
      simp only [scanRecords] at h
      split_ifs at h with hc he
      simp only [ScanOutcome.failed.injEq] at h
      obtain ⟨rfl, rfl, rfl, rfl⟩ := h
      exact ⟨he, by omega, [], by simp, by simp⟩
    | record rec =>
      simp only [scanRecords] at h
      split_ifs at h with hc
      cases ht : tallyCells pd 0 rec types with
      | none => rw [ht] at h; cases h
      | some types2 =>
        rw [ht] at h
        simp only at h
        obtain ⟨hm, hc1, recs, h1, h2⟩ := ih types2 (count + 1) msg types1 count1 rest1 h
        exact ⟨hm, hc1, rec :: recs, by simp; omega, by simp [h2]⟩

theorem scanRecords_total {T : Type} [DecidableEq T] (pd : String → T)
    (reads : List ReadResult) :
    ∀ (types : List (Tally T)) (count : Nat),
      (∀ r ∈ reads.take (2001 - count),
        ∃ rec, r = ReadResult.record rec ∧ rec.length ≤ types.length) →
      ∃ types1 count1 rest1, scanRecords pd reads types count = .done types1 count1 rest1 := by
  induction reads with
  | nil => intro types count _; exact ⟨types, count, [], rfl⟩
  | cons r rest ih =>
    intro types count h
    by_cases hc : count > 2000
    · cases r <;> exact ⟨types, count, rest, by simp [scanRecords, hc]⟩
    · obtain ⟨k, hk⟩ : ∃ k, 2001 - count = k + 1 := ⟨2000 - count, by omega⟩
      rw [hk, List.take_succ_cons] at h
      obtain ⟨rec, hr, hlen⟩ := h r (List.mem_cons_self _ _)
      subst hr
      obtain ⟨types2, ht⟩ := tallyCells_in_bounds pd rec 0 types (by omega)
      have hlen2 := (tallyCells_spec pd rec 0 types types2 ht).1
      simp only [scanRecords, hc, if_false, ht]
      apply ih types2 (count + 1)
      intro r hr
      have hk2 : 2001 - (count + 1) = k := by omega
      rw [hk2] at hr
      obtain ⟨rec2, h1, h2⟩ := h r (List.mem_cons_of_mem _ hr)
      exact ⟨rec2, h1, by rw [hlen2]; exact h2⟩


theorem resolveType_ge {T : Type} [DecidableEq T] (tally : Tally T) (order : List T) :
    ∀ cur : T, tallyGet tally cur ≤ tallyGet tally (resolveType tally order cur) ∧
      ∀ typ ∈ order, tallyGet tally typ ≤ tallyGet tally (resolveType tally order cur) := by
  induction order with
  | nil => intro cur; exact ⟨le_refl _, by simp⟩
  | cons typ order ih =>
    intro cur
    simp only [resolveType, List.foldl_cons]
    by_cases h : tallyGet tally typ > tallyGet tally cur
    · simp only [h, if_true]
      obtain ⟨h1, h2⟩ := ih typ
      simp only [resolveType] at h1 h2
      refine ⟨by omega, ?_⟩
      intro t ht
      rcases List.mem_cons.1 ht with rfl | ht
      · exact h1
      · exact h2 t ht
    · simp only [h, if_false]
      obtain ⟨h1, h2⟩ := ih cur
      simp only [resolveType] at h1 h2
      refine ⟨h1, ?_⟩
      intro t ht
      rcases List.mem_cons.1 ht with rfl | ht
      · omega
      · exact h2 t ht

theorem resolveType_eq_cur {T : Type} [DecidableEq T] (tally : Tally T) (order : List T) :
    ∀ cur : T, (∀ typ ∈ order, tallyGet tally typ ≤ tallyGet tally cur) →
      resolveType tally order cur = cur := by
  induction order with
  | nil => intro cur _; rfl
  | cons typ order ih =>
    intro cur h
    have h1 : ¬ tallyGet tally typ > tallyGet tally cur := by
      have := h typ (List.mem_cons_self _ _)
      omega
    simp only [resolveType, List.foldl_cons, h1, if_false]
    exact ih cur (fun t ht => h t (List.mem_cons_of_mem _ ht))

theorem tallyGet_eq_zero_of_not_key {T : Type} [DecidableEq T] (tally : Tally T) (typ : T)
    (h : typ ∉ tally.map Prod.fst) : tallyGet tally typ = 0 := by
  induction tally with
  | nil => rfl
  | cons p rest ih =>
    obtain ⟨k, c⟩ := p
    simp only [List.map_cons, List.mem_cons, not_or] at h
    simp [tallyGet, Ne.symm h.1, ih h.2]

/-- The run time visits every key of a map exactly once when it ranges over it. -/
theorem resolveType_max {T : Type} [DecidableEq T] (tally : Tally T) (order : List T)
    (hperm : order.Perm (tally.map Prod.fst)) (cur typ : T) :
    tallyGet tally typ ≤ tallyGet tally (resolveType tally order cur) := by
  by_cases h : typ ∈ order
  · exact (resolveType_ge tally order cur).2 typ h
  · have hk : typ ∉ tally.map Prod.fst := fun hk => h (hperm.mem_iff.2 hk)
    rw [tallyGet_eq_zero_of_not_key tally typ hk]
    exact Nat.zero_le _

theorem resolveTypes_names {T M C : Type} [DecidableEq T] (iter : Nat → Tally T → List T)
    (fields : List (Field T M C)) :
    ∀ (i : Nat) (types : List (Tally T)),
      (resolveTypes iter i fields types).map (fun f => f.Name) = fields.map (fun f => f.Name) := by
  induction fields with
  | nil => intro i types; cases types <;> rfl
  | cons f fields ih =>
    intro i types
    cases types with
    | nil => rfl
    | cons tally types => simp [resolveTypes, ih]

theorem resolveTypes_get {T M C : Type} [DecidableEq T] (iter : Nat → Tally T → List T)
    (fields : List (Field T M C)) :
    ∀ (i : Nat) (types : List (Tally T)) (j : Nat) (f : Field T M C) (tally : Tally T),
      (resolveTypes iter i fields types).get? j = some f → types.get? j = some tally →
      ∃ f0, fields.get? j = some f0 ∧
        f.Type_ = resolveType tally (iter (i + j) tally) f0.Type_ := by
  induction fields with
  | nil =>
    intro i types j f tally h
    cases types <;> simp [resolveTypes] at h
  | cons f0 fields ih =>
    intro i types j f tally h ht
    cases types with
    | nil => simp at ht
    | cons tally0 types =>
      cases j with
      | zero =>
        simp only [resolveTypes, List.get?_cons_zero, Option.some.injEq] at h ht
        subst h ht
        exact ⟨f0, rfl, rfl⟩
      | succ j =>
        simp only [resolveTypes, List.get?_cons_succ] at h ht
        obtain ⟨f1, h1, h2⟩ := ih (i + 1) types j f tally h ht
        exact ⟨f1, by simpa using h1, by rw [h2]; congr 2; omega⟩

theorem initialFields_names {T M C : Type} [Inhabited M] [Inhabited C] (any : T) (n : Nat) :
    (initialFields (M := M) (C := C) any n).map (fun f => f.Name) =
      (List.range n).map (fun i => "field_" ++ toString (i + 1)) := by
  simp [initialFields, Function.comp_def]

theorem initialFields_type {T M C : Type} [Inhabited M] [Inhabited C] (any : T) (n : Nat)
    (f : Field T M C) (h : f ∈ initialFields any n) : f.Type_ = any := by
  simp only [initialFields, List.mem_map] at h
  obtain ⟨i, -, rfl⟩ := h
  rfl

theorem initialFields_length {T M C : Type} [Inhabited M] [Inhabited C] (any : T) (n : Nat) :
    (initialFields (M := M) (C := C) any n).length = n := by
  simp [initialFields]

theorem headerFields_names {T M C : Type} (any : T) (cam : String → String)
    (fields : List (Field T M C)) :
    ∀ header : List String, fields.length = header.length →
      (headerFields any cam fields header).map (fun f => f.Name) = header.map cam := by
  induction fields with
  | nil =>
    intro header h
    cases header with
    | nil => rfl
    | cons c cs => simp at h
  | cons f fields ih =>
    intro header h
    cases header with
    | nil => simp at h
    | cons c cs =>
      simp only [List.length_cons, Nat.add_right_cancel_iff] at h
      simp only [headerFields, List.zipWith_cons_cons, List.map_cons, List.cons.injEq, true_and]
      exact ih cs h

theorem headerFields_type {T M C : Type} (any : T) (cam : String → String)
    (fields : List (Field T M C)) (header : List String) (f : Field T M C)
    (h : f ∈ headerFields any cam fields header) : f.Type_ = any := by
  induction fields generalizing header with
  | nil => simp [headerFields] at h
  | cons f0 fields ih =>
    cases header with
    | nil => simp [headerFields] at h
    | cons c cs =>
      simp only [headerFields, List.zipWith_cons_cons, List.mem_cons] at h
      rcases h with rfl | h
      · rfl
      · exact ih cs h


theorem CSVFields_record {Cmp Sch T I F M C : Type} [DecidableEq T] [Inhabited M]
    [Inhabited C] (env : DetectEnv T I F) (iter : Nat → Tally T → List T)
    (resource : Structure Cmp Sch) (header : List String) (rest : List ReadResult)
    (run : CSVFieldsRun Cmp Sch T M C)
    (hrun : CSVFields env iter resource (ReadResult.record header :: rest) = some run) :
    ∃ (types1 : List (Tally T)) (fields1 : List (Field T M C)),
      ((possibleCsvHeaderRow env.ParseInteger env.ParseFloat header = true ∧
          types1 = List.replicate header.length [] ∧
          fields1 = headerFields env.Any env.Camelize
            (initialFields env.Any header.length) header ∧
          run.resource = { resource with
            FormatConfig := some (FormatConfig.csvOptions (some { HeaderRow := true })) }) ∨
        (possibleCsvHeaderRow env.ParseInteger env.ParseFloat header = false ∧
          tallyCells env.ParseDatatype 0 header (List.replicate header.length []) = some types1 ∧
          fields1 = initialFields env.Any header.length ∧
          run.resource = resource)) ∧
      ((scanRecords env.ParseDatatype rest types1 0 = .done run.types run.count run.rest ∧
          run.err = none ∧ run.fields = some (resolveTypes iter 0 fields1 run.types)) ∨
        (∃ msg, scanRecords env.ParseDatatype rest types1 0
            = .failed msg run.types run.count run.rest ∧
          run.err = some msg ∧ run.fields = some fields1)) := by
  unfold CSVFields at hrun
  simp only at hrun
  cases hh : possibleCsvHeaderRow env.ParseInteger env.ParseFloat header
  · simp only [hh, Bool.false_eq_true, if_false] at hrun
    cases ht : tallyCells env.ParseDatatype 0 header (List.replicate header.length [])
      with
    | none => rw [ht] at hrun; cases hrun
    | some types1 =>
      rw [ht] at hrun
      simp only at hrun
      cases hs : scanRecords env.ParseDatatype rest types1 0 with
      | panic => rw [hs] at hrun; cases hrun
      | failed msg types2 count rest2 =>
        rw [hs] at hrun
        simp only [Option.some.injEq] at hrun
        subst hrun
        exact ⟨types1, _, Or.inr ⟨rfl, rfl, rfl, rfl⟩, Or.inr ⟨msg, hs, rfl, rfl⟩⟩
      | done types2 count rest2 =>
        rw [hs] at hrun
        simp only [Option.some.injEq] at hrun
        subst hrun
        exact ⟨types1, _, Or.inr ⟨rfl, rfl, rfl, rfl⟩, Or.inl ⟨hs, rfl, rfl⟩⟩
  · simp only [hh, if_true] at hrun
    cases hs : scanRecords env.ParseDatatype rest (List.replicate header.length []) 0 with
    | panic => rw [hs] at hrun; cases hrun
    | failed msg types2 count rest2 =>
      rw [hs] at hrun
      simp only [Option.some.injEq] at hrun
      subst hrun
      exact ⟨_, _, Or.inl ⟨rfl, rfl, rfl, rfl⟩, Or.inr ⟨msg, hs, rfl, rfl⟩⟩
    | done types2 count rest2 =>
      rw [hs] at hrun
      simp only [Option.some.injEq] at hrun
      subst hrun
      exact ⟨_, _, Or.inl ⟨rfl, rfl, rfl, rfl⟩, Or.inl ⟨hs, rfl, rfl⟩⟩

theorem getD_replicate_nil {T : Type} (n j : Nat) :
    (List.replicate n ([] : Tally T)).getD j [] = [] := by
  by_cases h : j < n <;> simp [List.getD_eq_getElem?_getD, List.getElem?_replicate, h]


theorem CSVFields_returns {Cmp Sch T I F M C : Type} [DecidableEq T] [Inhabited M]
    [Inhabited C] (env : DetectEnv T I F) (iter : Nat → Tally T → List T)
    (resource : Structure Cmp Sch) (header : List String) (rest : List ReadResult)
    (h : ∀ r ∈ rest.take 2001, ∃ rec, r = ReadResult.record rec ∧ rec.length ≤ header.length) :
    ∃ run : CSVFieldsRun Cmp Sch T M C,
      CSVFields env iter resource (ReadResult.record header :: rest) = some run ∧
        run.err = none := by
  unfold CSVFields
  simp only
  cases hh : possibleCsvHeaderRow env.ParseInteger env.ParseFloat header
  · simp only [Bool.false_eq_true, if_false]
    obtain ⟨types1, ht⟩ := tallyCells_in_bounds env.ParseDatatype header 0
      (List.replicate header.length []) (by simp)
    have hlen := (tallyCells_spec env.ParseDatatype header 0 _ types1 ht).1
    obtain ⟨types2, count, rest2, hs⟩ := scanRecords_total env.ParseDatatype rest types1 0
      (by simpa [hlen] using h)
    rw [ht]
    simp only [hs]
    exact ⟨_, rfl, rfl⟩
  · simp only [if_true]
    obtain ⟨types2, count, rest2, hs⟩ := scanRecords_total env.ParseDatatype rest
      (List.replicate header.length []) 0 (by simpa using h)
    simp only [hs]
    exact ⟨_, rfl, rfl⟩

/-- Away from records wider than the first: when the first record is judged a header and
`CSVFields` returns without error, it returns one Field per header cell, in order, named
`Camelize` of that cell, sets the Structure's FormatConfig to the csv options with `HeaderRow = true`, and the tallies
count the cells of the sampled later records only, not those of the header. Such a run
exists whenever the reads sampled are records with no more cells than the first. -/
theorem CSVFields_header_row {Cmp Sch T I F M C : Type} [DecidableEq T] [Inhabited M]
    [Inhabited C] (env : DetectEnv T I F) (iter : Nat → Tally T → List T)
    (resource : Structure Cmp Sch) (header : List String) (rest : List ReadResult)
    (hhead : possibleCsvHeaderRow env.ParseInteger env.ParseFloat header = true) :
    (∀ run : CSVFieldsRun Cmp Sch T M C,
      CSVFields env iter resource (ReadResult.record header :: rest) = some run →
      run.err = none →
      (∃ fields, run.fields = some fields ∧
        fields.map (fun f => f.Name) = header.map env.Camelize) ∧
      run.resource.FormatConfig = some (FormatConfig.csvOptions (some { HeaderRow := true })) ∧
      ∃ recs : List (List String), rest.take run.count = recs.map ReadResult.record ∧
        ∀ j u, tallyGet (run.types.getD j []) u = cellCount env.ParseDatatype recs j u) ∧
    ((∀ r ∈ rest.take 2001, ∃ rec, r = ReadResult.record rec ∧ rec.length ≤ header.length) →
      ∃ run : CSVFieldsRun Cmp Sch T M C,
        CSVFields env iter resource (ReadResult.record header :: rest) = some run ∧
          run.err = none) := by
  refine ⟨?_, CSVFields_returns env iter resource header rest⟩
  intro run hrun herr
  obtain ⟨types1, fields1, hfirst, hscan⟩ := CSVFields_record env iter resource header rest run hrun
  rcases hfirst with ⟨-, ht, hf, hres⟩ | ⟨hno, -⟩
  · rcases hscan with ⟨hs, -, hfields⟩ | ⟨msg, -, he, -⟩
    · obtain ⟨recs, h1, h2, -, -, -, h6⟩ :=
        scanRecords_done env.ParseDatatype rest types1 0 run.types run.count run.rest hs
      refine ⟨⟨_, hfields, ?_⟩, by rw [hres], recs, ?_, ?_⟩
      · rw [resolveTypes_names, hf]
        exact headerFields_names _ _ _ header (initialFields_length _ _)
      · rw [h1, Nat.zero_add]
        exact h2
      · intro j u
        rw [h6 j u, ht, getD_replicate_nil]
        simp [tallyGet]
    · rw [herr] at he
      cases he
  · rw [hhead] at hno
    cases hno

/-- Away from records wider than the first: when the first record is judged not a header and
`CSVFields` returns without error, it returns one Field per cell of the first record named
`field_1`, `field_2`, ..., leaves the Structure as it was, and the tallies count the cells of the first record together
with those of the sampled later records, classified in the same way. Such a run exists
whenever the reads sampled are records with no more cells than the first. -/
theorem CSVFields_no_header_row {Cmp Sch T I F M C : Type} [DecidableEq T] [Inhabited M]
    [Inhabited C] (env : DetectEnv T I F) (iter : Nat → Tally T → List T)
    (resource : Structure Cmp Sch) (header : List String) (rest : List ReadResult)
    (hhead : possibleCsvHeaderRow env.ParseInteger env.ParseFloat header = false) :
    (∀ run : CSVFieldsRun Cmp Sch T M C,
      CSVFields env iter resource (ReadResult.record header :: rest) = some run →
      run.err = none →
      (∃ fields, run.fields = some fields ∧
        fields.map (fun f => f.Name) =
          (List.range header.length).map (fun i => "field_" ++ toString (i + 1))) ∧
      run.resource = resource ∧
      ∃ recs : List (List String), rest.take run.count = recs.map ReadResult.record ∧
        ∀ j u, tallyGet (run.types.getD j []) u =
          cellCount env.ParseDatatype (header :: recs) j u) ∧
    ((∀ r ∈ rest.take 2001, ∃ rec, r = ReadResult.record rec ∧ rec.length ≤ header.length) →
      ∃ run : CSVFieldsRun Cmp Sch T M C,
        CSVFields env iter resource (ReadResult.record header :: rest) = some run ∧
          run.err = none) := by
  refine ⟨?_, CSVFields_returns env iter resource header rest⟩
  intro run hrun herr
  obtain ⟨types1, fields1, hfirst, hscan⟩ := CSVFields_record env iter resource header rest run hrun
  rcases hfirst with ⟨hyes, -⟩ | ⟨-, ht, hf, hres⟩
  · rw [hhead] at hyes
    cases hyes
  · rcases hscan with ⟨hs, -, hfields⟩ | ⟨msg, -, he, -⟩
    · obtain ⟨recs, h1, h2, -, -, -, h6⟩ :=
        scanRecords_done env.ParseDatatype rest types1 0 run.types run.count run.rest hs
      obtain ⟨-, hget⟩ := tallyCells_spec env.ParseDatatype header 0 _ types1 ht
      refine ⟨⟨_, hfields, ?_⟩, hres, recs, ?_, ?_⟩
      · rw [resolveTypes_names, hf]
        exact initialFields_names _ _
      · rw [h1, Nat.zero_add]
        exact h2
      · intro j u
        rw [h6 j u, hget j u, getD_replicate_nil, cellCount_cons]
        simp [tallyGet]
        omega
    · rw [herr] at he
      cases he


theorem CSVFields_header_row_witness :
    ∃ run : CSVFieldsRun String String Datatype Unit Unit,
      CSVFields specEnv creationOrder csvResource
          [ReadResult.record ["first name", "Age"], ReadResult.record ["bob", "3"],
            ReadResult.record ["al", "x"]] = some run ∧
        run.err = none ∧
        (∃ fields, run.fields = some fields ∧
          fields.map (fun f => f.Name) = ["first name", "Age"].map specEnv.Camelize) ∧
        run.resource.FormatConfig
          = some (FormatConfig.csvOptions (some { HeaderRow := true })) ∧
        ∃ recs : List (List String),
          [ReadResult.record ["bob", "3"], ReadResult.record ["al", "x"]].take run.count
            = recs.map ReadResult.record ∧
          ∀ j u, tallyGet (run.types.getD j []) u = cellCount specEnv.ParseDatatype recs j u := by
  have h := CSVFields_header_row (M := Unit) (C := Unit) specEnv creationOrder csvResource
    ["first name", "Age"] [ReadResult.record ["bob", "3"], ReadResult.record ["al", "x"]]
    (by decide)
  obtain ⟨run, hrun, herr⟩ := h.2 (by
    intro r hr
    simp only [List.take, List.mem_cons, List.mem_singleton, List.not_mem_nil, or_false] at hr
    rcases hr with rfl | rfl <;> exact ⟨_, rfl, by decide⟩)
  exact ⟨run, hrun, herr, h.1 run hrun herr⟩

theorem CSVFields_no_header_row_witness :
    ∃ run : CSVFieldsRun String String Datatype Unit Unit,
      CSVFields specEnv creationOrder csvResource
          [ReadResult.record ["1", "x"], ReadResult.record ["2", "y"]] = some run ∧
        run.err = none ∧
        (∃ fields, run.fields = some fields ∧
          fields.map (fun f => f.Name) =
            (List.range ["1", "x"].length).map (fun i => "field_" ++ toString (i + 1))) ∧
        run.resource = csvResource ∧
        ∃ recs : List (List String),
          [ReadResult.record ["2", "y"]].take run.count = recs.map ReadResult.record ∧
          ∀ j u, tallyGet (run.types.getD j []) u =
            cellCount specEnv.ParseDatatype (["1", "x"] :: recs) j u := by
  have h := CSVFields_no_header_row (M := Unit) (C := Unit) specEnv creationOrder csvResource
    ["1", "x"] [ReadResult.record ["2", "y"]] (by decide)
  obtain ⟨run, hrun, herr⟩ := h.2 (by
    intro r hr
    simp only [List.take, List.mem_cons, List.mem_singleton, List.not_mem_nil, or_false] at hr
    subst hr
    exact ⟨_, rfl, by decide⟩)
  exact ⟨run, hrun, herr, h.1 run hrun herr⟩


theorem resolveTypes_length {T M C : Type} [DecidableEq T] (iter : Nat → Tally T → List T)
    (fields : List (Field T M C)) (i : Nat) (types : List (Tally T)) :
    (resolveTypes iter i fields types).length = fields.length := by
  have h := congrArg List.length (resolveTypes_names iter fields i types)
  simpa using h

theorem headerFields_length {T M C : Type} (any : T) (cam : String → String)
    (fields : List (Field T M C)) (header : List String) (h : fields.length = header.length) :
    (headerFields any cam fields header).length = header.length := by
  have h1 := congrArg List.length (headerFields_names any cam fields header h)
  simpa using h1

theorem CSVFields_first_record_shape {T I F M C : Type} [DecidableEq T] [Inhabited M]
    [Inhabited C] (env : DetectEnv T I F) (header : List String) (types1 : List (Tally T))
    (fields1 : List (Field T M C))
    (h : (types1 = List.replicate header.length [] ∧
          fields1 = headerFields env.Any env.Camelize
            (initialFields env.Any header.length) header) ∨
        (tallyCells env.ParseDatatype 0 header (List.replicate header.length []) = some types1 ∧
          fields1 = initialFields env.Any header.length)) :
    types1.length = header.length ∧ fields1.length = header.length ∧
      ∀ f ∈ fields1, f.Type_ = env.Any := by
  rcases h with ⟨rfl, rfl⟩ | ⟨ht, rfl⟩
  · exact ⟨by simp, headerFields_length _ _ _ _ (initialFields_length _ _),
      fun f hf => headerFields_type _ _ _ _ f hf⟩
  · have hlen := (tallyCells_spec env.ParseDatatype header 0 _ types1 ht).1
    exact ⟨by simpa using hlen, initialFields_length _ _,
      fun f hf => initialFields_type _ _ f hf⟩

/-- Away from records wider than the first: when `CSVFields` returns without error, every
Field returned has a type whose tally in its column is at least the tally of every other
type; the type is `any` when the column has no tallied cell; and a type with tally 8 in a column where every other
type has tally at most 2 is the type returned. The keys of a tally map are ranged over in an
arbitrary order that visits each key once. Such a run exists whenever the reads sampled are
records with no more cells than the first. -/
theorem CSVFields_type_has_highest_tally {Cmp Sch T I F M C : Type} [DecidableEq T]
    [Inhabited M] [Inhabited C] (env : DetectEnv T I F) (iter : Nat → Tally T → List T)
    (resource : Structure Cmp Sch) (header : List String) (rest : List ReadResult)
    (hiter : ∀ i tally, (iter i tally).Perm (tally.map Prod.fst)) :
    (∀ run : CSVFieldsRun Cmp Sch T M C,
      CSVFields env iter resource (ReadResult.record header :: rest) = some run →
      run.err = none →
      ∃ fields, run.fields = some fields ∧ fields.length = header.length ∧
        run.types.length = header.length ∧
        ∀ j f tally, fields.get? j = some f → run.types.get? j = some tally →
          (∀ u, tallyGet tally u ≤ tallyGet tally f.Type_) ∧
          ((∀ u, tallyGet tally u = 0) → f.Type_ = env.Any) ∧
          (∀ u, tallyGet tally u = 8 → (∀ v, v ≠ u → tallyGet tally v ≤ 2) → f.Type_ = u)) ∧
    ((∀ r ∈ rest.take 2001, ∃ rec, r = ReadResult.record rec ∧ rec.length ≤ header.length) →
      ∃ run : CSVFieldsRun Cmp Sch T M C,
        CSVFields env iter resource (ReadResult.record header :: rest) = some run ∧
          run.err = none) := by
  refine ⟨?_, CSVFields_returns env iter resource header rest⟩
  intro run hrun herr
  obtain ⟨types1, fields1, hfirst, hscan⟩ := CSVFields_record env iter resource header rest run hrun
  have hshape := CSVFields_first_record_shape env header types1 fields1 (by
    rcases hfirst with ⟨-, h1, h2, -⟩ | ⟨-, h1, h2, -⟩
    · exact Or.inl ⟨h1, h2⟩
    · exact Or.inr ⟨h1, h2⟩)
  obtain ⟨hlen1, hlenf, hany⟩ := hshape
  rcases hscan with ⟨hs, -, hfields⟩ | ⟨msg, -, he, -⟩
  · obtain ⟨recs, -, -, -, hlen2, -, -⟩ :=
      scanRecords_done env.ParseDatatype rest types1 0 run.types run.count run.rest hs
    refine ⟨_, hfields, by rw [resolveTypes_length, hlenf], by rw [hlen2, hlen1], ?_⟩
    intro j f tally hf ht
    obtain ⟨f0, hf0, htype⟩ := resolveTypes_get iter fields1 0 run.types j f tally hf ht
    have hf0any : f0.Type_ = env.Any := hany f0 (List.get?_mem hf0)
    have hmax : ∀ u, tallyGet tally u ≤ tallyGet tally f.Type_ := by
      intro u
      rw [htype]
      exact resolveType_max tally _ (hiter _ tally) _ u
    refine ⟨hmax, ?_, ?_⟩
    · intro hzero
      rw [htype, hf0any]
      exact resolveType_eq_cur tally _ _ (fun t _ => by rw [hzero t, hzero env.Any])
    · intro u hu hothers
      by_contra hne
      have h1 := hmax u
      have h2 := hothers f.Type_ hne
      omega
  · rw [herr] at he
    cases he


theorem creationOrder_perm {T : Type} (i : Nat) (tally : Tally T) :
    (creationOrder i tally).Perm (tally.map Prod.fst) :=
  List.Perm.refl _

theorem reverseOrder_perm {T : Type} (i : Nat) (tally : Tally T) :
    (reverseOrder i tally).Perm (tally.map Prod.fst) :=
  List.reverse_perm _

theorem CSVFields_type_has_highest_tally_witness :
    (∃ run : CSVFieldsRun String String Datatype Unit Unit,
      CSVFields specEnv creationOrder csvResource
          (ReadResult.record ["n"] ::
            (["1", "2", "x", "3", "4", "5", "y", "6", "7", "8"].map
              fun cell => ReadResult.record [cell])) = some run ∧
        run.err = none ∧
        ∃ fields, run.fields = some fields ∧ fields.length = ["n"].length ∧
          run.types.length = ["n"].length ∧
          ∀ j f tally, fields.get? j = some f → run.types.get? j = some tally →
            (∀ u, tallyGet tally u ≤ tallyGet tally f.Type_) ∧
            ((∀ u, tallyGet tally u = 0) → f.Type_ = specEnv.Any) ∧
            (∀ u, tallyGet tally u = 8 → (∀ v, v ≠ u → tallyGet tally v ≤ 2) → f.Type_ = u)) ∧
      (CSVFields (M := Unit) (C := Unit) specEnv creationOrder csvResource
          (ReadResult.record ["n"] ::
            (["1", "2", "x", "3", "4", "5", "y", "6", "7", "8"].map
              fun cell => ReadResult.record [cell]))).map
        (fun run => (run.types, run.fields.map (List.map fun f => f.Type_)))
        = some ([[(Datatype.integer, 8), (Datatype.string, 2)]], some [Datatype.integer]) := by
  have h := CSVFields_type_has_highest_tally (M := Unit) (C := Unit) specEnv creationOrder
    csvResource ["n"]
    (["1", "2", "x", "3", "4", "5", "y", "6", "7", "8"].map fun cell => ReadResult.record [cell])
    creationOrder_perm
  refine ⟨?_, by decide⟩
  obtain ⟨run, hrun, herr⟩ := h.2 (by
    intro r hr
    have hr1 := List.mem_of_mem_take hr
    simp only [List.mem_map] at hr1
    obtain ⟨cell, -, rfl⟩ := hr1
    exact ⟨_, rfl, Nat.le_refl 1⟩)
  exact ⟨run, hrun, herr, h.1 run hrun herr⟩


theorem scanRecords_done_stop {T : Type} [DecidableEq T] (pd : String → T)
    (reads : List ReadResult) :
    ∀ (types : List (Tally T)) (count : Nat) (types1 : List (Tally T)) (count1 : Nat)
      (rest1 : List ReadResult),
      scanRecords pd reads types count = .done types1 count1 rest1 →
      count1 > 2000 ∨ reads.get? (count1 - count) = none ∨
        reads.get? (count1 - count) = some (ReadResult.error "EOF") := by
  induction reads with
  | nil =>
    intro types count types1 count1 rest1 _
    exact Or.inr (Or.inl rfl)
  | cons r rest ih =>
    intro types count types1 count1 rest1 h
    cases r with
    | error msg =>
      simp only [scanRecords] at h
      split_ifs at h with hc he
      · simp only [ScanOutcome.done.injEq] at h
        exact Or.inl (by omega)
      · simp only [ScanOutcome.done.injEq] at h
        obtain ⟨-, rfl, -⟩ := h
        exact Or.inr (Or.inr (by simp [he]))
    | record rec =>
      simp only [scanRecords] at h
      split_ifs at h with hc
      · simp only [ScanOutcome.done.injEq] at h
        exact Or.inl (by omega)
      · cases ht : tallyCells pd 0 rec types with
        | none => rw [ht] at h; cases h
        | some types2 =>
          rw [ht] at h
          simp only at h
          obtain ⟨recs, h1, -⟩ := scanRecords_done pd rest types2 (count + 1) types1 count1 rest1 h
          rcases ih types2 (count + 1) types1 count1 rest1 h with h2 | h2 | h2
          · exact Or.inl h2
          · right; left
            have : count1 - count = (count1 - (count + 1)) + 1 := by omega
            rw [this, List.get?_cons_succ]
            exact h2
          · right; right
            have : count1 - count = (count1 - (count + 1)) + 1 := by omega
            rw [this, List.get?_cons_succ]
            exact h2

/-- C13 (the code at the failing input): on a header followed by 2002 records `CSVFields`
returns without error after tallying 2001 of the later records (`count` ends at 2001) and
consuming all 2002 of them. -/
theorem CSVFields_tallies_2001_sampled_records :
    ∃ run : CSVFieldsRun String String Datatype Unit Unit,
      CSVFields specEnv creationOrder csvResource
          (ReadResult.record ["n"] :: List.replicate 2002 (ReadResult.record ["1"])) = some run ∧
        run.err = none ∧ run.count = 2001 ∧ run.rest = [] ∧
        (∃ fields, run.fields = some fields ∧ fields.length = 1) ∧
        tallyGet (run.types.getD 0 []) Datatype.integer = 2001 := by
  obtain ⟨run, hrun, herr⟩ := CSVFields_returns (M := Unit) (C := Unit) specEnv creationOrder
    csvResource ["n"] (List.replicate 2002 (ReadResult.record ["1"])) (by
      intro r hr
      have hr1 := List.eq_of_mem_replicate (List.mem_of_mem_take hr)
      exact ⟨["1"], hr1, Nat.le_refl 1⟩)
  obtain ⟨types1, fields1, hfirst, hscan⟩ :=
    CSVFields_record specEnv creationOrder csvResource ["n"] _ run hrun
  have hhead : possibleCsvHeaderRow specEnv.ParseInteger specEnv.ParseFloat ["n"] = true := by
    decide
  rcases hfirst with ⟨-, ht, hf, -⟩ | ⟨hno, -⟩
  · rcases hscan with ⟨hs, -, hfields⟩ | ⟨msg, -, he, -⟩
    · obtain ⟨recs, h1, h2, h3, -, h5, h6⟩ :=
        scanRecords_done specEnv.ParseDatatype _ types1 0 run.types run.count run.rest hs
      have hstop := scanRecords_done_stop specEnv.ParseDatatype _ types1 0 run.types run.count
        run.rest hs
      have hle : run.count ≤ 2001 := h5 (by omega)
      have hcount : run.count = 2001 := by
        rcases hstop with h | h | h
        · omega
        · rw [Nat.sub_zero, List.get?_eq_none, List.length_replicate] at h
          omega
        · rw [Nat.sub_zero] at h
          have hmem := List.eq_of_mem_replicate (List.get?_mem h)
          cases hmem
      have hlen : recs.length = 2001 := by omega
      have hrecs : recs = List.replicate 2001 ["1"] := by
        refine List.eq_replicate_iff.2 ⟨hlen, ?_⟩
        intro b hb
        have hb1 : ReadResult.record b ∈ recs.map ReadResult.record := List.mem_map_of_mem _ hb
        rw [← h2] at hb1
        have hb2 := List.eq_of_mem_replicate (List.mem_of_mem_take hb1)
        cases hb2
        rfl
      refine ⟨run, hrun, herr, hcount, ?_, ⟨_, hfields, ?_⟩, ?_⟩
      · rw [h3, hlen]
        exact List.drop_eq_nil_of_le (by rw [List.length_replicate])
      · rw [resolveTypes_length, hf]
        rfl
      · rw [h6 0 Datatype.integer, ht, hrecs]
        have hc : classifiedAs specEnv.ParseDatatype ["1"] 0 Datatype.integer = true := by decide
        rw [cellCount, List.countP_replicate, if_pos hc]
        rfl
    · rw [herr] at he
      cases he
  · rw [hhead] at hno
    cases hno


theorem resolveType_order_irrelevant {T : Type} [DecidableEq T] (tally : Tally T)
    (o1 o2 : List T) (h1 : o1.Perm (tally.map Prod.fst)) (h2 : o2.Perm (tally.map Prod.fst))
    (hnotie : ∀ u v, u ≠ v → tallyGet tally u = tallyGet tally v →
      tallyGet tally u = 0 ∨ ∃ w, tallyGet tally u < tallyGet tally w)
    (cur : T) : resolveType tally o1 cur = resolveType tally o2 cur := by
  by_contra hne
  have hmax1 := resolveType_max tally o1 h1 cur
  have hmax2 := resolveType_max tally o2 h2 cur
  have heq : tallyGet tally (resolveType tally o1 cur) = tallyGet tally (resolveType tally o2 cur) :=
    Nat.le_antisymm (hmax2 _) (hmax1 _)
  rcases hnotie _ _ hne heq with hz | ⟨w, hw⟩
  · have hall : ∀ t, tallyGet tally t ≤ tallyGet tally cur := by
      intro t
      have := hmax1 t
      omega
    apply hne
    rw [resolveType_eq_cur tally o1 cur (fun t _ => hall t),
      resolveType_eq_cur tally o2 cur (fun t _ => hall t)]
  · have := hmax1 w
    omega

theorem resolveTypes_order_irrelevant {T M C : Type} [DecidableEq T]
    (iter1 iter2 : Nat → Tally T → List T)
    (h1 : ∀ i tally, (iter1 i tally).Perm (tally.map Prod.fst))
    (h2 : ∀ i tally, (iter2 i tally).Perm (tally.map Prod.fst))
    (fields : List (Field T M C)) :
    ∀ (i : Nat) (types : List (Tally T)),
      (∀ tally ∈ types, ∀ u v, u ≠ v → tallyGet tally u = tallyGet tally v →
        tallyGet tally u = 0 ∨ ∃ w, tallyGet tally u < tallyGet tally w) →
      resolveTypes iter1 i fields types = resolveTypes iter2 i fields types := by
  induction fields with
  | nil => intro i types _; cases types <;> rfl
  | cons f fields ih =>
    intro i types h
    cases types with
    | nil => rfl
    | cons tally types =>
      simp only [resolveTypes]
      rw [resolveType_order_irrelevant tally _ _ (h1 i tally) (h2 i tally)
        (h tally (List.mem_cons_self _ _)) f.Type_,
        ih (i + 1) types (fun t ht => h t (List.mem_cons_of_mem _ ht))]

/-- C15 (counterexample): on a column with one integer cell and one string cell the type
returned depends on the order in which the tally map is ranged over: integer when the keys
come in the order of their creation, string in the reverse order. -/
theorem CSVFields_tie_depends_on_iteration_order :
    (CSVFields (M := Unit) (C := Unit) specEnv creationOrder csvResource
        [ReadResult.record ["n"], ReadResult.record ["1"], ReadResult.record ["x"]]).map
      (fun run => (run.types, run.fields.map (List.map fun f => f.Type_)))
      = some ([[(Datatype.integer, 1), (Datatype.string, 1)]], some [Datatype.integer]) ∧
    (CSVFields (M := Unit) (C := Unit) specEnv reverseOrder csvResource
        [ReadResult.record ["n"], ReadResult.record ["1"], ReadResult.record ["x"]]).map
      (fun run => (run.types, run.fields.map (List.map fun f => f.Type_)))
      = some ([[(Datatype.integer, 1), (Datatype.string, 1)]], some [Datatype.string]) ∧
    (∀ (i : Nat) (tally : Tally Datatype),
      (creationOrder i tally).Perm (tally.map Prod.fst) ∧
        (reverseOrder i tally).Perm (tally.map Prod.fst)) :=
  ⟨by decide, by decide, fun i tally => ⟨creationOrder_perm i tally, reverseOrder_perm i tally⟩⟩

/-- C15 (amended): `CSVFields` does not depend on the order in which the tally maps are
ranged over when no column has a tie at the top (two distinct types with the same non-zero
tally and no type above them): two runs on the same input then return the same results. -/
theorem CSVFields_deterministic_without_ties {Cmp Sch T I F M C : Type} [DecidableEq T]
    [Inhabited M] [Inhabited C] (env : DetectEnv T I F) (iter1 iter2 : Nat → Tally T → List T)
    (resource : Structure Cmp Sch) (data : List ReadResult)
    (run : CSVFieldsRun Cmp Sch T M C)
    (h1 : ∀ i tally, (iter1 i tally).Perm (tally.map Prod.fst))
    (h2 : ∀ i tally, (iter2 i tally).Perm (tally.map Prod.fst))
    (hrun : CSVFields env iter1 resource data = some run)
    (hnotie : ∀ tally ∈ run.types, ∀ u v, u ≠ v → tallyGet tally u = tallyGet tally v →
      tallyGet tally u = 0 ∨ ∃ w, tallyGet tally u < tallyGet tally w) :
    CSVFields env iter2 resource data = some run := by
  cases data with
  | nil => exact hrun
  | cons r rest =>
    cases r with
    | error msg => exact hrun
    | record header =>
      unfold CSVFields at hrun ⊢
      simp only at hrun ⊢
      cases ht : (if possibleCsvHeaderRow env.ParseInteger env.ParseFloat header = true
          then some (List.replicate header.length ([] : Tally T))
          else tallyCells env.ParseDatatype 0 header (List.replicate header.length [])) with
      | none => rw [ht] at hrun; cases hrun
      | some types1 =>
        rw [ht] at hrun
        simp only at hrun ⊢
        cases hs : scanRecords env.ParseDatatype rest types1 0 with
        | panic => rw [hs] at hrun; cases hrun
        | failed msg types2 count rest2 =>
          rw [hs] at hrun
          exact hrun
        | done types2 count rest2 =>
          rw [hs] at hrun
          simp only [Option.some.injEq] at hrun ⊢
          subst hrun
          simp only at hnotie
          rw [resolveTypes_order_irrelevant iter1 iter2 h1 h2 _ 0 types2 hnotie]

theorem CSVFields_deterministic_without_ties_witness :
    CSVFields (M := Unit) (C := Unit) specEnv reverseOrder csvResource
        [ReadResult.record ["n"], ReadResult.record ["1"], ReadResult.record ["2"],
          ReadResult.record ["x"]]
      = some ⟨some [⟨"n", Datatype.integer, (), "", (), "", ""⟩], none,
          { csvResource with
            FormatConfig := some (FormatConfig.csvOptions (some { HeaderRow := true })) },
          [[(Datatype.integer, 2), (Datatype.string, 1)]], 3, []⟩ :=
  CSVFields_deterministic_without_ties specEnv creationOrder reverseOrder csvResource
    [ReadResult.record ["n"], ReadResult.record ["1"], ReadResult.record ["2"],
      ReadResult.record ["x"]]
    ⟨some [⟨"n", Datatype.integer, (), "", (), "", ""⟩], none,
      { csvResource with
        FormatConfig := some (FormatConfig.csvOptions (some { HeaderRow := true })) },
      [[(Datatype.integer, 2), (Datatype.string, 1)]], 3, []⟩
    creationOrder_perm reverseOrder_perm (by rfl)
    (by
      intro tally ht u v huv heq
      simp only [List.mem_singleton] at ht
      subst ht
      cases u <;> cases v <;> simp [tallyGet] at huv heq ⊢)


theorem scanRecords_fails {T : Type} [DecidableEq T] (pd : String → T) (msg : String)
    (more : List ReadResult) (hmsg : msg ≠ "EOF") (recs : List (List String)) :
    ∀ (types : List (Tally T)) (count : Nat), count + recs.length ≤ 2000 →
      (∀ rec ∈ recs, rec.length ≤ types.length) →
      ∃ types1, scanRecords pd (recs.map ReadResult.record ++ ReadResult.error msg :: more)
        types count = .failed msg types1 (count + recs.length) more := by
  induction recs with
  | nil =>
    intro types count hc _
    have h1 : ¬ count > 2000 := by
      simp only [List.length_nil] at hc
      omega
    exact ⟨types, by simp [scanRecords, h1, hmsg]⟩
  | cons rec recs ih =>
    intro types count hc hw
    simp only [List.length_cons] at hc
    have h1 : ¬ count > 2000 := by omega
    obtain ⟨types2, ht⟩ := tallyCells_in_bounds pd rec 0 types
      (by have := hw rec (List.mem_cons_self _ _); omega)
    have hlen2 := (tallyCells_spec pd rec 0 types types2 ht).1
    obtain ⟨types1, hs⟩ := ih types2 (count + 1) (by omega)
      (fun r hr => by rw [hlen2]; exact hw r (List.mem_cons_of_mem _ hr))
    refine ⟨types1, ?_⟩
    have hadd : count + 1 + recs.length = count + (recs.length + 1) := by omega
    rw [hadd] at hs
    rw [List.map_cons, List.cons_append]
    simp only [scanRecords, h1, if_false, ht, List.length_cons]
    exact hs

/-- C16 (counterexample): on an empty input the first read returns end-of-input, and
`CSVFields` returns it as its error, with no Field list. -/
theorem CSVFields_empty_input_returns_EOF :
    CSVFields (M := Unit) (C := Unit) specEnv creationOrder csvResource []
      = some ⟨none, some "EOF", csvResource, [], 0, []⟩ :=
  rfl

/-- C16 (amended): when the first read fails, `CSVFields` returns its error (end-of-input on
an empty input) and no Field list; when a later sampled read fails with an error other than
end-of-input, the records before it having no more cells than the first, it returns that
error with the partial Field list: one Field per cell of the first record, named, of type
`any`; and after a first record end-of-input is never the error returned. -/
theorem CSVFields_error_contract {Cmp Sch T I F M C : Type} [DecidableEq T] [Inhabited M]
    [Inhabited C] (env : DetectEnv T I F) (iter : Nat → Tally T → List T)
    (resource : Structure Cmp Sch) (header : List String) :
    (CSVFields (M := M) (C := C) env iter resource []
        = some ⟨none, some "EOF", resource, [], 0, []⟩ ∧
      ∀ msg rest, CSVFields (M := M) (C := C) env iter resource (ReadResult.error msg :: rest)
        = some ⟨none, some msg, resource, [], 0, rest⟩) ∧
    (∀ (recs : List (List String)) (msg : String) (more : List ReadResult),
      recs.length ≤ 2000 → msg ≠ "EOF" → (∀ rec ∈ recs, rec.length ≤ header.length) →
      ∃ run : CSVFieldsRun Cmp Sch T M C,
        CSVFields env iter resource (ReadResult.record header ::
          (recs.map ReadResult.record ++ ReadResult.error msg :: more)) = some run ∧
        run.err = some msg ∧
        ∃ fields, run.fields = some fields ∧ fields.length = header.length ∧
          (∀ f ∈ fields, f.Type_ = env.Any) ∧
          fields.map (fun f => f.Name) =
            if possibleCsvHeaderRow env.ParseInteger env.ParseFloat header = true
            then header.map env.Camelize
            else (List.range header.length).map (fun i => "field_" ++ toString (i + 1))) ∧
    (∀ (rest : List ReadResult) (run : CSVFieldsRun Cmp Sch T M C),
      CSVFields env iter resource (ReadResult.record header :: rest) = some run →
      run.err ≠ some "EOF") := by
  refine ⟨⟨rfl, fun msg rest => rfl⟩, ?_, ?_⟩
  · intro recs msg more hlen hmsg hw
    unfold CSVFields
    simp only
    cases hh : possibleCsvHeaderRow env.ParseInteger env.ParseFloat header
    · simp only [Bool.false_eq_true, if_false]
      obtain ⟨types1, ht⟩ := tallyCells_in_bounds env.ParseDatatype header 0
        (List.replicate header.length []) (by simp)
      have hlen1 := (tallyCells_spec env.ParseDatatype header 0 _ types1 ht).1
      obtain ⟨types2, hs⟩ := scanRecords_fails env.ParseDatatype msg more hmsg recs types1 0
        (by omega) (by simpa [hlen1] using hw)
      rw [ht]
      simp only [hs]
      exact ⟨_, rfl, rfl, _, rfl, initialFields_length _ _,
        fun f hf => initialFields_type _ _ f hf, initialFields_names _ _⟩
    · simp only [if_true]
      obtain ⟨types2, hs⟩ := scanRecords_fails env.ParseDatatype msg more hmsg recs
        (List.replicate header.length []) 0 (by omega) (by simpa using hw)
      simp only [hs]
      exact ⟨_, rfl, rfl, _, rfl, headerFields_length _ _ _ _ (initialFields_length _ _),
        fun f hf => headerFields_type _ _ _ _ f hf,
        headerFields_names _ _ _ header (initialFields_length _ _)⟩
  · intro rest run hrun
    obtain ⟨types1, fields1, -, hscan⟩ := CSVFields_record env iter resource header rest run hrun
    rcases hscan with ⟨-, he, -⟩ | ⟨msg, hs, he, -⟩
    · rw [he]
      intro h
      cases h
    · obtain ⟨hm, -⟩ := scanRecords_failed env.ParseDatatype rest types1 0 msg _ _ _ hs
      rw [he]
      intro h
      exact hm (Option.some.inj h)

theorem CSVFields_error_contract_witness :
    ∃ run : CSVFieldsRun String String Datatype Unit Unit,
      CSVFields specEnv creationOrder csvResource (ReadResult.record ["first name", "Age"] ::
        ([["bob", "3"]].map ReadResult.record ++
          ReadResult.error "line 3: bare quote" :: [ReadResult.record ["al", "4"]])) = some run ∧
      run.err = some "line 3: bare quote" ∧
      ∃ fields, run.fields = some fields ∧ fields.length = ["first name", "Age"].length ∧
        (∀ f ∈ fields, f.Type_ = specEnv.Any) ∧
        fields.map (fun f => f.Name) =
          if possibleCsvHeaderRow specEnv.ParseInteger specEnv.ParseFloat
            ["first name", "Age"] = true
          then ["first name", "Age"].map specEnv.Camelize
          else (List.range ["first name", "Age"].length).map
            (fun i => "field_" ++ toString (i + 1)) :=
  (CSVFields_error_contract (M := Unit) (C := Unit) specEnv creationOrder csvResource
    ["first name", "Age"]).2.1 [["bob", "3"]] "line 3: bare quote"
    [ReadResult.record ["al", "4"]] (by decide) (by decide)
    (by intro rec hrec; simp only [List.mem_singleton] at hrec; subst hrec; decide)


/-! ## Abstract -/

theorem abstractFields_names {T M C : Type} (fields : List (Field T M C)) :
    ∀ i : Nat, (abstractFields i fields).map (fun f => f.Name) =
      (List.range' i fields.length).map (fun k => "col_" ++ toString k) := by
  induction fields with
  | nil => intro i; rfl
  | cons f fields ih =>
    intro i
    simp [abstractFields, List.range'_succ, ih (i + 1)]

theorem abstractFields_congr {T M C : Type} (fields1 fields2 : List (Field T M C))
    (h : List.Forall₂ (fun f g : Field T M C => f.Type_ = g.Type_ ∧
      f.MissingValue = g.MissingValue ∧ f.Format = g.Format ∧ f.Constraints = g.Constraints)
      fields1 fields2) :
    ∀ i : Nat, abstractFields i fields1 = abstractFields i fields2 := by
  induction h with
  | nil => intro i; rfl
  | cons hfg _ ih =>
    intro i
    obtain ⟨h1, h2, h3, h4⟩ := hfg
    simp [abstractFields, h1, h2, h3, h4, ih (i + 1)]

theorem abstractFields_keeps {T M C : Type} (fields : List (Field T M C)) :
    ∀ i : Nat, List.Forall₂ (fun f g : Field T M C => g.Type_ = f.Type_ ∧
      g.MissingValue = f.MissingValue ∧ g.Format = f.Format ∧
      g.Constraints = f.Constraints ∧ g.Title = "" ∧ g.Description = "")
      fields (abstractFields i fields) := by
  induction fields with
  | nil => intro i; exact List.Forall₂.nil
  | cons f fields ih =>
    intro i
    exact List.Forall₂.cons ⟨rfl, rfl, rfl, rfl, rfl, rfl⟩ (ih (i + 1))

/-- C17: two Structures that differ only in the names, titles and descriptions of their
Schema fields have the same Abstract form, hence the same hash of it; and the fields of an
Abstract form are named `col_0`, `col_1`, ... by their position. -/
theorem Abstract_ignores_labels {Cmp K T M C : Type} [Inhabited Cmp]
    (s1 s2 : Structure Cmp (Schema K T M C))
    (hformat : s1.Format = s2.Format) (hconfig : s1.FormatConfig = s2.FormatConfig)
    (hencoding : s1.Encoding = s2.Encoding) (_hcompression : s1.Compression = s2.Compression)
    (hschema : (s1.Schema = none ∧ s2.Schema = none) ∨
      ∃ sch1 sch2, s1.Schema = some sch1 ∧ s2.Schema = some sch2 ∧
        sch1.PrimaryKey = sch2.PrimaryKey ∧
        List.Forall₂ (fun f g : Field T M C => f.Type_ = g.Type_ ∧
          f.MissingValue = g.MissingValue ∧ f.Format = g.Format ∧
          f.Constraints = g.Constraints) sch1.Fields sch2.Fields) :
    s1.Abstract = s2.Abstract ∧
      (∀ (H : Type) (JSONHash : Structure Cmp (Schema K T M C) → H),
        Structure.Hash JSONHash s1.Abstract = Structure.Hash JSONHash s2.Abstract) ∧
      (∀ a, s1.Abstract.Schema = some a →
        ∃ sch1, s1.Schema = some sch1 ∧
          a.Fields.map (fun f => f.Name) =
            (List.range sch1.Fields.length).map (fun k => "col_" ++ toString k)) := by
  have heq : s1.Abstract = s2.Abstract := by
    unfold Structure.Abstract
    rcases hschema with ⟨h1, h2⟩ | ⟨sch1, sch2, h1, h2, hk, hf⟩
    · simp [hformat, hconfig, hencoding, h1, h2]
    · simp [hformat, hconfig, hencoding, h1, h2, hk, abstractFields_congr _ _ hf 0]
  refine ⟨heq, ?_, ?_⟩
  · intro H JSONHash
    rw [heq]
  · intro a ha
    unfold Structure.Abstract at ha
    cases hs : s1.Schema with
    | none => rw [hs] at ha; cases ha
    | some sch1 =>
      rw [hs] at ha
      simp only [Option.some.injEq] at ha
      subst ha
      refine ⟨sch1, rfl, ?_⟩
      simp only
      rw [abstractFields_names, List.range_eq_range']


theorem Abstract_ignores_labels_witness :
    (Structure.Abstract (⟨CsvDataFormat, none, "utf-8", "",
        some ⟨"id", [⟨"id", Datatype.integer, (), "", (), "Identifier", "the key"⟩,
          ⟨"name", Datatype.string, (), "", (), "Name", ""⟩]⟩⟩ :
        Structure String (Schema String Datatype Unit Unit))
      = Structure.Abstract ⟨CsvDataFormat, none, "utf-8", "",
        some ⟨"id", [⟨"a", Datatype.integer, (), "", (), "", ""⟩,
          ⟨"b", Datatype.string, (), "", (), "", "label"⟩]⟩⟩) ∧
    (∀ (H : Type) (JSONHash : Structure String (Schema String Datatype Unit Unit) → H),
      Structure.Hash JSONHash (Structure.Abstract ⟨CsvDataFormat, none, "utf-8", "",
        some ⟨"id", [⟨"id", Datatype.integer, (), "", (), "Identifier", "the key"⟩,
          ⟨"name", Datatype.string, (), "", (), "Name", ""⟩]⟩⟩)
      = Structure.Hash JSONHash (Structure.Abstract ⟨CsvDataFormat, none, "utf-8", "",
        some ⟨"id", [⟨"a", Datatype.integer, (), "", (), "", ""⟩,
          ⟨"b", Datatype.string, (), "", (), "", "label"⟩]⟩⟩)) ∧
    (∀ a, (Structure.Abstract (⟨CsvDataFormat, none, "utf-8", "",
        some ⟨"id", [⟨"id", Datatype.integer, (), "", (), "Identifier", "the key"⟩,
          ⟨"name", Datatype.string, (), "", (), "Name", ""⟩]⟩⟩ :
        Structure String (Schema String Datatype Unit Unit))).Schema = some a →
      ∃ sch1, (⟨CsvDataFormat, none, "utf-8", "",
          some ⟨"id", [⟨"id", Datatype.integer, (), "", (), "Identifier", "the key"⟩,
            ⟨"name", Datatype.string, (), "", (), "Name", ""⟩]⟩⟩ :
          Structure String (Schema String Datatype Unit Unit)).Schema = some sch1 ∧
        a.Fields.map (fun f => f.Name) =
          (List.range sch1.Fields.length).map (fun k => "col_" ++ toString k)) :=
  Abstract_ignores_labels
    ⟨CsvDataFormat, none, "utf-8", "",
      some ⟨"id", [⟨"id", Datatype.integer, (), "", (), "Identifier", "the key"⟩,
        ⟨"name", Datatype.string, (), "", (), "Name", ""⟩]⟩⟩
    ⟨CsvDataFormat, none, "utf-8", "",
      some ⟨"id", [⟨"a", Datatype.integer, (), "", (), "", ""⟩,
        ⟨"b", Datatype.string, (), "", (), "", "label"⟩]⟩⟩
    rfl rfl rfl rfl
    (Or.inr ⟨_, _, rfl, rfl, rfl,
      List.Forall₂.cons ⟨rfl, rfl, rfl, rfl⟩
        (List.Forall₂.cons ⟨rfl, rfl, rfl, rfl⟩ List.Forall₂.nil)⟩)

/-- C18 (counterexample): `Abstract` does not keep the Compression: the Abstract form of a
Structure with the compression `gzip` has the zero value instead. -/
theorem Abstract_drops_compression :
    (Structure.Abstract (⟨CsvDataFormat, none, "utf-8", "gzip", none⟩ :
        Structure String (Schema String Datatype Unit Unit))).Compression = "" ∧
      (⟨CsvDataFormat, none, "utf-8", "gzip", none⟩ :
        Structure String (Schema String Datatype Unit Unit)).Compression = "gzip" ∧
      ("" : String) ≠ "gzip" :=
  ⟨rfl, rfl, by decide⟩

/-- C18 (amended): the Abstract form of a Structure has the same Format, FormatConfig and
Encoding, the zero value as Compression, no Schema when the Structure has none, and
otherwise a Schema with the same primary key and the same number of fields in the same
order, each keeping its Type, MissingValue, sub-format and Constraints, with empty title and
description. -/
theorem Abstract_keeps_essentials {Cmp K T M C : Type} [Inhabited Cmp]
    (s : Structure Cmp (Schema K T M C)) :
    s.Abstract.Format = s.Format ∧ s.Abstract.FormatConfig = s.FormatConfig ∧
      s.Abstract.Encoding = s.Encoding ∧ s.Abstract.Compression = default ∧
      (s.Schema = none → s.Abstract.Schema = none) ∧
      (∀ sch, s.Schema = some sch →
        ∃ a, s.Abstract.Schema = some a ∧ a.PrimaryKey = sch.PrimaryKey ∧
          a.Fields.length = sch.Fields.length ∧
          List.Forall₂ (fun f g : Field T M C => g.Type_ = f.Type_ ∧
            g.MissingValue = f.MissingValue ∧ g.Format = f.Format ∧
            g.Constraints = f.Constraints ∧ g.Title = "" ∧ g.Description = "")
            sch.Fields a.Fields) := by
  refine ⟨rfl, rfl, rfl, rfl, ?_, ?_⟩
  · intro h
    simp [Structure.Abstract, h]
  · intro sch h
    refine ⟨⟨sch.PrimaryKey, abstractFields 0 sch.Fields⟩, by simp [Structure.Abstract, h],
      rfl, ?_, abstractFields_keeps sch.Fields 0⟩
    exact (abstractFields_keeps sch.Fields 0).length_eq.symm

theorem Abstract_keeps_essentials_witness :
    ∃ a, (Structure.Abstract (⟨CsvDataFormat, none, "utf-8", "gzip",
        some ⟨"id", [⟨"id", Datatype.integer, (), "int64", (), "Identifier", "the key"⟩]⟩⟩ :
        Structure String (Schema String Datatype Unit Unit))).Schema = some a ∧
      a.PrimaryKey = "id" ∧ a.Fields.length = 1 ∧
      List.Forall₂ (fun f g : Field Datatype Unit Unit => g.Type_ = f.Type_ ∧
        g.MissingValue = f.MissingValue ∧ g.Format = f.Format ∧
        g.Constraints = f.Constraints ∧ g.Title = "" ∧ g.Description = "")
        [⟨"id", Datatype.integer, (), "int64", (), "Identifier", "the key"⟩] a.Fields :=
  (Abstract_keeps_essentials (⟨CsvDataFormat, none, "utf-8", "gzip",
    some ⟨"id", [⟨"id", Datatype.integer, (), "int64", (), "Identifier", "the key"⟩]⟩⟩ :
    Structure String (Schema String Datatype Unit Unit))).2.2.2.2.2
    ⟨"id", [⟨"id", Datatype.integer, (), "int64", (), "Identifier", "the key"⟩]⟩ rfl


/-! ## License -/

theorem unquoteRest_plain (cs : List Char) (h : ∀ c ∈ cs, plainChar c = true) :
    unquoteRest (cs ++ [Char.ofNat 34]) = some cs := by
  unfold unquoteRest
  induction cs with
  | nil => rfl
  | cons c cs ih =>
    have hc := h c (List.mem_cons_self _ _)
    simp only [plainChar, Bool.and_eq_true, bne_iff_ne, ne_eq, decide_eq_true_eq] at hc
    obtain ⟨⟨h1, h2⟩, h3⟩ := hc
    have h4 : ¬ c.toNat < 32 := by omega
    have ih1 := ih (fun d hd => h d (List.mem_cons_of_mem _ hd))
    simp only [List.cons_append, unquoteRun, unquoteStep, bodyStep, h1, h2, h4, if_false]
    change Option.map _ (unquoteRun Scan.body (cs ++ [Char.ofNat 34])) = _
    rw [ih1]
    rfl

theorem License_MarshalJSON_plain (l : License)
    (hplain : ∀ c ∈ l.Type_.data, plainChar c = true) :
    (l.Type_ ≠ "" ∧ l.Url = "" →
      ∃ enc, l.MarshalJSON = .ok enc ∧ enc.toJSON = some (JSON.str l.Type_)) ∧
    (¬ (l.Type_ ≠ "" ∧ l.Url = "") →
      ∃ enc, l.MarshalJSON = .ok enc ∧
        enc.toJSON = some (JSON.obj ([("type", JSON.str l.Type_)] ++
          (if l.Url = "" then [] else [("url", JSON.str l.Url)])))) := by
  constructor
  · intro h
    refine ⟨Encoded.quoted l.Type_, by simp [License.MarshalJSON, h], ?_⟩
    simp [Encoded.toJSON, unquoteRest_plain l.Type_.data hplain]
  · intro h
    refine ⟨Encoded.value (JSON.obj ([("type", JSON.str l.Type_)] ++
      (if l.Url = "" then [] else [("url", JSON.str l.Url)]))), ?_, rfl⟩
    simp only [License.MarshalJSON, h, if_false]

/-- C19 (the code at the failing input): for a License whose type holds a double quote and
whose url is empty, `License.MarshalJSON` returns the type between double quotes as it is,
which is not a JSON text; with a backslash in the type the text returned is the JSON string
of another string. -/
theorem License_MarshalJSON_unescaped :
    quoteLicense.MarshalJSON = .ok (Encoded.quoted quoteLicense.Type_) ∧
      (Encoded.quoted quoteLicense.Type_).toJSON = none ∧
      backslashLicense.MarshalJSON = .ok (Encoded.quoted backslashLicense.Type_) ∧
      (Encoded.quoted backslashLicense.Type_).toJSON
        = some (JSON.str (String.mk [Char.ofNat 97, Char.ofNat 10, Char.ofNat 98])) ∧
      backslashLicense.Type_ ≠ String.mk [Char.ofNat 97, Char.ofNat 10, Char.ofNat 98] :=
  ⟨rfl, rfl, rfl, rfl, by decide⟩

/-! ## Loading rows -/

theorem eachRowLoop_offset_positive (offset : Int) (rows : List (List String))
    (recs : List (List String)) :
    ∀ num : Int, 1 ≤ num → num ≤ offset →
      eachRowLoop (rawDataRowsFn offset) (recs.map ReadResult.record) num (0, rows)
        = ((0, rows), none) := by
  induction recs with
  | nil => intro num _ _; rfl
  | cons rec recs ih =>
    intro num h1 h2
    by_cases hlt : num < offset
    · simp only [List.map_cons, eachRowLoop, rawDataRowsFn, hlt, if_true]
      exact ih (num + 1) (by omega) (by omega)
    · have heq : num - offset = 0 := by omega
      simp [eachRowLoop, rawDataRowsFn, hlt, heq]

theorem eachRowLoop_offset_not_positive (offset : Int) (hoff : offset ≤ 0)
    (recs : List (List String)) :
    ∀ (num : Int) (rows : List (List String)), 1 ≤ num →
      eachRowLoop (rawDataRowsFn offset) (recs.map ReadResult.record) num (num - 1, rows)
        = ((num - 1 + recs.length, rows ++ recs), none) := by
  induction recs with
  | nil => intro num rows _; simp [eachRowLoop]
  | cons rec recs ih =>
    intro num rows h1
    have hlt : ¬ num < offset := by omega
    have hne : ¬ num - offset = num - 1 := by omega
    simp only [List.map_cons, eachRowLoop, rawDataRowsFn, hlt, hne, if_false]
    have hnum : num - 1 + 1 = (num + 1) - 1 := by omega
    rw [hnum, ih (num + 1) (rows ++ [rec]) (by omega)]
    simp only [List.length_cons, List.append_assoc, List.singleton_append, Nat.cast_add,
      Nat.cast_one, Prod.mk.injEq, and_true]
    omega

/-- On a csv resource without a header row whose data is read as the records `recs`,
`RawDataRows` returns all the rows when `offset` is not positive and no row otherwise,
whatever `limit` is. -/
theorem RawDataRows_ignores_limit (path : String) (recs : List (List String))
    (limit offset : Int) :
    RawDataRows ⟨CsvDataFormat, none, path⟩ (.ok (recs.map ReadResult.record)) limit offset
      = some (.ok (if offset ≤ 0 then recs else [])) := by
  have hh : HeaderRow ⟨CsvDataFormat, none, path⟩ = some false := rfl
  by_cases hoff : offset ≤ 0
  · have h := eachRowLoop_offset_not_positive offset hoff recs 1 [] (le_refl 1)
    simp only [sub_self, List.nil_append] at h
    simp [RawDataRows, EachRow, hh, h, hoff]
  · have h := eachRowLoop_offset_positive offset [] recs 1 (le_refl 1) (by omega)
    simp [RawDataRows, EachRow, hh, h, hoff]

/-- C20 (the code at the failing input): on three data rows `RawDataRows` returns all three
rows for `limit = 1`, `offset = 0`, and no row for `limit = 1`, `offset = 1`, where the rows
inside the range are the first row and the second row. -/
theorem RawDataRows_outside_range :
    RawDataRows ⟨CsvDataFormat, none, "/data"⟩
        (.ok [ReadResult.record ["a"], ReadResult.record ["b"], ReadResult.record ["c"]]) 1 0
      = some (.ok [["a"], ["b"], ["c"]]) ∧
    (([["a"], ["b"], ["c"]] : List (List String)).drop 0).take 1 = [["a"]] ∧
    RawDataRows ⟨CsvDataFormat, none, "/data"⟩
        (.ok [ReadResult.record ["a"], ReadResult.record ["b"], ReadResult.record ["c"]]) 1 1
      = some (.ok []) ∧
    (([["a"], ["b"], ["c"]] : List (List String)).drop 1).take 1 = [["b"]] :=
  ⟨rfl, rfl, rfl, rfl⟩



/-! ## Iterating over rows -/

theorem eachRowLoop_no_error {σ : Type} (fn : DataIteratorFunc σ)
    (hfn : ∀ st i row err, (fn st i row err).2 = none) (rows : List (List String)) :
    ∀ (num : Int) (st : σ),
      eachRowLoop fn (rows.map ReadResult.record) num st = (applyCalls fn rows num st, none) := by
  induction rows with
  | nil => intro num st; rfl
  | cons row rows ih =>
    intro num st
    have h := hfn st num row none
    simp only [List.map_cons, eachRowLoop, applyCalls]
    cases hcall : fn st num row none with
    | mk st1 err =>
      rw [hcall] at h
      simp only at h
      subst h
      exact ih (num + 1) st1

theorem applyCalls_recordCalls (rows : List (List String)) :
    ∀ (num : Int) (log : List (Int × List String)),
      applyCalls recordCalls rows num log = log ++ numberedFrom num rows := by
  induction rows with
  | nil => intro num log; simp [applyCalls, numberedFrom]
  | cons row rows ih =>
    intro num log
    simp [applyCalls, numberedFrom, recordCalls, ih]

theorem numberedFrom_length (rows : List (List String)) :
    ∀ num : Int, (numberedFrom num rows).length = rows.length := by
  induction rows with
  | nil => intro num; rfl
  | cons row rows ih => intro num; simp [numberedFrom, ih]

theorem numberedFrom_get (rows : List (List String)) :
    ∀ (num : Int) (k : Nat) (call : Int × List String),
      (numberedFrom num rows).get? k = some call →
      call.1 = num + k ∧ rows.get? k = some call.2 := by
  induction rows with
  | nil => intro num k call h; simp [numberedFrom] at h
  | cons row rows ih =>
    intro num k call h
    cases k with
    | zero =>
      simp only [numberedFrom, List.get?_cons_zero, Option.some.injEq] at h
      subst h
      simp
    | succ k =>
      simp only [numberedFrom, List.get?_cons_succ] at h
      obtain ⟨h1, h2⟩ := ih (num + 1) k call h
      refine ⟨?_, by simpa using h2⟩
      rw [h1]
      push_cast
      ring

theorem HeaderRow_true_iff (r : Resource) (hcsv : r.Format = CsvDataFormat) :
    HeaderRow r = some true ↔
      r.FormatConfig = some (FormatConfig.csvOptions (some { HeaderRow := true })) := by
  unfold HeaderRow
  rw [if_pos hcsv]
  cases hc : r.FormatConfig with
  | none => simp
  | some c =>
    cases c with
    | csvOptions o =>
      cases o with
      | none => simp
      | some o =>
        obtain ⟨b⟩ := o
        simp
    | jsonOptions o => simp

/-- Away from a nil pointer to the csv options, that is when `HeaderRow` returns: on a csv
resource whose data is read as the records `recs`, with a callback that never returns an
error, `EachRow` returns no error after calling the callback once per data
row, in input order, with the row numbers 1, 2, ... and the cells of the record: the rows
are all the records but the first when the FormatConfig requests a header row, and all the
records otherwise. -/
theorem EachRow_calls_once_per_row {σ : Type} (r : Resource) (requested : Bool)
    (recs : List (List String)) (fn : DataIteratorFunc σ) (st : σ)
    (hcsv : r.Format = CsvDataFormat) (hheader : HeaderRow r = some requested)
    (hfn : ∀ st i row err, (fn st i row err).2 = none) :
    (requested = true ↔
      r.FormatConfig = some (FormatConfig.csvOptions (some { HeaderRow := true }))) ∧
    EachRow r (recs.map ReadResult.record) fn st
      = some (applyCalls fn (if requested then recs.drop 1 else recs) 1 st, none) ∧
    EachRow r (recs.map ReadResult.record) recordCalls []
      = some (numberedFrom 1 (if requested then recs.drop 1 else recs), none) ∧
    (numberedFrom 1 (if requested then recs.drop 1 else recs)).length
      = (if requested then recs.length - 1 else recs.length) ∧
    (∀ (k : Nat) (call : Int × List String),
      (numberedFrom 1 (if requested then recs.drop 1 else recs)).get? k = some call →
      call.1 = 1 + k ∧ (if requested then recs.drop 1 else recs).get? k = some call.2) := by
  have hrun : ∀ (τ : Type) (g : DataIteratorFunc τ) (s0 : τ),
      (∀ st i row err, (g st i row err).2 = none) →
      EachRow r (recs.map ReadResult.record) g s0
        = some (applyCalls g (if requested then recs.drop 1 else recs) 1 s0, none) := by
    intro τ g s0 hg
    unfold EachRow
    rw [if_pos hcsv, hheader]
    cases requested with
    | false => simp only [Bool.false_eq_true, if_false, eachRowLoop_no_error g hg]
    | true =>
      cases recs with
      | nil => rfl
      | cons rec recs =>
        simp only [List.map_cons, if_true, List.drop_succ_cons, List.drop_zero,
          eachRowLoop_no_error g hg]
  refine ⟨?_, hrun σ fn st hfn, ?_, ?_, ?_⟩
  · rw [← HeaderRow_true_iff r hcsv, hheader]
    simp
  · rw [hrun _ recordCalls [] (fun _ _ _ _ => rfl), applyCalls_recordCalls]
    simp
  · rw [numberedFrom_length]
    cases requested <;> simp
  · intro k call h
    exact numberedFrom_get _ 1 k call h

theorem EachRow_calls_once_per_row_witness :
    EachRow ⟨CsvDataFormat, some (FormatConfig.csvOptions (some { HeaderRow := true })), "/data"⟩
        ([["col_a", "col_b", "col_c", "col_d"], ["a", "b", "c", "d"], ["a", "b", "c", "d"],
          ["a", "b", "c", "d"], ["a", "b", "c", "d"], ["a", "b", "c", "d"]].map
            ReadResult.record) recordCalls []
      = some ([(1, ["a", "b", "c", "d"]), (2, ["a", "b", "c", "d"]), (3, ["a", "b", "c", "d"]),
          (4, ["a", "b", "c", "d"]), (5, ["a", "b", "c", "d"])], none) :=
  (EachRow_calls_once_per_row
    ⟨CsvDataFormat, some (FormatConfig.csvOptions (some { HeaderRow := true })), "/data"⟩ true
    [["col_a", "col_b", "col_c", "col_d"], ["a", "b", "c", "d"], ["a", "b", "c", "d"],
      ["a", "b", "c", "d"], ["a", "b", "c", "d"], ["a", "b", "c", "d"]]
    recordCalls [] rfl rfl (fun _ _ _ _ => rfl)).2.2.1



/-! ## Variable names -/

theorem VariableName_UnmarshalJSON_string (matchString : String → Bool) (name s : String) :
    (matchString s = false → VariableName.UnmarshalJSON matchString name (JSON.str s) = .ok s) ∧
    (matchString s = true →
      ∃ msg, VariableName.UnmarshalJSON matchString name (JSON.str s) = .error msg) := by
  constructor
  · intro h
    simp [VariableName.UnmarshalJSON, unmarshalString, h]
  · intro h
    refine ⟨"variable name must contain only letters, numbers, '_' or '-', " ++
      "and start with a letter", ?_⟩
    simp only [VariableName.UnmarshalJSON, unmarshalString, h, if_true]

theorem VariableName_UnmarshalJSON_null (matchString : String → Bool) (name : String)
    (h : matchString "" = false) :
    VariableName.UnmarshalJSON matchString name JSON.null = .ok "" := by
  simp [VariableName.UnmarshalJSON, unmarshalString, h]

theorem VariableName_UnmarshalJSON_other (matchString : String → Bool) (name : String)
    (data : JSON) (hstr : ∀ s, data ≠ JSON.str s) (hnull : data ≠ JSON.null) :
    VariableName.UnmarshalJSON matchString name data = .error "type should be a string" := by
  cases data with
  | str s => exact absurd rfl (hstr s)
  | null => exact absurd rfl hnull
  | _ => rfl

/-- C22 (the code at the failing input): `VariableName.UnmarshalJSON` returns its error for
the JSON string `abc`, which conforms to the pattern of variable names, and accepts the JSON
string `1 b`, which does not conform, storing it as the name; JSON `null`, which is not a
string, is accepted as well and stores the empty name. -/
theorem VariableName_UnmarshalJSON_inverted :
    alphaNumericRegex "abc" = true ∧
      VariableName.UnmarshalJSON alphaNumericRegex "old" (JSON.str "abc")
        = .error ("variable name must contain only letters, numbers, '_' or '-', " ++
            "and start with a letter") ∧
      alphaNumericRegex "1 b" = false ∧
      VariableName.UnmarshalJSON alphaNumericRegex "old" (JSON.str "1 b") = .ok "1 b" ∧
      VariableName.UnmarshalJSON alphaNumericRegex "old" JSON.null = .ok "" :=
  ⟨by decide, rfl, by decide, rfl, rfl⟩

/-! ## Reading a License back -/

theorem License_roundtrip_holds (l l0 : License)
    (hplain : l.Url = "" → ∀ c ∈ l.Type_.data, plainChar c = true) :
    ∃ enc j, l.MarshalJSON = .ok enc ∧ enc.toJSON = some j ∧
      License.UnmarshalJSON l0 enc = .ok l := by
  by_cases h : l.Type_ ≠ "" ∧ l.Url = ""
  · refine ⟨Encoded.quoted l.Type_, JSON.str l.Type_, by simp [License.MarshalJSON, h], ?_, ?_⟩
    · simp [Encoded.toJSON, unquoteRest_plain l.Type_.data (hplain h.2)]
    · obtain ⟨t, u⟩ := l
      simp only at h
      simp [License.UnmarshalJSON, Encoded.toJSON,
        unquoteRest_plain t.data (hplain h.2), unmarshalString, h.2]
  · refine ⟨Encoded.value (JSON.obj ([("type", JSON.str l.Type_)] ++
      (if l.Url = "" then [] else [("url", JSON.str l.Url)]))), _,
      by simp only [License.MarshalJSON, h, if_false], rfl, ?_⟩
    have htype : foldName "type" = "type" := by decide
    have hurl : foldName "url" = "url" := by decide
    have hne : ("url" : String) ≠ "type" := by decide
    obtain ⟨t, u⟩ := l
    by_cases hu : u = ""
    · simp [License.UnmarshalJSON, Encoded.toJSON, unmarshalString, unmarshal_license,
        decodeLicenseMembers, decodeLicenseMember, htype, hu]
    · simp [License.UnmarshalJSON, Encoded.toJSON, unmarshalString, unmarshal_license,
        decodeLicenseMembers, decodeLicenseMember, htype, hurl, hne, hu]

/-- C24 (the code at the failing input): for the License whose type holds a double quote and
whose url is empty, `MarshalJSON` returns a text that is not JSON and `UnmarshalJSON` of it
returns an error; for the License whose type holds a backslash, `UnmarshalJSON` of the text
of `MarshalJSON` returns without error a License of another type. -/
theorem License_roundtrip_fails :
    quoteLicense.MarshalJSON = .ok (Encoded.quoted quoteLicense.Type_) ∧
      License.UnmarshalJSON { Type_ := "", Url := "" } (Encoded.quoted quoteLicense.Type_)
        = .error "invalid character in JSON text" ∧
      backslashLicense.MarshalJSON = .ok (Encoded.quoted backslashLicense.Type_) ∧
      License.UnmarshalJSON { Type_ := "", Url := "" } (Encoded.quoted backslashLicense.Type_)
        = .ok { Type_ := String.mk [Char.ofNat 97, Char.ofNat 10, Char.ofNat 98], Url := "" } ∧
      ({ Type_ := String.mk [Char.ofNat 97, Char.ofNat 10, Char.ofNat 98], Url := "" } : License)
        ≠ backslashLicense :=
  ⟨rfl, rfl, rfl, rfl, fun h => absurd (congrArg License.Type_ h) (by decide)⟩



/-! ## Bounds of the tally update -/

theorem tallyCells_none_iff {T : Type} [DecidableEq T] (pd : String → T)
    (cells : List String) :
    ∀ (i : Nat) (types : List (Tally T)),
      tallyCells pd i cells types = none ↔ cells ≠ [] ∧ types.length < i + cells.length := by
  induction cells with
  | nil => intro i types; simp [tallyCells]
  | cons cell cells ih =>
    intro i types
    simp only [tallyCells]
    by_cases hi : i < types.length
    · simp only [hi, if_true]
      rw [ih]
      simp only [List.length_set, List.length_cons, ne_eq, reduceCtorEq, not_false_eq_true,
        true_and]
      constructor
      · rintro ⟨_, h⟩
        omega
      · intro h
        refine ⟨?_, by omega⟩
        intro hc
        subst hc
        simp only [List.length_nil] at h
        omega
    · simp only [hi, if_false, List.length_cons, ne_eq, reduceCtorEq, not_false_eq_true,
        true_and, true_iff]
      omega

theorem scanRecords_panic_iff {T : Type} [DecidableEq T] (pd : String → T)
    (reads : List ReadResult) :
    ∀ (types : List (Tally T)) (count : Nat),
      scanRecords pd reads types count = .panic ↔
        ∃ (recs : List (List String)) (rec : List String) (more : List ReadResult),
          reads = recs.map ReadResult.record ++ ReadResult.record rec :: more ∧
          count + recs.length ≤ 2000 ∧ types.length < rec.length := by
  induction reads with
  | nil =>
    intro types count
    constructor
    · intro h
      simp [scanRecords] at h
    · rintro ⟨recs, rec, more, h, _⟩
      simp at h
  | cons r rest ih =>
    intro types count
    cases r with
    | error msg =>
      constructor
      · intro h
        simp only [scanRecords] at h
        split_ifs at h
      · rintro ⟨recs, rec, more, h, _⟩
        cases recs with
        | nil => simp at h
        | cons a recs => simp at h
    | record rec0 =>
      by_cases hc : count > 2000
      · constructor
        · intro h
          simp [scanRecords, hc] at h
        · rintro ⟨recs, rec, more, _, h, _⟩
          omega
      · simp only [scanRecords, hc, if_false]
        cases ht : tallyCells pd 0 rec0 types with
        | none =>
          have hw := (tallyCells_none_iff pd rec0 0 types).1 ht
          simp only [true_iff]
          exact ⟨[], rec0, rest, by simp, by simp only [List.length_nil]; omega, by omega⟩
        | some types1 =>
          have hlen := (tallyCells_spec pd rec0 0 types types1 ht).1
          have hin : rec0.length ≤ types.length := by
            by_contra hcon
            have hne : rec0 ≠ [] := by
              intro h0
              subst h0
              simp only [List.length_nil] at hcon
              omega
            have hnone := (tallyCells_none_iff pd rec0 0 types).2 ⟨hne, by omega⟩
            rw [hnone] at ht
            cases ht
          simp only
          rw [ih types1 (count + 1), hlen]
          constructor
          · rintro ⟨recs, rec, more, h1, h2, h3⟩
            exact ⟨rec0 :: recs, rec, more, by simp [h1],
              by simp only [List.length_cons]; omega, h3⟩
          · rintro ⟨recs, rec, more, h1, h2, h3⟩
            cases recs with
            | nil =>
              simp only [List.map_nil, List.nil_append, List.cons.injEq,
                ReadResult.record.injEq] at h1
              obtain ⟨⟨rfl⟩, _⟩ := h1
              omega
            | cons a recs =>
              simp only [List.map_cons, List.cons_append, List.cons.injEq,
                ReadResult.record.injEq] at h1
              obtain ⟨_, rfl⟩ := h1
              exact ⟨recs, rec, more, rfl, by simp only [List.length_cons] at h2; omega, h3⟩

/-- C23: in `CSVFields` the update `types[i][...]++` of the cells of a record is in bounds
exactly when the record has no more cells than `types` has columns, which is the number of
cells of the first record; a call runs into the index out of range exactly when one of the
records it tallies, that is a record among the first 2001 after the first one with only
records read before it, has more cells than the first record; the call returns exactly when
there is no such record. -/
theorem CSVFields_tally_in_bounds_iff {Cmp Sch T I F M C : Type} [DecidableEq T]
    [Inhabited M] [Inhabited C] (env : DetectEnv T I F) (iter : Nat → Tally T → List T)
    (resource : Structure Cmp Sch) (data : List ReadResult) :
    (∀ (rec : List String) (types : List (Tally T)),
      (∃ types1, tallyCells env.ParseDatatype 0 rec types = some types1) ↔
        rec.length ≤ types.length) ∧
    ((CSVFields env iter resource data : Option (CSVFieldsRun Cmp Sch T M C)) = none ↔
      ∃ (header : List String) (recs : List (List String)) (rec : List String)
          (more : List ReadResult),
        data = ReadResult.record header ::
          (recs.map ReadResult.record ++ ReadResult.record rec :: more) ∧
        recs.length ≤ 2000 ∧ header.length < rec.length) ∧
    ((∃ run : CSVFieldsRun Cmp Sch T M C, CSVFields env iter resource data = some run) ↔
      ∀ (header : List String) (recs : List (List String)) (rec : List String)
          (more : List ReadResult),
        data = ReadResult.record header ::
          (recs.map ReadResult.record ++ ReadResult.record rec :: more) →
        recs.length ≤ 2000 → rec.length ≤ header.length) := by
  have hupd : ∀ (rec : List String) (types : List (Tally T)),
      (∃ types1, tallyCells env.ParseDatatype 0 rec types = some types1) ↔
        rec.length ≤ types.length := by
    intro rec types
    constructor
    · rintro ⟨types1, h⟩
      by_contra hcon
      have hne : rec ≠ [] := by
        intro h0
        subst h0
        simp only [List.length_nil] at hcon
        omega
      have hnone := (tallyCells_none_iff env.ParseDatatype rec 0 types).2 ⟨hne, by omega⟩
      rw [hnone] at h
      cases h
    · intro h
      exact tallyCells_in_bounds env.ParseDatatype rec 0 types (by omega)
  have hnone : (CSVFields env iter resource data : Option (CSVFieldsRun Cmp Sch T M C)) = none ↔
      ∃ (header : List String) (recs : List (List String)) (rec : List String)
          (more : List ReadResult),
        data = ReadResult.record header ::
          (recs.map ReadResult.record ++ ReadResult.record rec :: more) ∧
        recs.length ≤ 2000 ∧ header.length < rec.length := by
    cases data with
    | nil =>
      constructor
      · intro h
        simp [CSVFields] at h
      · rintro ⟨header, recs, rec, more, h, _⟩
        cases h
    | cons r rest =>
      cases r with
      | error msg =>
        constructor
        · intro h
          simp [CSVFields] at h
        · rintro ⟨header, recs, rec, more, h, _⟩
          cases h
      | record header =>
        have hscan : ∀ types1 : List (Tally T), types1.length = header.length →
            ((CSVFields env iter resource (ReadResult.record header :: rest) :
                Option (CSVFieldsRun Cmp Sch T M C)) = none ↔
              scanRecords env.ParseDatatype rest types1 0 = .panic) →
            ((CSVFields env iter resource (ReadResult.record header :: rest) :
                Option (CSVFieldsRun Cmp Sch T M C)) = none ↔
              ∃ (header1 : List String) (recs : List (List String)) (rec : List String)
                  (more : List ReadResult),
                ReadResult.record header :: rest = ReadResult.record header1 ::
                  (recs.map ReadResult.record ++ ReadResult.record rec :: more) ∧
                recs.length ≤ 2000 ∧ header1.length < rec.length) := by
          intro types1 hlen hiff
          rw [hiff, scanRecords_panic_iff, hlen]
          constructor
          · rintro ⟨recs, rec, more, h1, h2, h3⟩
            exact ⟨header, recs, rec, more, by rw [h1], by omega, h3⟩
          · rintro ⟨header1, recs, rec, more, h1, h2, h3⟩
            simp only [List.cons.injEq, ReadResult.record.injEq] at h1
            obtain ⟨rfl, rfl⟩ := h1
            exact ⟨recs, rec, more, rfl, by omega, h3⟩
        cases hh : possibleCsvHeaderRow env.ParseInteger env.ParseFloat header
        · obtain ⟨types1, ht⟩ := tallyCells_in_bounds env.ParseDatatype header 0
            (List.replicate header.length []) (by simp)
          have hlen := (tallyCells_spec env.ParseDatatype header 0 _ types1 ht).1
          apply hscan types1 (by simpa using hlen)
          unfold CSVFields
          simp only [hh, Bool.false_eq_true, if_false, ht]
          cases scanRecords env.ParseDatatype rest types1 0 <;> simp
        · apply hscan (List.replicate header.length []) (by simp)
          unfold CSVFields
          simp only [hh, if_true]
          cases scanRecords env.ParseDatatype rest (List.replicate header.length []) 0 <;> simp
  refine ⟨hupd, hnone, ?_⟩
  constructor
  · rintro ⟨run, hrun⟩ header recs rec more hd hl
    by_contra hcon
    have hn := hnone.2 ⟨header, recs, rec, more, hd, hl, by omega⟩
    rw [hn] at hrun
    cases hrun
  · intro h
    cases hc : (CSVFields env iter resource data : Option (CSVFieldsRun Cmp Sch T M C)) with
    | some run => exact ⟨run, rfl⟩
    | none =>
      obtain ⟨header, recs, rec, more, hd, hl, hw⟩ := hnone.1 hc
      have := h header recs rec more hd hl
      omega

theorem CSVFields_tally_in_bounds_iff_witness :
    (CSVFields specEnv creationOrder csvResource
        [ReadResult.record ["name", "age"], ReadResult.record ["bob", "3"],
          ReadResult.record ["al", "4", "x"]] :
      Option (CSVFieldsRun String String Datatype Unit Unit)) = none :=
  (CSVFields_tally_in_bounds_iff specEnv creationOrder csvResource
      [ReadResult.record ["name", "age"], ReadResult.record ["bob", "3"],
        ReadResult.record ["al", "4", "x"]]).2.1.2
    ⟨["name", "age"], [["bob", "3"]], ["al", "4", "x"], [], rfl, by decide, by decide⟩


/-! ## Records wider than the first -/

theorem CSVFields_panics_of_wider_record {Cmp Sch T I F M C : Type} [DecidableEq T]
    [Inhabited M] [Inhabited C] (env : DetectEnv T I F) (iter : Nat → Tally T → List T)
    (resource : Structure Cmp Sch) (header : List String) (recs : List (List String))
    (rec : List String) (more : List ReadResult)
    (hn : recs.length ≤ 2000) (hw : header.length < rec.length) :
    (CSVFields env iter resource (ReadResult.record header ::
      (recs.map ReadResult.record ++ ReadResult.record rec :: more)) :
        Option (CSVFieldsRun Cmp Sch T M C)) = none := by
  have hp : ∀ types1 : List (Tally T), types1.length = header.length →
      scanRecords env.ParseDatatype
        (recs.map ReadResult.record ++ ReadResult.record rec :: more) types1 0
        = ScanOutcome.panic := by
    intro types1 hlen
    exact (scanRecords_panic_iff env.ParseDatatype _ types1 0).2
      ⟨recs, rec, more, rfl, by omega, by omega⟩
  unfold CSVFields
  cases hh : possibleCsvHeaderRow env.ParseInteger env.ParseFloat header
  · obtain ⟨types1, ht⟩ := tallyCells_in_bounds env.ParseDatatype header 0
      (List.replicate header.length []) (by simp)
    have hlen := (tallyCells_spec env.ParseDatatype header 0 _ types1 ht).1
    simp only [hh, Bool.false_eq_true, if_false, ht, hp types1 (by simpa using hlen)]
  · simp only [hh, if_true, hp (List.replicate header.length []) (by simp)]

/-- C11 (the code at the failing input): the first record `name,age` is judged a header and
every read returns a record, yet `CSVFields` returns no Field list: the third record
`al,4,x` has three cells, and the tally update indexes `types`, which has two elements, at
index 2, a run-time panic. This holds whatever the parsers and the iteration order are. -/
theorem CSVFields_header_row_wider_record_panics :
    possibleCsvHeaderRow specEnv.ParseInteger specEnv.ParseFloat ["name", "age"] = true ∧
    (CSVFields specEnv creationOrder csvResource
        [ReadResult.record ["name", "age"], ReadResult.record ["bob", "3"],
          ReadResult.record ["al", "4", "x"]] :
      Option (CSVFieldsRun String String Datatype Unit Unit)) = none ∧
    ∀ (env : DetectEnv Datatype Int (Int × Nat)) (iter : Nat → Tally Datatype → List Datatype),
      (CSVFields env iter csvResource
          [ReadResult.record ["name", "age"], ReadResult.record ["bob", "3"],
            ReadResult.record ["al", "4", "x"]] :
        Option (CSVFieldsRun String String Datatype Unit Unit)) = none :=
  ⟨by decide,
    CSVFields_panics_of_wider_record specEnv creationOrder csvResource ["name", "age"]
      [["bob", "3"]] ["al", "4", "x"] [] (by decide) (by decide),
    fun env iter => CSVFields_panics_of_wider_record env iter csvResource ["name", "age"]
      [["bob", "3"]] ["al", "4", "x"] [] (by decide) (by decide)⟩

/-- C12 (the code at the failing input): the first record `1,x` is judged not a header and
both reads return a record, yet `CSVFields` returns no Field list: the second record `2,y,z`
has three cells, and the tally update indexes `types`, which has two elements, at index 2, a
run-time panic. This holds whatever the parsers and the iteration order are. -/
theorem CSVFields_no_header_row_wider_record_panics :
    possibleCsvHeaderRow specEnv.ParseInteger specEnv.ParseFloat ["1", "x"] = false ∧
    (CSVFields specEnv creationOrder csvResource
        [ReadResult.record ["1", "x"], ReadResult.record ["2", "y", "z"]] :
      Option (CSVFieldsRun String String Datatype Unit Unit)) = none ∧
    ∀ (env : DetectEnv Datatype Int (Int × Nat)) (iter : Nat → Tally Datatype → List Datatype),
      (CSVFields env iter csvResource
          [ReadResult.record ["1", "x"], ReadResult.record ["2", "y", "z"]] :
        Option (CSVFieldsRun String String Datatype Unit Unit)) = none :=
  ⟨by decide,
    CSVFields_panics_of_wider_record specEnv creationOrder csvResource ["1", "x"]
      [] ["2", "y", "z"] [] (by decide) (by decide),
    fun env iter => CSVFields_panics_of_wider_record env iter csvResource ["1", "x"]
      [] ["2", "y", "z"] [] (by decide) (by decide)⟩

/-- C14 (the code at the failing input): after the header `n`, the first column holds the
eight integer cells `1` to `8` and the two string cells `x` and `y`, and every read returns a
record, yet `CSVFields` returns no type for the column: the last record `y,z` has two cells,
and the tally update indexes `types`, which has one element, at index 1, a run-time panic.
This holds whatever the parsers and the iteration order are. -/
theorem CSVFields_column_type_wider_record_panics :
    cellCount specEnv.ParseDatatype
        [["1"], ["2"], ["3"], ["4"], ["5"], ["6"], ["7"], ["8"], ["x"], ["y", "z"]] 0
        Datatype.integer = 8 ∧
    cellCount specEnv.ParseDatatype
        [["1"], ["2"], ["3"], ["4"], ["5"], ["6"], ["7"], ["8"], ["x"], ["y", "z"]] 0
        Datatype.string = 2 ∧
    (CSVFields specEnv creationOrder csvResource
        (ReadResult.record ["n"] ::
          ([["1"], ["2"], ["3"], ["4"], ["5"], ["6"], ["7"], ["8"], ["x"]].map
            ReadResult.record ++ [ReadResult.record ["y", "z"]])) :
      Option (CSVFieldsRun String String Datatype Unit Unit)) = none ∧
    ∀ (env : DetectEnv Datatype Int (Int × Nat)) (iter : Nat → Tally Datatype → List Datatype),
      (CSVFields env iter csvResource
          (ReadResult.record ["n"] ::
            ([["1"], ["2"], ["3"], ["4"], ["5"], ["6"], ["7"], ["8"], ["x"]].map
              ReadResult.record ++ [ReadResult.record ["y", "z"]])) :
        Option (CSVFieldsRun String String Datatype Unit Unit)) = none :=
  ⟨by decide, by decide,
    CSVFields_panics_of_wider_record specEnv creationOrder csvResource ["n"]
      [["1"], ["2"], ["3"], ["4"], ["5"], ["6"], ["7"], ["8"], ["x"]] ["y", "z"] []
      (by decide) (by decide),
    fun env iter => CSVFields_panics_of_wider_record env iter csvResource ["n"]
      [["1"], ["2"], ["3"], ["4"], ["5"], ["6"], ["7"], ["8"], ["x"]] ["y", "z"] []
      (by decide) (by decide)⟩

/-! ## A nil pointer to the csv options -/

/-- C21 (the code at the failing input): on a csv resource whose FormatConfig holds a nil
pointer to `CsvOptions`, which requests no header row and for which the sibling `Map`
returns nil, `HeaderRow` dereferences the nil pointer, so `EachRow` panics on three
well-formed records, with a callback that never returns an error, instead of calling it
three times. -/
theorem EachRow_nil_csv_options_panics :
    (FormatConfig.csvOptions none).Map = none ∧
    HeaderRow ⟨CsvDataFormat, some (FormatConfig.csvOptions none), "/data"⟩ = none ∧
    EachRow ⟨CsvDataFormat, some (FormatConfig.csvOptions none), "/data"⟩
        ([["a", "b"], ["c", "d"], ["e", "f"]].map ReadResult.record) recordCalls [] = none ∧
    ∀ (reads : List ReadResult) (fn : DataIteratorFunc Unit),
      EachRow ⟨CsvDataFormat, some (FormatConfig.csvOptions none), "/data"⟩ reads fn ()
        = none :=
  ⟨rfl, rfl, rfl, fun _ _ => rfl⟩


/-! ## Column types and the cells counted -/

theorem scanRecords_records_tally {T : Type} [DecidableEq T] (pd : String → T)
    (recs : List (List String)) (types types1 : List (Tally T)) (count1 : Nat)
    (rest1 : List ReadResult)
    (h : scanRecords pd (recs.map ReadResult.record) types 0
      = ScanOutcome.done types1 count1 rest1) :
    ∀ j u, tallyGet (types1.getD j []) u =
      tallyGet (types.getD j []) u + cellCount pd (recs.take 2001) j u := by
  obtain ⟨recs1, h1, h2, -, -, h5, h6⟩ := scanRecords_done pd _ types 0 types1 count1 rest1 h
  have hstop := scanRecords_done_stop pd _ types 0 types1 count1 rest1 h
  rw [Nat.zero_add] at h1
  have hle : count1 ≤ 2001 := h5 (by omega)
  rw [← List.map_take] at h2
  have hinj : Function.Injective ReadResult.record := fun a b hab => by
    cases hab
    rfl
  have h3 : recs.take recs1.length = recs1 := List.map_injective_iff.2 hinj h2
  have hlen1 : recs1.length ≤ recs.length := by
    have h4 := congrArg List.length h3
    rw [List.length_take] at h4
    omega
  have hcase : recs1 = recs.take 2001 := by
    rw [Nat.sub_zero] at hstop
    rcases hstop with hgt | hnone | heof
    · have h7 : recs1.length = 2001 := by omega
      rw [h7] at h3
      exact h3.symm
    · rw [List.get?_eq_none, List.length_map] at hnone
      rw [List.take_of_length_le (by omega)] at h3
      rw [List.take_of_length_le (by omega)]
      exact h3.symm
    · rw [List.get?_eq_getElem?, List.getElem?_map, ← List.get?_eq_getElem?] at heof
      cases hg : recs.get? count1 with
      | none =>
        rw [hg] at heof
        cases heof
      | some rec =>
        rw [hg] at heof
        cases heof
  rw [← hcase]
  exact h6

/-- Where every read returns a record and no record among the first 2001 after the first
has more cells than the first, `CSVFields` returns without error one Field per cell of the
first record, and the type of each column is one with the largest number of cells
classified as it in that column, over the records tallied (the first 2001 records after the
first, and the first record too unless it is judged a header): the type is `any` when no
cell of the column is tallied, and a type with 8 cells is the type returned when every other
type has at most 2. The keys of a tally map are ranged over in an arbitrary order that
visits each key once. -/
theorem CSVFields_type_has_most_cells {Cmp Sch T I F M C : Type} [DecidableEq T]
    [Inhabited M] [Inhabited C] (env : DetectEnv T I F) (iter : Nat → Tally T → List T)
    (resource : Structure Cmp Sch) (header : List String) (recs : List (List String))
    (hiter : ∀ i tally, (iter i tally).Perm (tally.map Prod.fst))
    (hw : ∀ rec ∈ recs.take 2001, rec.length ≤ header.length) :
    ∃ (run : CSVFieldsRun Cmp Sch T M C) (fields : List (Field T M C))
        (tallied : List (List String)),
      CSVFields env iter resource (ReadResult.record header :: recs.map ReadResult.record)
        = some run ∧
      run.err = none ∧ run.fields = some fields ∧ fields.length = header.length ∧
      tallied = (if possibleCsvHeaderRow env.ParseInteger env.ParseFloat header = true
        then [] else [header]) ++ recs.take 2001 ∧
      ∀ j f, fields.get? j = some f →
        (∀ u, cellCount env.ParseDatatype tallied j u
          ≤ cellCount env.ParseDatatype tallied j f.Type_) ∧
        ((∀ u, cellCount env.ParseDatatype tallied j u = 0) → f.Type_ = env.Any) ∧
        (∀ u, cellCount env.ParseDatatype tallied j u = 8 →
          (∀ v, v ≠ u → cellCount env.ParseDatatype tallied j v ≤ 2) → f.Type_ = u) := by
  have hreads : ∀ r ∈ (recs.map ReadResult.record).take 2001,
      ∃ rec, r = ReadResult.record rec ∧ rec.length ≤ header.length := by
    intro r hr
    rw [← List.map_take, List.mem_map] at hr
    obtain ⟨rec, hmem, rfl⟩ := hr
    exact ⟨rec, rfl, hw rec hmem⟩
  obtain ⟨run, hrun, herr⟩ :=
    CSVFields_returns (M := M) (C := C) env iter resource header _ hreads
  obtain ⟨fields, hfields, hflen, htlen, hprop⟩ :=
    (CSVFields_type_has_highest_tally env iter resource header _ hiter).1 run hrun herr
  obtain ⟨types1, fields1, hfirst, hscan⟩ :=
    CSVFields_record env iter resource header _ run hrun
  refine ⟨run, fields, _, hrun, herr, hfields, hflen, rfl, ?_⟩
  rcases hscan with ⟨hs, -, -⟩ | ⟨msg, -, he, -⟩
  · have htally := scanRecords_records_tally env.ParseDatatype recs types1 run.types
      run.count run.rest hs
    have hcells : ∀ j u, tallyGet (run.types.getD j []) u =
        cellCount env.ParseDatatype
          ((if possibleCsvHeaderRow env.ParseInteger env.ParseFloat header = true
            then [] else [header]) ++ recs.take 2001) j u := by
      intro j u
      rcases hfirst with ⟨hyes, ht, -, -⟩ | ⟨hno, ht, -, -⟩
      · rw [htally j u, ht, getD_replicate_nil]
        simp [tallyGet, hyes]
      · obtain ⟨-, hget⟩ := tallyCells_spec env.ParseDatatype header 0 _ types1 ht
        rw [htally j u, hget j u, getD_replicate_nil]
        simp only [hno, Bool.false_eq_true, if_false, List.singleton_append, cellCount_cons]
        simp [tallyGet]
        omega
    intro j f hf
    have hj : j < run.types.length := by
      rw [htlen, ← hflen]
      exact (List.get?_eq_some.1 hf).1
    have ht : run.types.get? j = some (run.types.getD j []) := by
      rw [List.getD_eq_getElem?_getD, List.get?_eq_getElem?, List.getElem?_eq_getElem hj]
      rfl
    obtain ⟨p1, p2, p3⟩ := hprop j f _ hf ht
    simp only [hcells] at p1 p2 p3
    exact ⟨p1, p2, p3⟩
  · rw [herr] at he
    cases he

theorem CSVFields_type_has_most_cells_example :
    ∃ (run : CSVFieldsRun String String Datatype Unit Unit),
      CSVFields specEnv creationOrder csvResource
          (ReadResult.record ["n"] ::
            [["1"], ["2"], ["x"], ["3"], ["4"], ["5"], ["y"], ["6"], ["7"], ["8"]].map
              ReadResult.record) = some run ∧
      run.err = none ∧
      run.fields.map (List.map fun f => f.Type_) = some [Datatype.integer] := by
  obtain ⟨run, fields, tallied, hrun, herr, hfields, hlen, htallied, hprop⟩ :=
    CSVFields_type_has_most_cells (M := Unit) (C := Unit) specEnv creationOrder csvResource
      ["n"] [["1"], ["2"], ["x"], ["3"], ["4"], ["5"], ["y"], ["6"], ["7"], ["8"]]
      creationOrder_perm (by decide)
  refine ⟨run, hrun, herr, ?_⟩
  rw [hfields]
  match fields, hlen, hprop with
  | [f], _, hprop =>
    have h8 := (hprop 0 f rfl).2.2 Datatype.integer (by rw [htallied]; decide)
      (by
        intro v hv
        rw [htallied]
        cases v <;> first | exact absurd rfl hv | decide)
    simp [h8]

end Dataset
